import Mathlib

/-!
# Cave Explorer (15-466-f17-base1): the cart state machine and the frame geometry

A shallow embedding of the game logic of `src/main.cpp`.

Conventions of the embedding.

* `float` quantities (`cart`, `loc`, `elapsed`, texture coordinates) are rationals. The
  definitions `handleKey`, `update`, `run` and the frame geometry compute with them
  exactly. The definitions `handleKeyR`, `updateR`, `runR` round the result of every
  operation on them; with the rounding `fl32` of IEEE 754 binary32 they are the
  arithmetic of the program, and the glide-through is settled for them.
* `int` quantities (`state`, `num_gold_left`, grid cells, the clock sample) are integers.
* `glm::uvec2 pos` is a pair of naturals below `2^32`; `pos.x--` and `pos.x++` wrap
  modulo `2^32`.
* `grid[r][c]` and `lit[r][c]` are total functions of the indices, and every access of the
  program goes through a bounds check of the embedding: an access with `r >= 11` or
  `c >= 11` (undefined behaviour in the program) ends the run with `Fault.outOfBounds`;
  `clock % num_gold_left` with a zero divisor ends it with `Fault.divByZero`.
* The four `while` loops of the update are one function `loop` with a fuel argument; the
  update calls it with fuel `12`. This is always enough (`update_fuel`: a loop body either
  stops the loop, or moves the cart one cell towards the edge of the 11 x 11 grid, or
  faults), and more fuel gives the same result (`loop_mono`).
-/

namespace CaveExplorer

/-! ## Data model -/

/-- The ways a run of the program can leave defined behaviour (the last one is the
fuel of the embedding of the `while` loops; it is shown never to occur). -/
inductive Fault where
  | outOfBounds
  | divByZero
  | outOfFuel
deriving DecidableEq, Repr

/-- The type `glm::vec2`. -/
structure Vec2 where
  x : ℚ
  y : ℚ
deriving DecidableEq

/-- The type `glm::uvec2`. -/
structure UVec2 where
  x : Nat
  y : Nat
deriving DecidableEq, Repr

/-- Rows of the grid: `const int length = 11`. -/
def length : Nat := 11

/-- Columns of the grid: `const int width = 11`. -/
def width : Nat := 11

/-- The constant `const float speed = 5.0f`. -/
def speed : ℚ := 5

/-- The game state of `main`: `grid`, `lit`, `pos`, `cart`, `loc`, `state`,
`num_gold_left`. -/
structure State where
  grid : Nat → Nat → Int
  lit : Nat → Nat → Bool
  pos : UVec2
  cart : Vec2
  loc : ℚ
  state : Int
  num_gold_left : Int

/-- Unsigned 32-bit decrement, `pos.x--`: `0` wraps to `2^32 - 1`
(`dec32_eq_mod`: this is `(n + 2^32 - 1) % 2^32`). -/
def dec32 (n : Nat) : Nat := if n = 0 then 4294967295 else n - 1

/-- Unsigned 32-bit increment, `pos.x++`: `2^32 - 1` wraps to `0`
(`inc32_eq_mod`: this is `(n + 1) % 2^32`). -/
def inc32 (n : Nat) : Nat := if n = 4294967295 then 0 else n + 1

/-- The array `grid` with `grid[r][c] = v`. -/
def setCell (g : Nat → Nat → Int) (r c : Nat) (v : Int) : Nat → Nat → Int :=
  fun i j => if i = r ∧ j = c then v else g i j

/-- The array `lit` with `lit[r][c] = true`. -/
def setTrue (l : Nat → Nat → Bool) (r c : Nat) : Nat → Nat → Bool :=
  fun i j => if i = r ∧ j = c then true else l i j

/-- The condition `guard && grid[r][c] == k`, short-circuit, with the read checked. -/
def cellIs (s : State) (guard : Bool) (r c : Nat) (k : Int) : Except Fault Bool :=
  if guard then
    if r < length ∧ c < width then .ok (decide (s.grid r c = k)) else .error .outOfBounds
  else .ok false

/-- The statement `lit[r][c] = true`, with the write checked. -/
def setLit (s : State) (r c : Nat) : Except Fault State :=
  if r < length ∧ c < width then .ok { s with lit := setTrue s.lit r c }
  else .error .outOfBounds

/-- The hard-coded level, `int grid[length][width]`. -/
def level : List (List Int) :=
  [ [0, 2, 0, 2, 2, 0, 2, 2, 0, 4, 3],
    [4, 4, 1, 4, 4, 1, 4, 4, 1, 4, 0],
    [3, 4, 0, 4, 4, 1, 4, 4, 1, 4, 1],
    [0, 4, 4, 4, 4, 0, 2, 2, 0, 4, 1],
    [1, 4, 4, 4, 4, 1, 4, 4, 1, 4, 1],
    [0, 2, 2, 2, 2, 0, 4, 4, 0, 2, 0],
    [4, 4, 4, 4, 4, 1, 4, 4, 4, 4, 4],
    [3, 4, 0, 2, 2, 0, 2, 2, 0, 2, 0],
    [0, 4, 1, 4, 4, 4, 4, 4, 1, 4, 3],
    [1, 4, 1, 4, 4, 4, 3, 4, 1, 4, 4],
    [0, 2, 0, 2, 2, 2, 0, 2, 0, 2, 0] ]

/-- The grid of a table of rows (cells outside the table read as `0`; they are never
accessed). -/
def gridOf (rows : List (List Int)) : Nat → Nat → Int :=
  fun r c => (rows.getD r []).getD c 0

/-- The state before the first event: `pos = (5, 5)`, `cart = (0, 0)`, `loc = 0`,
`state = 0`, `num_gold_left = 5`, and `lit` all false except `lit[pos.y][pos.x]`. -/
def initial : State :=
  { grid := gridOf level
    lit := setTrue (fun _ _ => false) 5 5
    pos := ⟨5, 5⟩
    cart := ⟨0, 0⟩
    loc := 0
    state := 0
    num_gold_left := 5 }

/-! ## Input handling (key-down events) -/

/-- The keys the handler distinguishes; `other` is any key without a binding (Escape
only sets the quit flag of the frame driver, which is not part of the game state). -/
inductive Key where
  | left
  | right
  | up
  | down
  | space
  | other
deriving DecidableEq, Repr

/-- Branch `SDLK_LEFT`. -/
def keyLeft (s : State) : Except Fault State :=
  let s := { s with state := 0 }
  match cellIs s (decide (s.pos.x > 0)) s.pos.y (s.pos.x - 1) 2 with
  | .error e => .error e
  | .ok false => .ok s
  | .ok true =>
    let s := { s with pos.x := dec32 s.pos.x }
    let s := { s with loc := s.cart.x - 1 }
    let s := { s with state := 1 }
    setLit s s.pos.y s.pos.x

/-- Branch `SDLK_RIGHT`. -/
def keyRight (s : State) : Except Fault State :=
  let s := { s with state := 0 }
  match cellIs s (decide (s.pos.x < width - 1)) s.pos.y (s.pos.x + 1) 2 with
  | .error e => .error e
  | .ok false => .ok s
  | .ok true =>
    let s := { s with pos.x := inc32 s.pos.x }
    let s := { s with loc := s.cart.x + 1 }
    let s := { s with state := 2 }
    setLit s s.pos.y s.pos.x

/-- Branch `SDLK_UP`. -/
def keyUp (s : State) : Except Fault State :=
  let s := { s with state := 3 }
  match cellIs s (decide (s.pos.y > 0)) (s.pos.y - 1) s.pos.x 1 with
  | .error e => .error e
  | .ok false => .ok s
  | .ok true =>
    let s := { s with pos.y := dec32 s.pos.y }
    let s := { s with loc := s.cart.y + 1 }
    let s := { s with state := 4 }
    setLit s s.pos.y s.pos.x

/-- Branch `SDLK_DOWN`. -/
def keyDown (s : State) : Except Fault State :=
  let s := { s with state := 3 }
  match cellIs s (decide (s.pos.y < length - 1)) (s.pos.y + 1) s.pos.x 1 with
  | .error e => .error e
  | .ok false => .ok s
  | .ok true =>
    let s := { s with pos.y := inc32 s.pos.y }
    let s := { s with loc := s.cart.y - 1 }
    let s := { s with state := 5 }
    setLit s s.pos.y s.pos.x

/-- The body shared by the four pickup branches, for the neighbour `grid[r][c]`:
`if (clock % num_gold_left == 0) state += 6; else { grid[r][c] = 7; num_gold_left--; }`. -/
def pickup (s : State) (clock : Int) (r c : Nat) : Except Fault State :=
  if s.num_gold_left = 0 then .error .divByZero
  else if Int.tmod clock s.num_gold_left = 0 then .ok { s with state := s.state + 6 }
  else if r < length ∧ c < width then
    .ok { s with grid := setCell s.grid r c 7, num_gold_left := s.num_gold_left - 1 }
  else .error .outOfBounds

/-- Branch `SDLK_SPACE`; `clock` is the value of
`high_resolution_clock::now().time_since_epoch().count()`. -/
def keySpace (s : State) (clock : Int) : Except Fault State :=
  match cellIs s (decide (s.pos.x > 0)) s.pos.y (s.pos.x - 1) 3 with
  | .error e => .error e
  | .ok true => pickup s clock s.pos.y (s.pos.x - 1)
  | .ok false =>
  match cellIs s (decide (s.pos.x < width - 1)) s.pos.y (s.pos.x + 1) 3 with
  | .error e => .error e
  | .ok true => pickup s clock s.pos.y (s.pos.x + 1)
  | .ok false =>
  match cellIs s (decide (s.pos.y > 0)) (s.pos.y - 1) s.pos.x 3 with
  | .error e => .error e
  | .ok true => pickup s clock (s.pos.y - 1) s.pos.x
  | .ok false =>
  match cellIs s (decide (s.pos.y < length - 1)) (s.pos.y + 1) s.pos.x 3 with
  | .error e => .error e
  | .ok true => pickup s clock (s.pos.y + 1) s.pos.x
  | .ok false => .ok s

/-- The handler of an `SDL_KEYDOWN` event: `if (state == 0 || state == 3) { ... }`. -/
def handleKey (s : State) (k : Key) (clock : Int) : Except Fault State :=
  if s.state = 0 ∨ s.state = 3 then
    match k with
    | .left => keyLeft s
    | .right => keyRight s
    | .up => keyUp s
    | .down => keyDown s
    | .space => keySpace s clock
    | .other => .ok s
  else .ok s

/-! ## Update of the game state -/

/-- The four directions of motion; the Moving modes are `1` (left), `2` (right),
`4` (up) and `5` (down). -/
inductive Dir where
  | left
  | right
  | up
  | down
deriving DecidableEq, Repr

/-- The lighting probe, the same text in the four loops: the first neighbour in the
order left, right, up, down that holds Gold (`3`) is lit. -/
def probe (s : State) : Except Fault State :=
  match cellIs s (decide (s.pos.x > 0)) s.pos.y (s.pos.x - 1) 3 with
  | .error e => .error e
  | .ok true => setLit s s.pos.y (s.pos.x - 1)
  | .ok false =>
  match cellIs s (decide (s.pos.x < width - 1)) s.pos.y (s.pos.x + 1) 3 with
  | .error e => .error e
  | .ok true => setLit s s.pos.y (s.pos.x + 1)
  | .ok false =>
  match cellIs s (decide (s.pos.y > 0)) (s.pos.y - 1) s.pos.x 3 with
  | .error e => .error e
  | .ok true => setLit s (s.pos.y - 1) s.pos.x
  | .ok false =>
  match cellIs s (decide (s.pos.y < length - 1)) (s.pos.y + 1) s.pos.x 3 with
  | .error e => .error e
  | .ok true => setLit s (s.pos.y + 1) s.pos.x
  | .ok false => .ok s

/-- The loop conditions: `cart.x < loc` (state 1), `cart.x > loc` (state 2),
`cart.y > loc` (state 4), `cart.y < loc` (state 5). -/
def loopCond (d : Dir) (s : State) : Bool :=
  match d with
  | .left => decide (s.cart.x < s.loc)
  | .right => decide (s.cart.x > s.loc)
  | .up => decide (s.cart.y > s.loc)
  | .down => decide (s.cart.y < s.loc)

/-- The then-branch of a loop body before the probe: `cart.x = loc; state = 0;`
(states 1 and 2), `cart.y = loc; state = 3;` (states 4 and 5). -/
def arrive (d : Dir) (s : State) : State :=
  match d with
  | .left => { s with cart.x := s.loc, state := 0 }
  | .right => { s with cart.x := s.loc, state := 0 }
  | .up => { s with cart.y := s.loc, state := 3 }
  | .down => { s with cart.y := s.loc, state := 3 }

/-- The else-branch of a loop body before the write to `lit`: `pos.x--; loc -= 1.0f;`
(state 1), `pos.x++; loc += 1.0f;` (state 2), `pos.y--; loc += 1.0f;` (state 4),
`pos.y++; loc -= 1.0f;` (state 5). -/
def advance (d : Dir) (s : State) : State :=
  match d with
  | .left => { s with pos.x := dec32 s.pos.x, loc := s.loc - 1 }
  | .right => { s with pos.x := inc32 s.pos.x, loc := s.loc + 1 }
  | .up => { s with pos.y := dec32 s.pos.y, loc := s.loc + 1 }
  | .down => { s with pos.y := inc32 s.pos.y, loc := s.loc - 1 }

/-- One execution of a loop body:
`if (grid[pos.y][pos.x] == 0) { arrive; probe } else { advance; lit[pos.y][pos.x] = true; }`. -/
def loopBody (d : Dir) (s : State) : Except Fault State :=
  match cellIs s true s.pos.y s.pos.x 0 with
  | .error e => .error e
  | .ok true => probe (arrive d s)
  | .ok false => setLit (advance d s) (advance d s).pos.y (advance d s).pos.x

/-- The loop `while (cond) body`, with fuel: one unit per evaluation of the condition. -/
def loop (d : Dir) : Nat → State → Except Fault State
  | 0, _ => .error .outOfFuel
  | n + 1, s =>
    if loopCond d s then
      match loopBody d s with
      | .error e => .error e
      | .ok s' => loop d n s'
    else .ok s

/-- The fuel the update gives each loop. -/
def loopFuel : Nat := 12

/-- The block "update game state" of a frame with elapsed time `elapsed`. -/
def update (s : State) (elapsed : ℚ) : Except Fault State :=
  if s.state = 1 then
    loop .left loopFuel { s with cart.x := s.cart.x - elapsed * speed }
  else if s.state = 2 then
    loop .right loopFuel { s with cart.x := s.cart.x + elapsed * speed }
  else if s.state = 4 then
    loop .up loopFuel { s with cart.y := s.cart.y + elapsed * speed }
  else if s.state = 5 then
    loop .down loopFuel { s with cart.y := s.cart.y - elapsed * speed }
  else .ok s

/-- What the game loop does to the game state: a key-down event (with the clock sample
a pickup branch would read), or the update of a frame. -/
inductive Event where
  | key (k : Key) (clock : Int)
  | tick (elapsed : ℚ)

/-- One step of the game. -/
def step (s : State) : Event → Except Fault State
  | .key k clock => handleKey s k clock
  | .tick elapsed => update s elapsed

/-- A run of the game over a sequence of events, stopping at the first fault. -/
def run (s : State) : List Event → Except Fault State
  | [] => .ok s
  | e :: es =>
    match step s e with
    | .error f => .error f
    | .ok s' => run s' es

/-! ## Vocabulary of the specification -/

/-- The key of a directional request. -/
def Dir.key : Dir → Key
  | .left => .left
  | .right => .right
  | .up => .up
  | .down => .down

/-- The track kind a direction travels on: HorizontalTrack (`2`) for Left and Right,
VerticalTrack (`1`) for Up and Down. -/
def Dir.track : Dir → Int
  | .left => 2
  | .right => 2
  | .up => 1
  | .down => 1

/-- The Moving mode of a direction. -/
def Dir.moving : Dir → Int
  | .left => 1
  | .right => 2
  | .up => 4
  | .down => 5

/-- The Idle mode of a direction: Idle-Horizontal (`0`) or Idle-Vertical (`3`). -/
def Dir.idle : Dir → Int
  | .left => 0
  | .right => 0
  | .up => 3
  | .down => 3

/-- The cell `k` steps from `p` in a direction, as (row, column), when it lies inside
the grid. -/
def ahead (d : Dir) (p : UVec2) (k : Nat) : Option (Nat × Nat) :=
  match d with
  | .left => if k ≤ p.x then some (p.y, p.x - k) else none
  | .right => if p.x + k < width then some (p.y, p.x + k) else none
  | .up => if k ≤ p.y then some (p.y - k, p.x) else none
  | .down => if p.y + k < length then some (p.y + k, p.x) else none

/-- The cell `k` steps from `p` in a direction exists inside the grid and holds `v`. -/
def aheadIs (d : Dir) (s : State) (k : Nat) (v : Int) : Bool :=
  match ahead d s.pos k with
  | some (r, c) => decide (s.grid r c = v)
  | none => false

/-- The grid position `k` cells from `p` in a direction. -/
def shift (d : Dir) (p : UVec2) (k : Nat) : UVec2 :=
  match d with
  | .left => ⟨p.x - k, p.y⟩
  | .right => ⟨p.x + k, p.y⟩
  | .up => ⟨p.x, p.y - k⟩
  | .down => ⟨p.x, p.y + k⟩

/-- The continuous position `u` units from `c` in a direction (Up increases `y`). -/
def slide (d : Dir) (c : Vec2) (u : ℚ) : Vec2 :=
  match d with
  | .left => ⟨c.x - u, c.y⟩
  | .right => ⟨c.x + u, c.y⟩
  | .up => ⟨c.x, c.y + u⟩
  | .down => ⟨c.x, c.y - u⟩

/-- The coordinate of a continuous position along the axis of a direction. -/
def along (d : Dir) (c : Vec2) : ℚ :=
  match d with
  | .left => c.x
  | .right => c.x
  | .up => c.y
  | .down => c.y

/-- The state the specification gives a successful directional request: the grid
position one cell further, the Moving mode, the new cell lit, the target offset one unit
beyond the continuous position; grid, cart and gold counter as before. -/
def advanced (d : Dir) (s : State) : State :=
  { s with
    pos := shift d s.pos 1
    state := d.moving
    lit := setTrue s.lit (shift d s.pos 1).y (shift d s.pos 1).x
    loc := along d (slide d s.cart 1) }

/-- The state the specification gives a bump: only the mode is set, to the Idle mode
of the direction. -/
def bumped (d : Dir) (s : State) : State :=
  { s with state := d.idle }

/-- The events of a list are all key-down events of the key `k`. -/
def allKey (k : Key) (evs : List Event) : Prop :=
  ∀ e ∈ evs, ∃ clock, e = Event.key k clock

/-! ## States and scenarios of the specification -/

/-- The neighbour a pickup or a lighting probe acts on: the first of left, right, up,
down that lies inside the grid and holds `v`, as (row, column). -/
def firstNeighbour (s : State) (v : Int) : Option (Nat × Nat) :=
  if aheadIs .left s 1 v then some (s.pos.y, s.pos.x - 1)
  else if aheadIs .right s 1 v then some (s.pos.y, s.pos.x + 1)
  else if aheadIs .up s 1 v then some (s.pos.y - 1, s.pos.x)
  else if aheadIs .down s 1 v then some (s.pos.y + 1, s.pos.x)
  else none

/-- The state the specification gives an action request: a no-op without a Gold
neighbour; otherwise a win (mode + 6) when the clock sample is a multiple of the gold
counter, else the first Gold neighbour becomes EmptiedGoldSpot (`7`) and the counter
drops by one. -/
def picked (s : State) (clock : Int) : State :=
  match firstNeighbour s 3 with
  | none => s
  | some (r, c) =>
    if Int.tmod clock s.num_gold_left = 0 then { s with state := s.state + 6 }
    else { s with grid := setCell s.grid r c 7, num_gold_left := s.num_gold_left - 1 }

/-- The scenario of the specification: Gold at row 0, column 9, the cart idle next to
it at row 0, column 8 (with horizontal track on its other side), five gold piles left. -/
def goldScene : State :=
  { grid := gridOf [[0, 2, 0, 2, 2, 0, 2, 2, 0, 3, 0]]
    lit := setTrue (fun _ _ => false) 0 8
    pos := ⟨8, 0⟩
    cart := ⟨3, 5⟩
    loc := 3
    state := 0
    num_gold_left := 5 }

/-! ## Sprite table -/

/-- The structure `SpriteInfo`, with its default member values. -/
structure SpriteInfo where
  min_uv : Vec2 := ⟨0, 0⟩
  max_uv : Vec2 := ⟨1, 1⟩
  rad : Vec2 := ⟨1 / 2, 1 / 2⟩
deriving DecidableEq

/-- The table `float coord[]`: pixel coordinates of the ten sprites in the atlas. -/
def coord : List ℚ :=
  [ 17, 17,
    731, 187,
    731, 204,
    731, 340,
    221, 17,
    833, 204,
    867, 204,
    697, 340,
    833, 153,
    867, 153 ]

/-- The body of the loop that fills `sprites[i]`. -/
def mkSprite (i : Nat) : SpriteInfo :=
  { min_uv := ⟨coord.getD (2 * i) 0 / 968, coord.getD (2 * i + 1) 0 / 526⟩
    max_uv := ⟨(coord.getD (2 * i) 0 + 16) / 968, (coord.getD (2 * i + 1) 0 + 16) / 526⟩ }

/-- The array `SpriteInfo sprites[10]` after `for (int i = 0; i < 10; i++)`. -/
def sprites : List SpriteInfo := (List.range 10).map mkSprite

/-- The pixel coordinate `(x_i, y_i)` of sprite `i` in the atlas, as the specification
lists them. -/
def pixel : Nat → ℚ × ℚ
  | 0 => (17, 17)
  | 1 => (731, 187)
  | 2 => (731, 204)
  | 3 => (731, 340)
  | 4 => (221, 17)
  | 5 => (833, 204)
  | 6 => (867, 204)
  | 7 => (697, 340)
  | 8 => (833, 153)
  | 9 => (867, 153)
  | _ => (0, 0)

/-- Two rationals differ by less than `eps`. -/
def near (eps a b : ℚ) : Prop := |a - b| < eps

/-! ## The update in the words of the specification -/

/-- The state after the lighting probe, in the words of the specification: the first
neighbour in the order left, right, up, down that holds Gold becomes lit; nothing
changes when no neighbour holds Gold. -/
def probed (s : State) : State :=
  match firstNeighbour s 3 with
  | none => s
  | some (r, c) => { s with lit := setTrue s.lit r c }

/-- The state after the first statement of an update in the Moving mode of `d`: the
continuous position moved by `elapsed * speed` in that direction. -/
def moved (d : Dir) (s : State) (elapsed : ℚ) : State :=
  { s with cart := slide d s.cart (elapsed * speed) }

/-- A state of the shipped level in the mode MovingUp: the cart on the Empty cell at
row 3, column 0 (below the Gold at row 2, column 0), half a unit before its target. -/
def arrivalScene : State :=
  { grid := gridOf level
    lit := setTrue (setTrue (fun _ _ => false) 5 0) 4 0
    pos := ⟨0, 3⟩
    cart := ⟨-5, 3 / 2⟩
    loc := 2
    state := 4
    num_gold_left := 5 }

/-! ## Invariants of the runs -/

/-- Every cell lit in `s` is lit in `t`. -/
def litLe (s t : State) : Prop :=
  ∀ r c, s.lit r c = true → t.lit r c = true

/-- The state after one execution of the else-branch of a loop body: the grid position
one cell further, the target one unit further, the new cell lit. -/
def stepped (d : Dir) (s : State) : State :=
  { advance d s with lit := setTrue s.lit (advance d s).pos.y (advance d s).pos.x }

/-- The row of the cell at row `r`, column `c` has an Empty cell to the left and to the
right of it. -/
def endsRow (g : Nat → Nat → Int) (r c : Nat) : Prop :=
  (∃ c' < c, g r c' = 0) ∧ (∃ c' < width, c < c' ∧ g r c' = 0)

/-- The column of the cell at row `r`, column `c` has an Empty cell above and below
it. -/
def endsCol (g : Nat → Nat → Int) (r c : Nat) : Prop :=
  (∃ r' < r, g r' c = 0) ∧ (∃ r' < length, r < r' ∧ g r' c = 0)

instance (g : Nat → Nat → Int) (r c : Nat) : Decidable (endsRow g r c) := by
  unfold endsRow; infer_instance

instance (g : Nat → Nat → Int) (r c : Nat) : Decidable (endsCol g r c) := by
  unfold endsCol; infer_instance

/-- The property of a level that keeps the cart inside the grid: every horizontal track
cell has an Empty cell to its left and to its right in its row, every vertical track
cell has one above and below in its column. -/
def trackEnds (g : Nat → Nat → Int) : Prop :=
  ∀ r < length, ∀ c < width, (g r c = 2 → endsRow g r c) ∧ (g r c = 1 → endsCol g r c)

instance (g : Nat → Nat → Int) : Decidable (trackEnds g) := by
  unfold trackEnds; infer_instance

/-- The invariant of the runs on a level with `trackEnds`: the cart is inside the grid,
the gold counter is positive, and in a Moving mode some cell at or beyond the cart in
the direction of motion is Empty and inside the grid. -/
def Safe (s : State) : Prop :=
  s.pos.x < width ∧ s.pos.y < length ∧ 1 ≤ s.num_gold_left ∧ trackEnds s.grid ∧
    ∀ d : Dir, s.state = d.moving → ∃ k, aheadIs d s k 0 = true

/-! ## The glide-through in the words of the specification -/

/-- The lit mask with the first `n` cells ahead of `p` in a direction lit. -/
def litRun (d : Dir) (p : UVec2) : Nat → (Nat → Nat → Bool) → Nat → Nat → Bool
  | 0, l => l
  | n + 1, l => setTrue (litRun d p n l) (shift d p (n + 1)).y (shift d p (n + 1)).x

/-- The state of a cart that set out from `s` in a direction, has entered the `j`-th
cell ahead and has travelled the distance `D`: Moving mode, the `j` cells lit, the
target `j` units from the start. -/
def gliding (d : Dir) (s : State) (j : Nat) (D : ℚ) : State :=
  { s with
    pos := shift d s.pos j
    cart := slide d s.cart D
    loc := along d (slide d s.cart j)
    state := d.moving
    lit := litRun d s.pos j s.lit }

/-- The state of a cart that set out from `s` in a direction and came to rest `n`
cells further, before the lighting probe: Idle mode, the `n` cells lit, the continuous
position exactly `n` units from the start. -/
def arrived (d : Dir) (s : State) (n : Nat) : State :=
  { s with
    pos := shift d s.pos n
    cart := slide d s.cart n
    loc := along d (slide d s.cart n)
    state := d.idle
    lit := litRun d s.pos n s.lit }

/-- The resting state of the glide-through over `N` track cells: the cart arrived at
the cell `N + 1` ahead, and the lighting probe has run there. -/
def rested (d : Dir) (s : State) (N : Nat) : State :=
  probed (arrived d s (N + 1))

/-- The distance travelled in updates with the elapsed times `es`. -/
def travelled (es : List ℚ) : ℚ := (es.map (fun e => e * speed)).sum

/-- The hypothesis of the glide-through: the cart is inside the grid, the next `N`
cells in the direction are matching track cells, and the cell after them is Empty and
inside the grid. -/
def straightRun (d : Dir) (s : State) (N : Nat) : Prop :=
  s.pos.x < width ∧ s.pos.y < length ∧
    (∀ k, 1 ≤ k → k ≤ N → aheadIs d s k d.track = true) ∧ aheadIs d s (N + 1) 0 = true

/-! ## Geometry of a frame -/

/-- The structure `Vertex`: position, texture coordinate, colour (`glm::u8vec4`). -/
structure Vertex where
  Position : Vec2
  TexCoord : Vec2
  Color : Nat × Nat × Nat × Nat
deriving DecidableEq

/-- Sum of two vectors, `a + b`. -/
def Vec2.add (a b : Vec2) : Vec2 := ⟨a.x + b.x, a.y + b.y⟩

/-- Product of a vector and a scalar, `a * k`. -/
def Vec2.scale (a : Vec2) (k : ℚ) : Vec2 := ⟨a.x * k, a.y * k⟩

/-- The lambda `draw_sprite(sprite, at, angle)` on the vertex list `verts`; `cosA` and
`sinA` stand for `std::cos(angle)` and `std::sin(angle)`. -/
def draw_sprite (verts : List Vertex) (sprite : SpriteInfo) (at_ : Vec2) (cosA sinA : ℚ) :
    List Vertex :=
  let min_uv := sprite.min_uv
  let max_uv := sprite.max_uv
  let rad := sprite.rad
  let tint : Nat × Nat × Nat × Nat := (0xff, 0xff, 0xff, 0xff)
  let right : Vec2 := ⟨cosA, sinA⟩
  let up : Vec2 := ⟨-right.y, right.x⟩
  let v1 : Vertex :=
    ⟨(at_.add (right.scale (-rad.x))).add (up.scale (-rad.y)), ⟨min_uv.x, min_uv.y⟩, tint⟩
  let verts := verts ++ [v1]
  let verts := verts ++ [v1]
  let v2 : Vertex :=
    ⟨(at_.add (right.scale (-rad.x))).add (up.scale rad.y), ⟨min_uv.x, max_uv.y⟩, tint⟩
  let verts := verts ++ [v2]
  let v3 : Vertex :=
    ⟨(at_.add (right.scale rad.x)).add (up.scale (-rad.y)), ⟨max_uv.x, min_uv.y⟩, tint⟩
  let verts := verts ++ [v3]
  let v4 : Vertex :=
    ⟨(at_.add (right.scale rad.x)).add (up.scale rad.y), ⟨max_uv.x, max_uv.y⟩, tint⟩
  let verts := verts ++ [v4]
  verts ++ [v4]

/-- The access `sprites[k]` for an `int` index, checked against the ten entries. -/
def spriteAt (k : Int) : Option SpriteInfo :=
  if 0 ≤ k then sprites[k.toNat]? else none

/-- A call `draw_sprite(sprites[k], at)` with the default angle `0` (cosine 1, sine 0);
an index outside the sprite table is a fault. -/
def drawIndex (verts : List Vertex) (k : Int) (at_ : Vec2) : Except Fault (List Vertex) :=
  match spriteAt k with
  | some sprite => .ok (draw_sprite verts sprite at_ 1 0)
  | none => .error .outOfBounds

/-- The body of the inner loop of "draw background" for the tile `(i, j)`, before
`at.x += 1.0f`. -/
def drawTile (s : State) (verts : List Vertex) (i j : Nat) (at_ : Vec2) :
    Except Fault (List Vertex) :=
  if s.state ≥ 6 ∨ s.lit i j = true then
    match drawIndex verts 0 at_ with
    | .error e => .error e
    | .ok verts =>
      if s.grid i j ≠ 0 then drawIndex verts (s.grid i j) at_ else .ok verts
  else drawIndex verts 4 at_

/-- The inner loop `for (int j = ...; j < width; j++)` with `n` iterations left;
returns the vertex list and `at`. -/
def drawRow (s : State) (i : Nat) :
    Nat → Nat → Vec2 → List Vertex → Except Fault (List Vertex × Vec2)
  | 0, _, at_, verts => .ok (verts, at_)
  | n + 1, j, at_, verts =>
    match drawTile s verts i j at_ with
    | .error e => .error e
    | .ok verts => drawRow s i n (j + 1) { at_ with x := at_.x + 1 } verts

/-- The outer loop `for (int i = ...; i < length; i++)` with `n` iterations left. -/
def drawRows (s : State) :
    Nat → Nat → Vec2 → List Vertex → Except Fault (List Vertex × Vec2)
  | 0, _, at_, verts => .ok (verts, at_)
  | n + 1, i, at_, verts =>
    let at_ := { at_ with x := -(1 / 2) * ((width : ℚ) - 1) }
    match drawRow s i width 0 at_ verts with
    | .error e => .error e
    | .ok (verts, at_) => drawRows s n (i + 1) { at_ with y := at_.y - 1 } verts

/-- The sprite index of the player: `5` for `state <= 2`, `6` for `state <= 5`, `8` for
`state <= 8`, else `9`. -/
def cartSprite (s : State) : Int :=
  if s.state ≤ 2 then 5
  else if s.state ≤ 5 then 6
  else if s.state ≤ 8 then 8
  else 9

/-- The block "draw game state" up to the upload: the vertex list of a frame. -/
def buildFrame (s : State) : Except Fault (List Vertex) :=
  let verts : List Vertex := []
  let at_ : Vec2 := ⟨0, 1 / 2 * ((length : ℚ) - 1)⟩
  match drawRows s length 0 at_ verts with
  | .error e => .error e
  | .ok (verts, _) => drawIndex verts (cartSprite s) s.cart

/-! ### The frame in the words of the specification -/

/-- The six vertices of an axis-aligned sprite quad centred at `c`: the four corners
(lower left, upper left, lower right, upper right) with the first and the last one
repeated. -/
def quad (sp : SpriteInfo) (c : Vec2) : List Vertex :=
  let ll : Vertex := ⟨⟨c.x - sp.rad.x, c.y - sp.rad.y⟩, ⟨sp.min_uv.x, sp.min_uv.y⟩,
    (255, 255, 255, 255)⟩
  let ul : Vertex := ⟨⟨c.x - sp.rad.x, c.y + sp.rad.y⟩, ⟨sp.min_uv.x, sp.max_uv.y⟩,
    (255, 255, 255, 255)⟩
  let lr : Vertex := ⟨⟨c.x + sp.rad.x, c.y - sp.rad.y⟩, ⟨sp.max_uv.x, sp.min_uv.y⟩,
    (255, 255, 255, 255)⟩
  let ur : Vertex := ⟨⟨c.x + sp.rad.x, c.y + sp.rad.y⟩, ⟨sp.max_uv.x, sp.max_uv.y⟩,
    (255, 255, 255, 255)⟩
  [ll, ll, ul, lr, ur, ur]

/-- A tile is shown when the mode is won (`state >= 6`) or the tile is lit. -/
def shown (s : State) (i j : Nat) : Bool :=
  decide (s.state ≥ 6) || s.lit i j

/-- The sprite indices of a tile: floor (`0`) and, for a non-Empty cell, the overlay
with the index of the cell kind when the tile is shown; else wall (`4`). -/
def tileSprites (s : State) (i j : Nat) : List Int :=
  if shown s i j then (if s.grid i j ≠ 0 then [0, s.grid i j] else [0]) else [4]

/-- The centre of the tile in row `i`, column `j`. -/
def tileAt (i j : Nat) : Vec2 := ⟨(j : ℚ) - 5, 5 - (i : ℚ)⟩

/-- The draw calls of a frame as (sprite index, centre): the tiles in row-major order,
then the cart at its continuous position. -/
def frameCalls (s : State) : List (Int × Vec2) :=
  ((List.range length).flatMap fun i =>
    (List.range width).flatMap fun j => (tileSprites s i j).map fun k => (k, tileAt i j)) ++
    [(cartSprite s, s.cart)]

/-- The vertex list of a list of draw calls: one quad after the other. -/
def callVerts (calls : List (Int × Vec2)) : List Vertex :=
  calls.flatMap fun c => quad (mkSprite c.1.toNat) c.2

/-- The number of shown tiles whose cell kind is non-Empty. -/
def overlayCount (s : State) : Nat :=
  ((List.range length).map fun i =>
    ((List.range width).filter fun j => shown s i j && decide (s.grid i j ≠ 0)).length).sum

/-- The cell kinds of the grid are among Empty, VerticalTrack, HorizontalTrack, Gold,
Wall and EmptiedGoldSpot. -/
def validKinds (g : Nat → Nat → Int) : Prop :=
  ∀ i < length, ∀ j < width,
    g i j = 0 ∨ g i j = 1 ∨ g i j = 2 ∨ g i j = 3 ∨ g i j = 4 ∨ g i j = 7

instance (g : Nat → Nat → Int) : Decidable (validKinds g) := by
  unfold validKinds; infer_instance

/-! ## Measure of the update loops -/

/-- The number of cells between the cart and the edge of the grid in a direction. -/
def room (d : Dir) (s : State) : Nat :=
  match d with
  | .left => s.pos.x
  | .right => 10 - s.pos.x
  | .up => s.pos.y
  | .down => 10 - s.pos.y

/-! ## Position consistency -/

/-- The drawn centre of the grid cell under the cart, `(pos.x - 5, 5 - pos.y)`. -/
def centre (s : State) : Vec2 := tileAt s.pos.y s.pos.x

/-- The coordinate of a continuous position across the axis of a direction. -/
def across (d : Dir) (c : Vec2) : ℚ :=
  match d with
  | .left => c.y
  | .right => c.y
  | .up => c.x
  | .down => c.x

/-- The cart travels in a direction without having passed its target: the loop
condition of the direction is false, the target offset is the centre coordinate of the
current grid cell along the axis of motion, and across the axis the cart is on the
centre line of the cell. -/
def onTrack (d : Dir) (s : State) : Prop :=
  loopCond d s = false ∧ s.loc = along d (centre s) ∧
    across d s.cart = across d (centre s)

/-- The position consistency invariant: in an idle or won mode the grid cell under the
cart is Empty and the cart is at its drawn centre; in a Moving mode the cart is
`onTrack`. -/
def Consistent (s : State) : Prop :=
  ((s.state = 0 ∨ s.state = 3 ∨ s.state = 6 ∨ s.state = 9) →
    s.grid s.pos.y s.pos.x = 0 ∧ s.cart = centre s) ∧
  ∀ d : Dir, s.state = d.moving → onTrack d s

/-! ## Single-precision arithmetic

The continuous quantities of the program (`cart`, `loc`, `elapsed`, `speed`) are `float`.
The definitions above compute with them exactly; the definitions of this section round
the result of every arithmetic operation on them, as IEEE 754 binary32 arithmetic does:
each operation is rounded by itself (the product `elapsed * speed` and the sum or
difference with `cart` are not fused), to the nearest binary32 number, ties to the one
with the even significand. Assignments (`cart.x = loc`) and comparisons (`cart.x < loc`)
are exact. The definitions are parametrised by the rounding function; `fl32` is the
rounding of binary32, and with the identity they are the definitions above (`runR_id`).
The range of the exponent is not bounded above: a result beyond the largest binary32
number is a large number here and an infinity in the program, and both pass every
comparison with a target offset alike. -/

/-- Rounding to the nearest integer, ties to the even one. -/
def roundEven (x : ℚ) : ℤ :=
  if x - ⌊x⌋ < 1 / 2 then ⌊x⌋
  else if 1 / 2 < x - ⌊x⌋ then ⌊x⌋ + 1
  else if ⌊x⌋ % 2 = 0 then ⌊x⌋
  else ⌊x⌋ + 1

/-- The exponent of the spacing of the binary32 numbers around `q`: 24 significant bits,
so `2^(E - 23)` for `2^E <= |q| < 2^(E + 1)`, and the spacing `2^(-149)` of the numbers
below the smallest normal exponent `-126`. -/
def ulpExp (q : ℚ) : ℤ := max (Int.log 2 |q|) (-126) - 23

/-- The binary32 number a real result is rounded to (round to nearest, ties to even). -/
def fl32 (q : ℚ) : ℚ :=
  if q = 0 then 0 else (roundEven (q / (2 : ℚ) ^ ulpExp q) : ℚ) * (2 : ℚ) ^ ulpExp q

/-- Branch `SDLK_LEFT`, with `loc = cart.x - 1.0f` rounded. -/
def keyLeftR (fl : ℚ → ℚ) (s : State) : Except Fault State :=
  let s := { s with state := 0 }
  match cellIs s (decide (s.pos.x > 0)) s.pos.y (s.pos.x - 1) 2 with
  | .error e => .error e
  | .ok false => .ok s
  | .ok true =>
    let s := { s with pos.x := dec32 s.pos.x }
    let s := { s with loc := fl (s.cart.x - 1) }
    let s := { s with state := 1 }
    setLit s s.pos.y s.pos.x

/-- Branch `SDLK_RIGHT`, with `loc = cart.x + 1.0f` rounded. -/
def keyRightR (fl : ℚ → ℚ) (s : State) : Except Fault State :=
  let s := { s with state := 0 }
  match cellIs s (decide (s.pos.x < width - 1)) s.pos.y (s.pos.x + 1) 2 with
  | .error e => .error e
  | .ok false => .ok s
  | .ok true =>
    let s := { s with pos.x := inc32 s.pos.x }
    let s := { s with loc := fl (s.cart.x + 1) }
    let s := { s with state := 2 }
    setLit s s.pos.y s.pos.x

/-- Branch `SDLK_UP`, with `loc = cart.y + 1.0f` rounded. -/
def keyUpR (fl : ℚ → ℚ) (s : State) : Except Fault State :=
  let s := { s with state := 3 }
  match cellIs s (decide (s.pos.y > 0)) (s.pos.y - 1) s.pos.x 1 with
  | .error e => .error e
  | .ok false => .ok s
  | .ok true =>
    let s := { s with pos.y := dec32 s.pos.y }
    let s := { s with loc := fl (s.cart.y + 1) }
    let s := { s with state := 4 }
    setLit s s.pos.y s.pos.x

/-- Branch `SDLK_DOWN`, with `loc = cart.y - 1.0f` rounded. -/
def keyDownR (fl : ℚ → ℚ) (s : State) : Except Fault State :=
  let s := { s with state := 3 }
  match cellIs s (decide (s.pos.y < length - 1)) (s.pos.y + 1) s.pos.x 1 with
  | .error e => .error e
  | .ok false => .ok s
  | .ok true =>
    let s := { s with pos.y := inc32 s.pos.y }
    let s := { s with loc := fl (s.cart.y - 1) }
    let s := { s with state := 5 }
    setLit s s.pos.y s.pos.x

/-- The handler of an `SDL_KEYDOWN` event, with rounding (the branch `SDLK_SPACE` has no
arithmetic on `float`). -/
def handleKeyR (fl : ℚ → ℚ) (s : State) (k : Key) (clock : Int) : Except Fault State :=
  if s.state = 0 ∨ s.state = 3 then
    match k with
    | .left => keyLeftR fl s
    | .right => keyRightR fl s
    | .up => keyUpR fl s
    | .down => keyDownR fl s
    | .space => keySpace s clock
    | .other => .ok s
  else .ok s

/-- The else-branch of a loop body before the write to `lit`, with `loc -= 1.0f` and
`loc += 1.0f` rounded. -/
def advanceR (fl : ℚ → ℚ) (d : Dir) (s : State) : State :=
  match d with
  | .left => { s with pos.x := dec32 s.pos.x, loc := fl (s.loc - 1) }
  | .right => { s with pos.x := inc32 s.pos.x, loc := fl (s.loc + 1) }
  | .up => { s with pos.y := dec32 s.pos.y, loc := fl (s.loc + 1) }
  | .down => { s with pos.y := inc32 s.pos.y, loc := fl (s.loc - 1) }

/-- One execution of a loop body, with rounding (the then-branch only copies `loc`). -/
def loopBodyR (fl : ℚ → ℚ) (d : Dir) (s : State) : Except Fault State :=
  match cellIs s true s.pos.y s.pos.x 0 with
  | .error e => .error e
  | .ok true => probe (arrive d s)
  | .ok false => setLit (advanceR fl d s) (advanceR fl d s).pos.y (advanceR fl d s).pos.x

/-- The loop `while (cond) body` with rounding, with fuel (the comparison of two `float`
values is exact). -/
def loopR (fl : ℚ → ℚ) (d : Dir) : Nat → State → Except Fault State
  | 0, _ => .error .outOfFuel
  | n + 1, s =>
    if loopCond d s then
      match loopBodyR fl d s with
      | .error e => .error e
      | .ok s' => loopR fl d n s'
    else .ok s

/-- The block "update game state" with rounding: `cart.x -= elapsed * speed` rounds the
product and then the difference. -/
def updateR (fl : ℚ → ℚ) (s : State) (elapsed : ℚ) : Except Fault State :=
  if s.state = 1 then
    loopR fl .left loopFuel { s with cart.x := fl (s.cart.x - fl (elapsed * speed)) }
  else if s.state = 2 then
    loopR fl .right loopFuel { s with cart.x := fl (s.cart.x + fl (elapsed * speed)) }
  else if s.state = 4 then
    loopR fl .up loopFuel { s with cart.y := fl (s.cart.y + fl (elapsed * speed)) }
  else if s.state = 5 then
    loopR fl .down loopFuel { s with cart.y := fl (s.cart.y - fl (elapsed * speed)) }
  else .ok s

/-- One step of the game, with rounding. -/
def stepR (fl : ℚ → ℚ) (s : State) : Event → Except Fault State
  | .key k clock => handleKeyR fl s k clock
  | .tick elapsed => updateR fl s elapsed

/-- A run of the game with rounding, stopping at the first fault. -/
def runR (fl : ℚ → ℚ) (s : State) : List Event → Except Fault State
  | [] => .ok s
  | e :: es =>
    match stepR fl s e with
    | .error f => .error f
    | .ok s' => runR fl s' es

/-! ### The glide-through in single precision -/

/-- The coordinate of the cart along the axis after the first statement of an update in
the Moving mode of `d`, from the coordinate `x`. -/
def pushed (fl : ℚ → ℚ) (d : Dir) (x e : ℚ) : ℚ :=
  match d with
  | .left => fl (x - fl (e * speed))
  | .right => fl (x + fl (e * speed))
  | .up => fl (x + fl (e * speed))
  | .down => fl (x - fl (e * speed))

/-- The coordinates of a cart in the Moving mode of `d` after each of the updates with
the elapsed times `es`, from the coordinate `x` (until it comes to rest). -/
def floatPath (fl : ℚ → ℚ) (d : Dir) : ℚ → List ℚ → List ℚ
  | _, [] => []
  | x, e :: es => pushed fl d x e :: floatPath fl d (pushed fl d x e) es

/-- The distance from the coordinate `c` to the coordinate `x`, in a direction. -/
def displaced (d : Dir) (c x : ℚ) : ℚ :=
  match d with
  | .left => c - x
  | .right => x - c
  | .up => x - c
  | .down => c - x

/-- One of the updates with the elapsed times `es` carries a cart that set out from the
coordinate `c` in the Moving mode of `d` more than `u` units away from `c`. -/
def carried (fl : ℚ → ℚ) (d : Dir) (c u : ℚ) (es : List ℚ) : Prop :=
  ∃ x ∈ floatPath fl d c es, u < displaced d c x

/-- The target offsets of `n` cells from the continuous position `c` in a direction,
`1, ..., n` units further, are numbers the rounding keeps. -/
def exactRun (fl : ℚ → ℚ) (d : Dir) (c : Vec2) (n : Nat) : Prop :=
  ∀ k : Nat, 1 ≤ k → k ≤ n → fl (along d (slide d c k)) = along d (slide d c k)

/-- The state of the shipped level after the glide from the start to the left end of
row 5: the cart idle at the centre of the Empty cell at row 5, column 0. -/
def westScene : State :=
  { initial with
    pos := ⟨0, 5⟩
    cart := ⟨-5, 0⟩
    loc := -5
    lit := litRun .left ⟨5, 5⟩ 5 initial.lit }

/-- A state of the shipped level: the cart idle on the start cell, the continuous
position `2^25` units above the centre of the board, where the binary32 numbers are 4
apart. -/
def farScene : State :=
  { initial with cart := ⟨0, 33554432⟩ }

/-- The states of the run from `farScene`: the grid position `p`, the continuous position
`(0, y)`, the target `2^25`, the mode `st` and the lit mask `l`. -/
def farAt (p : UVec2) (y : ℚ) (st : Int) (l : Nat → Nat → Bool) : State :=
  { farScene with pos := p, cart := ⟨0, y⟩, loc := 33554432, state := st, lit := l }

/-! ## Basic facts -/

theorem dec32_eq_mod (n : Nat) (h : n < 4294967296) :
    dec32 n = (n + 4294967295) % 4294967296 := by
  unfold dec32; split <;> omega

theorem inc32_eq_mod (n : Nat) (h : n < 4294967296) : inc32 n = (n + 1) % 4294967296 := by
  unfold inc32; split <;> omega

theorem dec32_pos {n : Nat} (h : 0 < n) : dec32 n = n - 1 := by
  unfold dec32; rw [if_neg (by omega)]

theorem inc32_small {n : Nat} (h : n < 11) : inc32 n = n + 1 := by
  unfold inc32; rw [if_neg (by omega)]

theorem cellIs_in (s : State) (g : Bool) {r c : Nat} (k : Int) (hr : r < 11) (hc : c < 11) :
    cellIs s g r c k = .ok (g && decide (s.grid r c = k)) := by
  unfold cellIs
  have h : r < length ∧ c < width := ⟨hr, hc⟩
  cases g
  · simp
  · simp only [if_true, h, and_self, Bool.true_and]

theorem cellIs_false (s : State) (r c : Nat) (k : Int) : cellIs s false r c k = .ok false := by
  unfold cellIs; simp

theorem setLit_in (s : State) {r c : Nat} (hr : r < 11) (hc : c < 11) :
    setLit s r c = .ok { s with lit := setTrue s.lit r c } := by
  unfold setLit
  have h : r < length ∧ c < width := ⟨hr, hc⟩
  rw [if_pos h]

theorem keyLeft_eq (s : State) (hx : s.pos.x < width) (hy : s.pos.y < length) :
    keyLeft s = .ok (if aheadIs .left s 1 2 then advanced .left s else bumped .left s) := by
  simp only [width, length] at hx hy
  simp only [keyLeft, aheadIs, ahead]
  by_cases h0 : 0 < s.pos.x
  · have h2 : 1 ≤ s.pos.x := h0
    rw [cellIs_in _ _ _ (by simpa using hy) (by omega)]
    by_cases hg : s.grid s.pos.y (s.pos.x - 1) = 2
    · simp only [gt_iff_lt, h0, decide_True, if_true, hg, h2, Bool.true_and]
      rw [setLit_in _ (by simpa using hy) (by simp only [dec32_pos h0]; omega)]
      simp [advanced, shift, Dir.moving, along, slide, dec32_pos h0]
    · simp only [gt_iff_lt, h0, decide_True, if_true, hg, h2, decide_False, Bool.and_false]
      simp [bumped, Dir.idle]
  · have h1 : ¬ (1 ≤ s.pos.x) := by omega
    simp only [gt_iff_lt, h0, decide_False, cellIs_false, if_false, h1]
    simp [bumped, Dir.idle]

theorem keyRight_eq (s : State) (hx : s.pos.x < width) (hy : s.pos.y < length) :
    keyRight s = .ok (if aheadIs .right s 1 2 then advanced .right s else bumped .right s) := by
  simp only [width, length] at hx hy
  simp only [keyRight, aheadIs, ahead]
  by_cases h0 : s.pos.x < 10
  · have h2 : s.pos.x + 1 < width := by simp only [width]; omega
    have h3 : s.pos.x < width - 1 := by simp only [width]; omega
    rw [cellIs_in _ _ _ (by simpa using hy) (by omega)]
    by_cases hg : s.grid s.pos.y (s.pos.x + 1) = 2
    · simp only [h3, decide_True, if_true, hg, h2, Bool.true_and]
      rw [setLit_in _ (by simpa using hy) (by simp only [inc32_small hx]; omega)]
      simp [advanced, shift, Dir.moving, along, slide, inc32_small hx]
    · simp only [h3, decide_True, if_true, hg, h2, decide_False, Bool.and_false]
      simp [bumped, Dir.idle]
  · have h2 : ¬ (s.pos.x + 1 < width) := by simp only [width]; omega
    have h3 : ¬ (s.pos.x < width - 1) := by simp only [width]; omega
    simp only [h3, decide_False, cellIs_false, if_false, h2]
    simp [bumped, Dir.idle]

theorem keyUp_eq (s : State) (hx : s.pos.x < width) (hy : s.pos.y < length) :
    keyUp s = .ok (if aheadIs .up s 1 1 then advanced .up s else bumped .up s) := by
  simp only [width, length] at hx hy
  simp only [keyUp, aheadIs, ahead]
  by_cases h0 : 0 < s.pos.y
  · have h2 : 1 ≤ s.pos.y := h0
    rw [cellIs_in _ _ _ (by omega) (by simpa using hx)]
    by_cases hg : s.grid (s.pos.y - 1) s.pos.x = 1
    · simp only [gt_iff_lt, h0, decide_True, if_true, hg, h2, Bool.true_and]
      rw [setLit_in _ (by simp only [dec32_pos h0]; omega) (by simpa using hx)]
      simp [advanced, shift, Dir.moving, along, slide, dec32_pos h0]
    · simp only [gt_iff_lt, h0, decide_True, if_true, hg, h2, decide_False, Bool.and_false]
      simp [bumped, Dir.idle]
  · have h1 : ¬ (1 ≤ s.pos.y) := by omega
    simp only [gt_iff_lt, h0, decide_False, cellIs_false, if_false, h1]
    simp [bumped, Dir.idle]

theorem keyDown_eq (s : State) (hx : s.pos.x < width) (hy : s.pos.y < length) :
    keyDown s = .ok (if aheadIs .down s 1 1 then advanced .down s else bumped .down s) := by
  simp only [width, length] at hx hy
  simp only [keyDown, aheadIs, ahead]
  by_cases h0 : s.pos.y < 10
  · have h2 : s.pos.y + 1 < length := by simp only [length]; omega
    have h3 : s.pos.y < length - 1 := by simp only [length]; omega
    rw [cellIs_in _ _ _ (by omega) (by simpa using hx)]
    by_cases hg : s.grid (s.pos.y + 1) s.pos.x = 1
    · simp only [h3, decide_True, if_true, hg, h2, Bool.true_and]
      rw [setLit_in _ (by simp only [inc32_small hy]; omega) (by simpa using hx)]
      simp [advanced, shift, Dir.moving, along, slide, inc32_small hy]
    · simp only [h3, decide_True, if_true, hg, h2, decide_False, Bool.and_false]
      simp [bumped, Dir.idle]
  · have h2 : ¬ (s.pos.y + 1 < length) := by simp only [length]; omega
    have h3 : ¬ (s.pos.y < length - 1) := by simp only [length]; omega
    simp only [h3, decide_False, cellIs_false, if_false, h2]
    simp [bumped, Dir.idle]

theorem handleKey_dir (s : State) (d : Dir) (clock : Int)
    (hm : s.state = 0 ∨ s.state = 3) (hx : s.pos.x < width) (hy : s.pos.y < length) :
    handleKey s d.key clock =
      .ok (if aheadIs d s 1 d.track then advanced d s else bumped d s) := by
  unfold handleKey
  rw [if_pos hm]
  cases d
  · exact keyLeft_eq s hx hy
  · exact keyRight_eq s hx hy
  · exact keyUp_eq s hx hy
  · exact keyDown_eq s hx hy

/-! ## Directional requests -/

theorem idle_idle (d : Dir) : d.idle = 0 ∨ d.idle = 3 := by
  cases d <;> simp [Dir.idle]

theorem bumped_bumped (d : Dir) (s : State) : bumped d (bumped d s) = bumped d s := rfl

theorem aheadIs_bumped (d e : Dir) (s : State) (k : Nat) (v : Int) :
    aheadIs d (bumped e s) k v = aheadIs d s k v := rfl

theorem run_blocked (s : State) (d : Dir) (hx : s.pos.x < width) (hy : s.pos.y < length)
    (hb : aheadIs d s 1 d.track = false) (evs : List Event) (hk : allKey d.key evs) :
    run (bumped d s) evs = .ok (bumped d s) := by
  induction evs with
  | nil => rfl
  | cons e es ih =>
    obtain ⟨clock, rfl⟩ := hk e (List.mem_cons_self _ _)
    have hstep : step (bumped d s) (Event.key d.key clock) = .ok (bumped d s) := by
      have h := handleKey_dir (bumped d s) d clock (idle_idle d) hx hy
      rw [aheadIs_bumped, hb] at h
      simpa [step, bumped_bumped] using h
    simp only [run, hstep]
    exact ih (fun e' he' => hk e' (List.mem_cons_of_mem _ he'))

/-- C1. A directional request in an idle mode (0 or 3) with the cart inside the grid:
the cart advances (position one cell further, Moving mode, new cell lit, target one
unit beyond the continuous position, all else unchanged) if and only if the neighbouring
cell exists inside the grid and holds the matching track kind; otherwise only the mode
is set to the Idle mode of the direction, and any number of repetitions of the blocked
request leaves that state as it is. -/
theorem directional_request (s : State) (d : Dir) (clock : Int)
    (hm : s.state = 0 ∨ s.state = 3) (hx : s.pos.x < width) (hy : s.pos.y < length) :
    (handleKey s d.key clock = .ok (advanced d s) ↔ aheadIs d s 1 d.track = true) ∧
    (aheadIs d s 1 d.track = false →
      handleKey s d.key clock = .ok (bumped d s) ∧
      ∀ evs : List Event, evs ≠ [] → allKey d.key evs → run s evs = .ok (bumped d s)) := by
  have h := handleKey_dir s d clock hm hx hy
  refine ⟨⟨fun ha => ?_, fun ha => ?_⟩, fun hb => ⟨?_, ?_⟩⟩
  · by_contra hn
    rw [if_neg hn] at h
    have hs := congrArg State.state (Except.ok.inj (h.symm.trans ha))
    cases d <;> simp [bumped, advanced, Dir.idle, Dir.moving] at hs
  · rw [h, if_pos ha]
  · rw [h, hb]; simp
  · intro evs hne hk
    cases evs with
    | nil => exact absurd rfl hne
    | cons e es =>
      obtain ⟨c, rfl⟩ := hk e (List.mem_cons_self _ _)
      have h' := handleKey_dir s d c hm hx hy
      rw [hb] at h'
      have hstep : step s (Event.key d.key c) = .ok (bumped d s) := by
        simpa [step] using h'
      simp only [run, hstep]
      exact run_blocked s d hx hy hb es (fun e' he' => hk e' (List.mem_cons_of_mem _ he'))

/-- C1 at the initial state of the shipped level: Left is open (row 5, column 4 holds
`2`) and the cart advances; Right is blocked (row 5, column 6 holds `4`) and two Right
requests in a row leave the bumped state. -/
theorem directional_request_witness :
    (aheadIs .left initial 1 Dir.left.track = true ∧
      handleKey initial Dir.left.key 0 = .ok (advanced .left initial)) ∧
    (aheadIs .right initial 1 Dir.right.track = false ∧
      run initial [Event.key .right 0, Event.key .right 1] = .ok (bumped .right initial)) :=
  ⟨⟨by decide,
     (directional_request initial .left 0 (Or.inl rfl) (by decide) (by decide)).1.2
       (by decide)⟩,
   ⟨by decide,
     ((directional_request initial .right 0 (Or.inl rfl) (by decide) (by decide)).2
       (by decide)).2 _ (by simp) (by
         intro e he
         simp only [List.mem_cons, List.mem_singleton, List.not_mem_nil, or_false] at he
         rcases he with rfl | rfl
         · exact ⟨0, rfl⟩
         · exact ⟨1, rfl⟩)⟩⟩

/-! ## Neighbour tests -/

theorem cellIs_left (s : State) (v : Int) (hx : s.pos.x < width) (hy : s.pos.y < length) :
    cellIs s (decide (s.pos.x > 0)) s.pos.y (s.pos.x - 1) v = .ok (aheadIs .left s 1 v) := by
  simp only [width, length] at hx hy
  rw [cellIs_in _ _ _ hy (by omega)]
  simp only [aheadIs, ahead]
  by_cases h0 : 0 < s.pos.x
  · have h2 : 1 ≤ s.pos.x := h0
    simp only [gt_iff_lt, h0, h2, decide_True, Bool.true_and, if_true]
  · have h2 : ¬ 1 ≤ s.pos.x := by omega
    simp only [gt_iff_lt, h0, h2, decide_False, Bool.false_and, if_false]

theorem cellIs_right (s : State) (v : Int) (hx : s.pos.x < width) (hy : s.pos.y < length) :
    cellIs s (decide (s.pos.x < width - 1)) s.pos.y (s.pos.x + 1) v =
      .ok (aheadIs .right s 1 v) := by
  simp only [width, length] at hx hy
  simp only [aheadIs, ahead]
  by_cases h0 : s.pos.x < 10
  · have h2 : s.pos.x + 1 < width := by simp only [width]; omega
    have h3 : s.pos.x < width - 1 := by simp only [width]; omega
    rw [cellIs_in _ _ _ hy (by omega)]
    simp only [h2, h3, decide_True, Bool.true_and, if_true]
  · have h2 : ¬ s.pos.x + 1 < width := by simp only [width]; omega
    have h3 : ¬ s.pos.x < width - 1 := by simp only [width]; omega
    simp only [h2, h3, decide_False, cellIs_false, if_false]

theorem cellIs_up (s : State) (v : Int) (hx : s.pos.x < width) (hy : s.pos.y < length) :
    cellIs s (decide (s.pos.y > 0)) (s.pos.y - 1) s.pos.x v = .ok (aheadIs .up s 1 v) := by
  simp only [width, length] at hx hy
  rw [cellIs_in _ _ _ (by omega) hx]
  simp only [aheadIs, ahead]
  by_cases h0 : 0 < s.pos.y
  · have h2 : 1 ≤ s.pos.y := h0
    simp only [gt_iff_lt, h0, h2, decide_True, Bool.true_and, if_true]
  · have h2 : ¬ 1 ≤ s.pos.y := by omega
    simp only [gt_iff_lt, h0, h2, decide_False, Bool.false_and, if_false]

theorem cellIs_down (s : State) (v : Int) (hx : s.pos.x < width) (hy : s.pos.y < length) :
    cellIs s (decide (s.pos.y < length - 1)) (s.pos.y + 1) s.pos.x v =
      .ok (aheadIs .down s 1 v) := by
  simp only [width, length] at hx hy
  simp only [aheadIs, ahead]
  by_cases h0 : s.pos.y < 10
  · have h2 : s.pos.y + 1 < length := by simp only [length]; omega
    have h3 : s.pos.y < length - 1 := by simp only [length]; omega
    rw [cellIs_in _ _ _ (by omega) hx]
    simp only [h2, h3, decide_True, Bool.true_and, if_true]
  · have h2 : ¬ s.pos.y + 1 < length := by simp only [length]; omega
    have h3 : ¬ s.pos.y < length - 1 := by simp only [length]; omega
    simp only [h2, h3, decide_False, cellIs_false, if_false]

theorem aheadIs_left (s : State) (k : Nat) (v : Int) :
    aheadIs .left s k v = true ↔ k ≤ s.pos.x ∧ s.grid s.pos.y (s.pos.x - k) = v := by
  simp only [aheadIs, ahead]
  by_cases h : k ≤ s.pos.x
  · simp only [h, if_true, decide_eq_true_eq, true_and]
  · simp only [h, if_false, false_and, Bool.false_eq_true]

theorem aheadIs_right (s : State) (k : Nat) (v : Int) :
    aheadIs .right s k v = true ↔ s.pos.x + k < width ∧ s.grid s.pos.y (s.pos.x + k) = v := by
  simp only [aheadIs, ahead]
  by_cases h : s.pos.x + k < width
  · simp only [h, if_true, decide_eq_true_eq, true_and]
  · simp only [h, if_false, false_and, Bool.false_eq_true]

theorem aheadIs_up (s : State) (k : Nat) (v : Int) :
    aheadIs .up s k v = true ↔ k ≤ s.pos.y ∧ s.grid (s.pos.y - k) s.pos.x = v := by
  simp only [aheadIs, ahead]
  by_cases h : k ≤ s.pos.y
  · simp only [h, if_true, decide_eq_true_eq, true_and]
  · simp only [h, if_false, false_and, Bool.false_eq_true]

theorem aheadIs_down (s : State) (k : Nat) (v : Int) :
    aheadIs .down s k v = true ↔ s.pos.y + k < length ∧ s.grid (s.pos.y + k) s.pos.x = v := by
  simp only [aheadIs, ahead]
  by_cases h : s.pos.y + k < length
  · simp only [h, if_true, decide_eq_true_eq, true_and]
  · simp only [h, if_false, false_and, Bool.false_eq_true]

theorem firstNeighbour_spec (s : State) (v : Int) (r c : Nat)
    (hx : s.pos.x < width) (hy : s.pos.y < length)
    (h : firstNeighbour s v = some (r, c)) :
    r < length ∧ c < width ∧ s.grid r c = v := by
  simp only [width, length] at hx hy ⊢
  unfold firstNeighbour at h
  split_ifs at h with h1 h2 h3 h4
  · rw [aheadIs_left] at h1
    simp only [Option.some.injEq, Prod.mk.injEq] at h
    obtain ⟨rfl, rfl⟩ := h
    exact ⟨hy, by omega, h1.2⟩
  · rw [aheadIs_right] at h2
    simp only [Option.some.injEq, Prod.mk.injEq] at h
    obtain ⟨rfl, rfl⟩ := h
    exact ⟨hy, h2.1, h2.2⟩
  · rw [aheadIs_up] at h3
    simp only [Option.some.injEq, Prod.mk.injEq] at h
    obtain ⟨rfl, rfl⟩ := h
    exact ⟨by omega, hx, h3.2⟩
  · rw [aheadIs_down] at h4
    simp only [Option.some.injEq, Prod.mk.injEq] at h
    obtain ⟨rfl, rfl⟩ := h
    exact ⟨h4.1, hx, h4.2⟩

/-! ## Gold pickup -/

theorem pickup_in (s : State) (clock : Int) {r c : Nat} (hr : r < 11) (hc : c < 11)
    (hn : s.num_gold_left ≠ 0) :
    pickup s clock r c =
      .ok (if Int.tmod clock s.num_gold_left = 0 then { s with state := s.state + 6 }
        else { s with grid := setCell s.grid r c 7, num_gold_left := s.num_gold_left - 1 }) := by
  unfold pickup
  have h : r < length ∧ c < width := ⟨hr, hc⟩
  rw [if_neg hn]
  by_cases ht : Int.tmod clock s.num_gold_left = 0
  · rw [if_pos ht, if_pos ht]
  · rw [if_neg ht, if_neg ht, if_pos h]

theorem keySpace_eq (s : State) (clock : Int) (hx : s.pos.x < width) (hy : s.pos.y < length)
    (hn : firstNeighbour s 3 ≠ none → s.num_gold_left ≠ 0) :
    keySpace s clock = .ok (picked s clock) := by
  unfold keySpace picked
  rw [cellIs_left s 3 hx hy, cellIs_right s 3 hx hy, cellIs_up s 3 hx hy,
    cellIs_down s 3 hx hy]
  simp only [width, length] at hx hy
  unfold firstNeighbour at hn ⊢
  by_cases h1 : aheadIs .left s 1 3 = true
  · have hn' := hn (by simp [h1])
    simp only [h1, if_true]
    exact pickup_in s clock hy (by omega) hn'
  · have h1' : aheadIs .left s 1 3 = false := by simpa using h1
    by_cases h2 : aheadIs .right s 1 3 = true
    · have hn' := hn (by simp [h1', h2])
      simp only [h1', h2, if_true, Bool.false_eq_true, if_false]
      exact pickup_in s clock hy ((aheadIs_right s 1 3).1 h2).1 hn'
    · have h2' : aheadIs .right s 1 3 = false := by simpa using h2
      by_cases h3 : aheadIs .up s 1 3 = true
      · have hn' := hn (by simp [h1', h2', h3])
        simp only [h1', h2', h3, if_true, Bool.false_eq_true, if_false]
        exact pickup_in s clock (by omega) hx hn'
      · have h3' : aheadIs .up s 1 3 = false := by simpa using h3
        by_cases h4 : aheadIs .down s 1 3 = true
        · have hn' := hn (by simp [h1', h2', h3', h4])
          simp only [h1', h2', h3', h4, if_true, Bool.false_eq_true, if_false]
          exact pickup_in s clock ((aheadIs_down s 1 3).1 h4).1 hx hn'
        · have h4' : aheadIs .down s 1 3 = false := by simpa using h4
          simp only [h1', h2', h3', h4', Bool.false_eq_true, if_false]

/-- C3. An action (Space) request in an idle mode with the cart inside the grid and a
positive gold counter `n` returns the state `picked`: it acts on the first neighbour in
the order left, right, up, down that lies inside the grid and holds Gold; when the
clock sample is a multiple of `n` the mode grows by 6 and nothing else changes,
otherwise that neighbour becomes `7`, the counter becomes `n - 1` and no other cell
changes; without a Gold neighbour the state is unchanged. -/
theorem gold_pickup (s : State) (clock : Int)
    (hm : s.state = 0 ∨ s.state = 3) (hx : s.pos.x < width) (hy : s.pos.y < length)
    (hn : 0 < s.num_gold_left) :
    handleKey s .space clock = .ok (picked s clock) ∧
    (firstNeighbour s 3 = none → picked s clock = s) ∧
    (∀ r c, firstNeighbour s 3 = some (r, c) →
      r < length ∧ c < width ∧ s.grid r c = 3 ∧
      (Int.tmod clock s.num_gold_left = 0 →
        picked s clock = { s with state := s.state + 6 }) ∧
      (Int.tmod clock s.num_gold_left ≠ 0 →
        picked s clock =
          { s with grid := setCell s.grid r c 7, num_gold_left := s.num_gold_left - 1 } ∧
        (picked s clock).grid r c = 7 ∧
        ∀ i j, (i, j) ≠ (r, c) → (picked s clock).grid i j = s.grid i j)) := by
  refine ⟨?_, ?_, ?_⟩
  · unfold handleKey
    rw [if_pos hm]
    exact keySpace_eq s clock hx hy (fun _ => ne_of_gt hn)
  · intro h
    simp only [picked, h]
  · intro r c h
    obtain ⟨h1, h2, h3⟩ := firstNeighbour_spec s 3 r c hx hy h
    refine ⟨h1, h2, h3, ?_, ?_⟩
    · intro ht
      simp only [picked, h, ht, if_true]
    · intro ht
      have hp : picked s clock =
          { s with grid := setCell s.grid r c 7, num_gold_left := s.num_gold_left - 1 } := by
        simp only [picked, h, ht, if_false]
      refine ⟨hp, ?_, ?_⟩
      · rw [hp]; simp [setCell]
      · intro i j hij
        rw [hp]
        have : ¬ (i = r ∧ j = c) := fun hh => hij (by rw [hh.1, hh.2])
        simp only [setCell, this, if_false]

/-- C3 on the scenario of the specification: with clock sample 7 the Gold cell at row 0,
column 9 becomes `7` and the counter 4; with clock sample 10 the mode becomes 6 (won)
and cell and counter stay. -/
theorem gold_pickup_witness :
    (handleKey goldScene .space 7).map
        (fun s => (s.grid 0 9, s.num_gold_left, s.state)) = .ok (7, 4, 0) ∧
    (handleKey goldScene .space 10).map
        (fun s => (s.grid 0 9, s.num_gold_left, s.state)) = .ok (3, 5, 6) :=
  ⟨by rw [(gold_pickup goldScene 7 (Or.inl rfl) (by decide) (by decide) (by decide)).1]; rfl,
   by rw [(gold_pickup goldScene 10 (Or.inl rfl) (by decide) (by decide) (by decide)).1]; rfl⟩

/-! ## Key-down events outside the idle modes -/

theorem handleKey_not_idle (s : State) (k : Key) (clock : Int)
    (h0 : s.state ≠ 0) (h3 : s.state ≠ 3) : handleKey s k clock = .ok s := by
  unfold handleKey
  rw [if_neg (by rintro (h | h); exact h0 h; exact h3 h)]

/-- C7, refuted as stated: in the scenario `goldScene` Left is open (row 0, column 7
holds `2`) and a Left request moves the cart to column 7; after a winning pickup
(clock sample 10, mode 6) the same Left request changes nothing: the cart stays at
column 8 in mode 6 and the cell at column 7 stays unlit. -/
theorem won_directional_counterexample :
    aheadIs .left goldScene 1 Dir.left.track = true ∧
    (run goldScene [Event.key .left 0]).map
        (fun s => (s.pos, s.state, s.lit 0 7)) = .ok (⟨7, 0⟩, 1, true) ∧
    (run goldScene [Event.key .space 10]).map
        (fun s => (s.pos, s.state, s.lit 0 7)) = .ok (⟨8, 0⟩, 6, false) ∧
    (run goldScene [Event.key .space 10, Event.key .left 0]).map
        (fun s => (s.pos, s.state, s.lit 0 7)) = .ok (⟨8, 0⟩, 6, false) :=
  ⟨by decide, rfl, rfl, rfl⟩

/-- C7, amended: in a won mode (6 or 9) every key-down event, directional ones
included, leaves the whole game state unchanged, because the handler acts only under
the guard `state == 0 || state == 3`. -/
theorem won_key_ignored (s : State) (k : Key) (clock : Int)
    (hw : s.state = 6 ∨ s.state = 9) : handleKey s k clock = .ok s := by
  apply handleKey_not_idle <;> rcases hw with h | h <;> rw [h] <;> decide

/-- C7 amended, at the won state reached in `goldScene` by a winning pickup. -/
theorem won_key_ignored_witness :
    handleKey { goldScene with state := 6 } .left 0 = .ok { goldScene with state := 6 } :=
  won_key_ignored { goldScene with state := 6 } .left 0 (Or.inl rfl)

/-! ## Sprite table -/

theorem sprites_get (i : Nat) (h : i < 10) : sprites[i]? = some (mkSprite i) := by
  unfold sprites
  rw [List.getElem?_map, List.getElem?_range h]
  rfl

theorem mkSprite_pixel (i : Nat) (h : i < 10) :
    mkSprite i =
      { min_uv := ⟨(pixel i).1 / 968, (pixel i).2 / 526⟩
        max_uv := ⟨((pixel i).1 + 16) / 968, ((pixel i).2 + 16) / 526⟩
        rad := ⟨1 / 2, 1 / 2⟩ } := by
  interval_cases i <;> rfl

/-- C9, refuted as stated: the `y` coordinate of `max_uv` of sprite 0 is `33/526`, which
is about `0.06274` and not within `0.0001` of `0.04943`. -/
theorem sprite0_max_uv_counterexample :
    sprites[0]? = some (mkSprite 0) ∧ (mkSprite 0).max_uv.y = 33 / 526 ∧
      ¬ near (1 / 10000) (mkSprite 0).max_uv.y (4943 / 100000) := by
  refine ⟨rfl, ?_, ?_⟩
  · simp only [mkSprite, coord, List.getD_cons_succ, List.getD_cons_zero]
    norm_num
  · simp only [mkSprite, coord, near]
    norm_num [abs_lt]

/-- C9, amended: for sprite 0 (pixel (17,17), 16-pixel tile, atlas 968 x 526, exact
rationals) `min_uv` is within `0.0001` of `(0.01757, 0.03232)` and `max_uv` is within
`0.0001` of `(0.03409, 0.06274)`; and every sprite `i < 10` has
`min_uv = (x_i/968, y_i/526)`, `max_uv = ((x_i+16)/968, (y_i+16)/526)`. -/
theorem sprite_uv :
    (near (1 / 10000) (mkSprite 0).min_uv.x (1757 / 100000) ∧
      near (1 / 10000) (mkSprite 0).min_uv.y (3232 / 100000) ∧
      near (1 / 10000) (mkSprite 0).max_uv.x (3409 / 100000) ∧
      near (1 / 10000) (mkSprite 0).max_uv.y (6274 / 100000)) ∧
    ∀ i, i < 10 →
      sprites[i]? = some (mkSprite i) ∧
      (mkSprite i).min_uv = ⟨(pixel i).1 / 968, (pixel i).2 / 526⟩ ∧
      (mkSprite i).max_uv = ⟨((pixel i).1 + 16) / 968, ((pixel i).2 + 16) / 526⟩ := by
  refine ⟨⟨?_, ?_, ?_, ?_⟩, ?_⟩
  · simp only [mkSprite, coord, near]; norm_num [abs_lt]
  · simp only [mkSprite, coord, near]; norm_num [abs_lt]
  · simp only [mkSprite, coord, near]; norm_num [abs_lt]
  · simp only [mkSprite, coord, near]; norm_num [abs_lt]
  · intro i hi
    refine ⟨sprites_get i hi, ?_, ?_⟩
    · rw [mkSprite_pixel i hi]
    · rw [mkSprite_pixel i hi]

/-- C9 amended, at sprite 3 (gold bars, pixel (731, 340)). -/
theorem sprite_uv_witness :
    sprites[3]? = some (mkSprite 3) ∧
      (mkSprite 3).min_uv = ⟨(pixel 3).1 / 968, (pixel 3).2 / 526⟩ ∧
      (mkSprite 3).max_uv = ⟨((pixel 3).1 + 16) / 968, ((pixel 3).2 + 16) / 526⟩ :=
  sprite_uv.2 3 (by decide)

/-! ## The update loops -/

theorem probe_eq (s : State) (hx : s.pos.x < width) (hy : s.pos.y < length) :
    probe s = .ok (probed s) := by
  unfold probe probed
  rw [cellIs_left s 3 hx hy, cellIs_right s 3 hx hy, cellIs_up s 3 hx hy,
    cellIs_down s 3 hx hy]
  simp only [width, length] at hx hy
  unfold firstNeighbour
  by_cases h1 : aheadIs .left s 1 3 = true
  · simp only [h1, if_true]
    exact setLit_in s hy (by omega)
  · have h1' : aheadIs .left s 1 3 = false := by simpa using h1
    by_cases h2 : aheadIs .right s 1 3 = true
    · simp only [h1', h2, if_true, Bool.false_eq_true, if_false]
      exact setLit_in s hy ((aheadIs_right s 1 3).1 h2).1
    · have h2' : aheadIs .right s 1 3 = false := by simpa using h2
      by_cases h3 : aheadIs .up s 1 3 = true
      · simp only [h1', h2', h3, if_true, Bool.false_eq_true, if_false]
        exact setLit_in s (by omega) hx
      · have h3' : aheadIs .up s 1 3 = false := by simpa using h3
        by_cases h4 : aheadIs .down s 1 3 = true
        · simp only [h1', h2', h3', h4, if_true, Bool.false_eq_true, if_false]
          exact setLit_in s ((aheadIs_down s 1 3).1 h4).1 hx
        · have h4' : aheadIs .down s 1 3 = false := by simpa using h4
          simp only [h1', h2', h3', h4', Bool.false_eq_true, if_false]

theorem probed_fields (s : State) :
    (probed s).grid = s.grid ∧ (probed s).pos = s.pos ∧ (probed s).cart = s.cart ∧
      (probed s).loc = s.loc ∧ (probed s).state = s.state ∧
      (probed s).num_gold_left = s.num_gold_left := by
  unfold probed
  split <;> simp

theorem update_moving (d : Dir) (s : State) (e : ℚ) (hm : s.state = d.moving) :
    update s e = loop d loopFuel (moved d s e) := by
  unfold update
  cases d <;> simp only [Dir.moving] at hm <;> simp [hm, moved, slide]

theorem update_not_moving (s : State) (e : ℚ)
    (h1 : s.state ≠ 1) (h2 : s.state ≠ 2) (h4 : s.state ≠ 4) (h5 : s.state ≠ 5) :
    update s e = .ok s := by
  unfold update
  simp [h1, h2, h4, h5]

theorem loop_done (d : Dir) (n : Nat) (s : State) (h : loopCond d s = false) :
    loop d (n + 1) s = .ok s := by
  simp [loop, h]

theorem loop_step (d : Dir) (n : Nat) (s s' : State) (h : loopCond d s = true)
    (hb : loopBody d s = .ok s') : loop d (n + 1) s = loop d n s' := by
  simp [loop, h, hb]

theorem loopCond_arrive (d : Dir) (s : State) : loopCond d (probed (arrive d s)) = false := by
  obtain ⟨-, -, hc, hl, -, -⟩ := probed_fields (arrive d s)
  cases d <;> simp only [loopCond, hc, hl] <;> simp [arrive]

theorem loopBody_empty (d : Dir) (s : State) (hx : s.pos.x < width) (hy : s.pos.y < length)
    (h0 : s.grid s.pos.y s.pos.x = 0) : loopBody d s = .ok (probed (arrive d s)) := by
  unfold loopBody
  rw [cellIs_in _ _ _ hy hx]
  simp only [h0, decide_True, Bool.and_self]
  apply probe_eq
  · cases d <;> exact hx
  · cases d <;> exact hy

theorem loop_arrive (d : Dir) (n : Nat) (s : State) (hx : s.pos.x < width)
    (hy : s.pos.y < length) (h0 : s.grid s.pos.y s.pos.x = 0) (hc : loopCond d s = true) :
    loop d (n + 2) s = .ok (probed (arrive d s)) := by
  rw [loop_step d (n + 1) s _ hc (loopBody_empty d s hx hy h0)]
  exact loop_done d n _ (loopCond_arrive d s)

/-! ## Arrival at the target offset -/

theorem loopCond_exact (d : Dir) (s : State) (h : along d s.cart = s.loc) :
    loopCond d s = false := by
  cases d <;> simp only [along] at h <;> simp [loopCond, h]

theorem arrive_fields (d : Dir) (s : State) :
    (arrive d s).state = d.idle ∧ along d (arrive d s).cart = s.loc ∧
      (arrive d s).grid = s.grid ∧ (arrive d s).pos = s.pos ∧ (arrive d s).lit = s.lit ∧
      (arrive d s).loc = s.loc ∧ (arrive d s).num_gold_left = s.num_gold_left := by
  cases d <;> simp [arrive, Dir.idle, along]

/-- C10, refuted as stated: in `arrivalScene` (mode MovingUp, grid cell Empty,
`cart.y = 3/2`, target 2) an update with elapsed time `1/10` brings the position exactly
onto the target, and the mode stays 4 and the Gold neighbour at row 2, column 0 stays
unlit; only a later update that passes the target reverts the mode to 3 and lights it. -/
theorem exact_arrival_counterexample :
    arrivalScene.state = Dir.up.moving ∧
    arrivalScene.grid arrivalScene.pos.y arrivalScene.pos.x = 0 ∧
    (moved .up arrivalScene (1 / 10)).cart.y = arrivalScene.loc ∧
    (update arrivalScene (1 / 10)).map (fun s => (s.state, s.lit 2 0)) = .ok (4, false) ∧
    (update arrivalScene (2 / 10)).map (fun s => (s.state, s.lit 2 0)) = .ok (3, true) := by
  have h1 : (moved .up arrivalScene (1 / 10)).cart.y = arrivalScene.loc := by
    simp only [moved, slide, arrivalScene, speed]; norm_num
  have h2 : loopCond .up (moved .up arrivalScene (2 / 10)) = true := by
    simp only [loopCond, moved, slide, arrivalScene, speed]; norm_num
  refine ⟨rfl, by decide, h1, ?_, ?_⟩
  · rw [update_moving .up arrivalScene _ rfl, loopFuel,
      loop_done .up 11 _ (loopCond_exact .up _ h1)]
    rfl
  · rw [update_moving .up arrivalScene _ rfl, loopFuel,
      loop_arrive .up 10 _ (by decide) (by decide) (by decide) h2]
    rfl

/-- C10, amended: in the Moving mode of a direction, an update that brings the
continuous position exactly onto the target offset only moves the cart: the mode stays
Moving, the position equals the target and no lighting probe runs (grid, lit mask and
all else unchanged); an update in which the position strictly passes the target while
the grid cell (inside the grid) is Empty reverts the mode to the Idle mode of the
direction, sets the position to the target and runs the lighting probe. -/
theorem exact_arrival (d : Dir) (s : State) (e : ℚ) (hm : s.state = d.moving) :
    (along d (moved d s e).cart = s.loc →
      update s e = .ok (moved d s e) ∧ (moved d s e).state = d.moving ∧
        (moved d s e).lit = s.lit) ∧
    (loopCond d (moved d s e) = true → s.pos.x < width → s.pos.y < length →
      s.grid s.pos.y s.pos.x = 0 →
      update s e = .ok (probed (arrive d (moved d s e))) ∧
        (probed (arrive d (moved d s e))).state = d.idle ∧
        along d (probed (arrive d (moved d s e))).cart = s.loc) := by
  constructor
  · intro h
    refine ⟨?_, hm, rfl⟩
    rw [update_moving d s e hm, loopFuel]
    exact loop_done d 11 _ (loopCond_exact d _ h)
  · intro hc hx hy h0
    obtain ⟨-, -, pc, -, ps, -⟩ := probed_fields (arrive d (moved d s e))
    obtain ⟨as, ac, -⟩ := arrive_fields d (moved d s e)
    refine ⟨?_, ps.trans as, ?_⟩
    · rw [update_moving d s e hm, loopFuel]
      exact loop_arrive d 10 _ hx hy h0 hc
    · rw [pc, ac]; rfl

/-- C10 amended, on `arrivalScene`: elapsed `1/10` arrives exactly (mode stays 4),
elapsed `2/10` passes the target (mode 3, position on the target). -/
theorem exact_arrival_witness :
    (update arrivalScene (1 / 10) = .ok (moved .up arrivalScene (1 / 10)) ∧
      (moved .up arrivalScene (1 / 10)).state = Dir.up.moving ∧
      (moved .up arrivalScene (1 / 10)).lit = arrivalScene.lit) ∧
    (update arrivalScene (2 / 10) = .ok (probed (arrive .up (moved .up arrivalScene (2 / 10)))) ∧
      (probed (arrive .up (moved .up arrivalScene (2 / 10)))).state = Dir.up.idle ∧
      along .up (probed (arrive .up (moved .up arrivalScene (2 / 10)))).cart =
        arrivalScene.loc) :=
  ⟨(exact_arrival .up arrivalScene (1 / 10) rfl).1
      (by simp only [along, moved, slide, arrivalScene, speed]; norm_num),
   (exact_arrival .up arrivalScene (2 / 10) rfl).2
      (by simp only [loopCond, moved, slide, arrivalScene, speed]; norm_num)
      (by decide) (by decide) (by decide)⟩

/-! ## Lighting monotonicity -/

theorem litLe_refl (s : State) : litLe s s := fun _ _ h => h

theorem litLe_trans {s t u : State} (h1 : litLe s t) (h2 : litLe t u) : litLe s u :=
  fun r c h => h2 r c (h1 r c h)

theorem litLe_of_lit_eq {s t : State} (h : t.lit = s.lit) : litLe s t :=
  fun r c hl => by rw [h]; exact hl

theorem setTrue_le (l : Nat → Nat → Bool) (r c i j : Nat) (h : l i j = true) :
    setTrue l r c i j = true := by
  unfold setTrue
  split
  · rfl
  · exact h

theorem setLit_le {s s' : State} {r c : Nat} (h : setLit s r c = .ok s') : litLe s s' := by
  unfold setLit at h
  split at h
  · injection h with h
    subst h
    exact fun i j hl => setTrue_le s.lit r c i j hl
  · cases h

theorem probe_le {s s' : State} (h : probe s = .ok s') : litLe s s' := by
  unfold probe at h
  repeat' split at h
  all_goals first
    | exact setLit_le h
    | (injection h with h; subst h; exact litLe_refl _)
    | cases h

theorem arrive_lit (d : Dir) (s : State) : (arrive d s).lit = s.lit := by
  cases d <;> rfl

theorem advance_lit (d : Dir) (s : State) : (advance d s).lit = s.lit := by
  cases d <;> rfl

theorem loopBody_le {d : Dir} {s s' : State} (h : loopBody d s = .ok s') : litLe s s' := by
  unfold loopBody at h
  split at h
  · cases h
  · exact litLe_trans (litLe_of_lit_eq (arrive_lit d s)) (probe_le h)
  · exact litLe_trans (litLe_of_lit_eq (advance_lit d s)) (setLit_le h)

theorem loop_le (d : Dir) (n : Nat) : ∀ {s s' : State}, loop d n s = .ok s' → litLe s s' := by
  induction n with
  | zero => intro s s' h; cases h
  | succ n ih =>
    intro s s' h
    unfold loop at h
    split at h
    · split at h
      · cases h
      · rename_i hb
        exact litLe_trans (loopBody_le hb) (ih h)
    · injection h with h
      subst h
      exact litLe_refl _

theorem update_le {s s' : State} {e : ℚ} (h : update s e = .ok s') : litLe s s' := by
  unfold update at h
  split_ifs at h
  · exact fun r c hl => loop_le _ _ h r c hl
  · exact fun r c hl => loop_le _ _ h r c hl
  · exact fun r c hl => loop_le _ _ h r c hl
  · exact fun r c hl => loop_le _ _ h r c hl
  · injection h with h
    subst h
    exact litLe_refl _

theorem pickup_le {s s' : State} {clock : Int} {r c : Nat} (h : pickup s clock r c = .ok s') :
    litLe s s' := by
  unfold pickup at h
  split_ifs at h
  · injection h with h; subst h; exact litLe_of_lit_eq rfl
  · injection h with h; subst h; exact litLe_of_lit_eq rfl

theorem keySpace_le {s s' : State} {clock : Int} (h : keySpace s clock = .ok s') :
    litLe s s' := by
  unfold keySpace at h
  repeat' split at h
  all_goals first
    | exact pickup_le h
    | (injection h with h; subst h; exact litLe_refl _)
    | cases h

theorem keyDir_le {s s' : State} :
    (keyLeft s = .ok s' → litLe s s') ∧ (keyRight s = .ok s' → litLe s s') ∧
      (keyUp s = .ok s' → litLe s s') ∧ (keyDown s = .ok s' → litLe s s') := by
  refine ⟨?_, ?_, ?_, ?_⟩ <;> intro h
  · simp only [keyLeft] at h
    split at h
    · cases h
    · injection h with h; subst h; exact litLe_of_lit_eq rfl
    · exact fun r c hl => setLit_le h r c hl
  · simp only [keyRight] at h
    split at h
    · cases h
    · injection h with h; subst h; exact litLe_of_lit_eq rfl
    · exact fun r c hl => setLit_le h r c hl
  · simp only [keyUp] at h
    split at h
    · cases h
    · injection h with h; subst h; exact litLe_of_lit_eq rfl
    · exact fun r c hl => setLit_le h r c hl
  · simp only [keyDown] at h
    split at h
    · cases h
    · injection h with h; subst h; exact litLe_of_lit_eq rfl
    · exact fun r c hl => setLit_le h r c hl

theorem handleKey_le {s s' : State} {k : Key} {clock : Int}
    (h : handleKey s k clock = .ok s') : litLe s s' := by
  unfold handleKey at h
  split_ifs at h
  · cases k
    · exact keyDir_le.1 h
    · exact keyDir_le.2.1 h
    · exact keyDir_le.2.2.1 h
    · exact keyDir_le.2.2.2 h
    · exact keySpace_le h
    · injection h with h; subst h; exact litLe_refl _
  · injection h with h; subst h; exact litLe_refl _

theorem step_le {s s' : State} {ev : Event} (h : step s ev = .ok s') : litLe s s' := by
  cases ev with
  | key k clock => exact handleKey_le h
  | tick e => exact update_le h

theorem run_le (evs : List Event) : ∀ {s s' : State}, run s evs = .ok s' → litLe s s' := by
  induction evs with
  | nil => intro s s' h; injection h with h; subst h; exact litLe_refl _
  | cons e es ih =>
    intro s s' h
    unfold run at h
    split at h
    · cases h
    · rename_i hs
      exact litLe_trans (step_le hs) (ih h)

/-! ## Cells ahead of the cart -/

theorem ahead_zero (d : Dir) (p : UVec2) (hx : p.x < width) (hy : p.y < length) :
    ahead d p 0 = some (p.y, p.x) := by
  cases d <;> simp [ahead, hx, hy]

theorem ahead_one_of_succ (d : Dir) (p : UVec2) (k : Nat)
    (h : (ahead d p (k + 1)).isSome = true) : (ahead d p 1).isSome = true := by
  cases d <;> simp only [ahead, width, length] at h ⊢ <;> split_ifs at h ⊢ <;>
    first | rfl | omega | exact absurd h (by simp)

theorem ahead_shift (d : Dir) (p : UVec2) (k : Nat) (h : (ahead d p 1).isSome = true) :
    ahead d (shift d p 1) k = ahead d p (k + 1) := by
  cases d <;> simp only [ahead, shift, width, length] at h ⊢ <;> split_ifs at h ⊢ <;>
    first
    | rfl
    | omega
    | (simp only [Option.some.injEq, Prod.mk.injEq, true_and, and_true]; omega)
    | exact absurd h (by simp)

theorem ahead_bounds (d : Dir) (p : UVec2) (k r c : Nat) (hx : p.x < width)
    (hy : p.y < length) (h : ahead d p k = some (r, c)) :
    r < length ∧ c < width ∧ k < 11 := by
  cases d <;> simp only [ahead, width, length] at h hx hy ⊢ <;> split_ifs at h <;>
    simp only [Option.some.injEq, Prod.mk.injEq] at h <;> omega

theorem ahead_one (d : Dir) (p : UVec2) (h : (ahead d p 1).isSome = true) :
    ahead d p 1 = some ((shift d p 1).y, (shift d p 1).x) := by
  cases d <;> simp only [ahead, shift] at h ⊢ <;> split_ifs at h ⊢ <;>
    first | rfl | exact absurd h (by simp)

theorem aheadIs_isSome (d : Dir) (s : State) (k : Nat) (v : Int)
    (h : aheadIs d s k v = true) : (ahead d s.pos k).isSome = true := by
  unfold aheadIs at h
  split at h
  · rename_i heq; rw [heq]; rfl
  · cases h

theorem advance_pos (d : Dir) (s : State) (hx : s.pos.x < width) (hy : s.pos.y < length)
    (h : (ahead d s.pos 1).isSome = true) : (advance d s).pos = shift d s.pos 1 := by
  simp only [width, length] at hx hy
  cases d <;> simp only [ahead, width, length] at h <;> split_ifs at h <;>
    first
    | (simp only [advance, shift]
       first
       | rw [dec32_pos (by omega)]
       | rw [inc32_small (by omega)])
    | exact absurd h (by simp)

theorem stepped_fields (d : Dir) (s : State) :
    (stepped d s).grid = s.grid ∧ (stepped d s).state = s.state ∧
      (stepped d s).cart = s.cart ∧ (stepped d s).num_gold_left = s.num_gold_left ∧
      (stepped d s).pos = (advance d s).pos := by
  cases d <;> simp [stepped, advance]

theorem loopBody_track (d : Dir) (s : State) (hx : s.pos.x < width) (hy : s.pos.y < length)
    (h0 : s.grid s.pos.y s.pos.x ≠ 0) (h : (ahead d s.pos 1).isSome = true) :
    loopBody d s = .ok (stepped d s) ∧ (stepped d s).pos = shift d s.pos 1 ∧
      (stepped d s).pos.x < width ∧ (stepped d s).pos.y < length := by
  have hp := advance_pos d s hx hy h
  have hb := ahead_bounds d s.pos 1 _ _ hx hy (ahead_one d s.pos h)
  have hs := (stepped_fields d s).2.2.2.2
  refine ⟨?_, hs.trans hp, ?_, ?_⟩
  · unfold loopBody
    rw [cellIs_in _ _ _ hy hx]
    simp only [h0, decide_False, Bool.and_false]
    rw [hp]
    rw [setLit_in _ hb.1 hb.2.1]
    simp only [stepped, hp]
    cases d <;> rfl
  · rw [hs, hp]; exact hb.2.1
  · rw [hs, hp]; exact hb.1

theorem aheadIs_stepped (d : Dir) (s : State) (k : Nat) (v : Int)
    (hx : s.pos.x < width) (hy : s.pos.y < length) (h : (ahead d s.pos 1).isSome = true) :
    aheadIs d (stepped d s) k v = aheadIs d s (k + 1) v := by
  have hp := advance_pos d s hx hy h
  obtain ⟨hg, -, -, -, hs⟩ := stepped_fields d s
  unfold aheadIs
  rw [hs, hp, ahead_shift d s.pos k h, hg]

theorem aheadIs_zero (d : Dir) (s : State) (v : Int) (hx : s.pos.x < width)
    (hy : s.pos.y < length) : (aheadIs d s 0 v = true ↔ s.grid s.pos.y s.pos.x = v) := by
  unfold aheadIs
  rw [ahead_zero d s.pos hx hy]
  simp

/-! ## Safety of the runs -/

theorem loop_safe (d : Dir) : ∀ (k n : Nat) (s : State), k + 2 ≤ n →
    s.pos.x < width → s.pos.y < length → aheadIs d s k 0 = true →
    ∃ s', loop d n s = .ok s' ∧ s'.grid = s.grid ∧ s'.num_gold_left = s.num_gold_left ∧
      s'.pos.x < width ∧ s'.pos.y < length ∧
      ((s'.state = s.state ∧ ∃ k', aheadIs d s' k' 0 = true) ∨ s'.state = d.idle) := by
  intro k
  induction k with
  | zero =>
    intro n s hn hx hy hk
    obtain ⟨m, rfl⟩ : ∃ m, n = m + 2 := ⟨n - 2, by omega⟩
    by_cases hc : loopCond d s = true
    · have h0 := (aheadIs_zero d s 0 hx hy).1 hk
      obtain ⟨pg, pp, -, -, ps, pn⟩ := probed_fields (arrive d s)
      obtain ⟨as, -, ag, ap, -, -, an⟩ := arrive_fields d s
      refine ⟨_, loop_arrive d m s hx hy h0 hc, pg.trans ag, pn.trans an, ?_, ?_,
        Or.inr (ps.trans as)⟩
      · rw [pp, ap]; exact hx
      · rw [pp, ap]; exact hy
    · have hc' : loopCond d s = false := by simpa using hc
      exact ⟨s, loop_done d (m + 1) s hc', rfl, rfl, hx, hy, Or.inl ⟨rfl, 0, hk⟩⟩
  | succ k ih =>
    intro n s hn hx hy hk
    obtain ⟨m, rfl⟩ : ∃ m, n = m + 2 := ⟨n - 2, by omega⟩
    by_cases hc : loopCond d s = true
    · by_cases h0 : s.grid s.pos.y s.pos.x = 0
      · obtain ⟨pg, pp, -, -, ps, pn⟩ := probed_fields (arrive d s)
        obtain ⟨as, -, ag, ap, -, -, an⟩ := arrive_fields d s
        refine ⟨_, loop_arrive d m s hx hy h0 hc, pg.trans ag, pn.trans an, ?_, ?_,
          Or.inr (ps.trans as)⟩
        · rw [pp, ap]; exact hx
        · rw [pp, ap]; exact hy
      · have h1 := ahead_one_of_succ d s.pos k (aheadIs_isSome d s _ 0 hk)
        obtain ⟨hb, -, hx', hy'⟩ := loopBody_track d s hx hy h0 h1
        obtain ⟨sg, ss, -, sn, -⟩ := stepped_fields d s
        have hk' : aheadIs d (stepped d s) k 0 = true := by
          rw [aheadIs_stepped d s k 0 hx hy h1]; exact hk
        obtain ⟨s', hl, hg, hn', hx'', hy'', hst⟩ :=
          ih (m + 1) (stepped d s) (by omega) hx' hy' hk'
        refine ⟨s', ?_, hg.trans sg, hn'.trans sn, hx'', hy'', ?_⟩
        · rw [loop_step d (m + 1) s _ hc hb]; exact hl
        · rcases hst with ⟨h1, h2⟩ | h
          · exact Or.inl ⟨h1.trans ss, h2⟩
          · exact Or.inr h
    · have hc' : loopCond d s = false := by simpa using hc
      exact ⟨s, loop_done d (m + 1) s hc', rfl, rfl, hx, hy, Or.inl ⟨rfl, k + 1, hk⟩⟩

theorem moving_inj {d d' : Dir} (h : d.moving = d'.moving) : d = d' := by
  cases d <;> cases d' <;> first | rfl | exact absurd h (by decide)

theorem idle_ne_moving (d d' : Dir) : d.idle ≠ d'.moving := by
  cases d <;> cases d' <;> decide

theorem aheadIs_bound (d : Dir) (s : State) (k : Nat) (v : Int) (hx : s.pos.x < width)
    (hy : s.pos.y < length) (h : aheadIs d s k v = true) : k < 11 := by
  unfold aheadIs at h
  split at h
  · rename_i r c heq
    exact (ahead_bounds d s.pos k r c hx hy heq).2.2
  · cases h

theorem update_safe (s : State) (e : ℚ) (hs : Safe s) : ∃ s', update s e = .ok s' ∧ Safe s' := by
  obtain ⟨hx, hy, hn, ht, hm⟩ := hs
  by_cases hd : ∃ d : Dir, s.state = d.moving
  · obtain ⟨d, hd⟩ := hd
    obtain ⟨k, hk⟩ := hm d hd
    have hk11 := aheadIs_bound d s k 0 hx hy hk
    obtain ⟨s', hl, hg, hn', hx', hy', hst⟩ :=
      loop_safe d k loopFuel (moved d s e) (by simp only [loopFuel]; omega) hx hy hk
    refine ⟨s', ?_, hx', hy', ?_, ?_, ?_⟩
    · rw [update_moving d s e hd]; exact hl
    · rw [hn']; exact hn
    · rw [hg]; exact ht
    · intro d' hd'
      rcases hst with ⟨h1, h2⟩ | h
      · have : d' = d := moving_inj (hd'.symm.trans (h1.trans hd))
        subst this
        exact h2
      · exact absurd (h.symm.trans hd') (idle_ne_moving d d')
  · refine ⟨s, update_not_moving s e ?_ ?_ ?_ ?_, hx, hy, hn, ht, hm⟩
    · exact fun h => hd ⟨.left, h⟩
    · exact fun h => hd ⟨.right, h⟩
    · exact fun h => hd ⟨.up, h⟩
    · exact fun h => hd ⟨.down, h⟩

theorem setCell_zero {g : Nat → Nat → Int} {r c i j : Nat} (h3 : g r c = 3)
    (h0 : g i j = 0) : setCell g r c 7 i j = 0 := by
  unfold setCell
  split
  · rename_i h
    rw [h.1, h.2, h3] at h0
    exact absurd h0 (by decide)
  · exact h0

theorem setCell_track {g : Nat → Nat → Int} {r c i j : Nat} {v : Int} (hv : v ≠ 7)
    (h : setCell g r c 7 i j = v) : g i j = v := by
  unfold setCell at h
  split at h
  · exact absurd h.symm hv
  · exact h

theorem trackEnds_setCell (g : Nat → Nat → Int) (r c : Nat) (h3 : g r c = 3)
    (ht : trackEnds g) : trackEnds (setCell g r c 7) := by
  intro i hi j hj
  obtain ⟨hrow, hcol⟩ := ht i hi j hj
  constructor
  · intro h
    obtain ⟨⟨a, ha, ha0⟩, ⟨b, hb, hb1, hb0⟩⟩ := hrow (setCell_track (by decide) h)
    exact ⟨⟨a, ha, setCell_zero h3 ha0⟩, ⟨b, hb, hb1, setCell_zero h3 hb0⟩⟩
  · intro h
    obtain ⟨⟨a, ha, ha0⟩, ⟨b, hb, hb1, hb0⟩⟩ := hcol (setCell_track (by decide) h)
    exact ⟨⟨a, ha, setCell_zero h3 ha0⟩, ⟨b, hb, hb1, setCell_zero h3 hb0⟩⟩

theorem track_empty (d : Dir) (s : State) (hx : s.pos.x < width) (hy : s.pos.y < length)
    (ht : trackEnds s.grid) (ha : aheadIs d s 1 d.track = true) :
    ∃ k, aheadIs d s (k + 1) 0 = true := by
  simp only [width, length] at hx hy
  cases d
  · obtain ⟨h1, h2⟩ := (aheadIs_left s 1 _).1 ha
    obtain ⟨⟨a, ha1, ha0⟩, -⟩ := (ht s.pos.y hy (s.pos.x - 1) (by simp only [width]; omega)).1 h2
    refine ⟨s.pos.x - a - 1, (aheadIs_left s _ 0).2 ⟨by omega, ?_⟩⟩
    have : s.pos.x - (s.pos.x - a - 1 + 1) = a := by omega
    rw [this]; exact ha0
  · obtain ⟨h1, h2⟩ := (aheadIs_right s 1 _).1 ha
    obtain ⟨-, ⟨a, ha1, ha2, ha0⟩⟩ := (ht s.pos.y hy (s.pos.x + 1) h1).1 h2
    simp only [width] at ha1
    refine ⟨a - s.pos.x - 1, (aheadIs_right s _ 0).2 ⟨by simp only [width]; omega, ?_⟩⟩
    have : s.pos.x + (a - s.pos.x - 1 + 1) = a := by omega
    rw [this]; exact ha0
  · obtain ⟨h1, h2⟩ := (aheadIs_up s 1 _).1 ha
    obtain ⟨⟨a, ha1, ha0⟩, -⟩ := (ht (s.pos.y - 1) (by simp only [length]; omega) s.pos.x hx).2 h2
    refine ⟨s.pos.y - a - 1, (aheadIs_up s _ 0).2 ⟨by omega, ?_⟩⟩
    have : s.pos.y - (s.pos.y - a - 1 + 1) = a := by omega
    rw [this]; exact ha0
  · obtain ⟨h1, h2⟩ := (aheadIs_down s 1 _).1 ha
    obtain ⟨-, ⟨a, ha1, ha2, ha0⟩⟩ := (ht (s.pos.y + 1) h1 s.pos.x hx).2 h2
    simp only [length] at ha1
    refine ⟨a - s.pos.y - 1, (aheadIs_down s _ 0).2 ⟨by simp only [length]; omega, ?_⟩⟩
    have : s.pos.y + (a - s.pos.y - 1 + 1) = a := by omega
    rw [this]; exact ha0

theorem aheadIs_advanced (d : Dir) (s : State) (k : Nat) (v : Int)
    (h : (ahead d s.pos 1).isSome = true) :
    aheadIs d (advanced d s) k v = aheadIs d s (k + 1) v := by
  unfold aheadIs
  simp only [advanced]
  rw [ahead_shift d s.pos k h]

theorem advanced_safe (d : Dir) (s : State) (hs : Safe s)
    (ha : aheadIs d s 1 d.track = true) : Safe (advanced d s) := by
  obtain ⟨hx, hy, hn, ht, -⟩ := hs
  have h1 := aheadIs_isSome d s 1 _ ha
  have hb := ahead_bounds d s.pos 1 _ _ hx hy (ahead_one d s.pos h1)
  refine ⟨hb.2.1, hb.1, hn, ht, ?_⟩
  intro d' hd'
  have : d' = d := (moving_inj hd').symm
  subst this
  obtain ⟨k, hk⟩ := track_empty d' s hx hy ht ha
  exact ⟨k, by rw [aheadIs_advanced d' s k 0 h1]; exact hk⟩

theorem bumped_safe (d : Dir) (s : State) (hs : Safe s) : Safe (bumped d s) := by
  obtain ⟨hx, hy, hn, ht, -⟩ := hs
  exact ⟨hx, hy, hn, ht, fun d' hd' => absurd hd' (idle_ne_moving d d')⟩

theorem picked_safe (s : State) (clock : Int) (hm : s.state = 0 ∨ s.state = 3)
    (hs : Safe s) : Safe (picked s clock) := by
  obtain ⟨hx, hy, hn, ht, hmv⟩ := hs
  unfold picked
  split
  · exact ⟨hx, hy, hn, ht, hmv⟩
  · rename_i r c heq
    obtain ⟨-, -, h3⟩ := firstNeighbour_spec s 3 r c hx hy heq
    split_ifs with hc
    · refine ⟨hx, hy, hn, ht, ?_⟩
      intro d hd
      exfalso
      simp only at hd
      rcases hm with h | h <;> rw [h] at hd <;> cases d <;> exact absurd hd (by decide)
    · refine ⟨hx, hy, ?_, trackEnds_setCell s.grid r c h3 ht, ?_⟩
      · have h1 : s.num_gold_left ≠ 1 := by
          intro h1
          rw [h1] at hc
          exact hc (Int.tmod_one clock)
        simp only
        omega
      · intro d hd
        exfalso
        simp only at hd
        rcases hm with h | h <;> rw [h] at hd <;> cases d <;> exact absurd hd (by decide)

theorem handleKey_safe (s : State) (k : Key) (clock : Int) (hs : Safe s) :
    ∃ s', handleKey s k clock = .ok s' ∧ Safe s' := by
  by_cases hm : s.state = 0 ∨ s.state = 3
  · have hdir : ∀ d : Dir, ∃ s', handleKey s d.key clock = .ok s' ∧ Safe s' := by
      intro d
      rw [handleKey_dir s d clock hm hs.1 hs.2.1]
      by_cases ha : aheadIs d s 1 d.track = true
      · exact ⟨_, by rw [if_pos ha], advanced_safe d s hs ha⟩
      · exact ⟨_, by rw [if_neg ha], bumped_safe d s hs⟩
    cases k
    · exact hdir .left
    · exact hdir .right
    · exact hdir .up
    · exact hdir .down
    · refine ⟨picked s clock, ?_, picked_safe s clock hm hs⟩
      unfold handleKey
      rw [if_pos hm]
      exact keySpace_eq s clock hs.1 hs.2.1 (fun _ => by have := hs.2.2.1; omega)
    · exact ⟨s, by unfold handleKey; rw [if_pos hm], hs⟩
  · exact ⟨s, by unfold handleKey; rw [if_neg hm], hs⟩

theorem step_safe (s : State) (ev : Event) (hs : Safe s) :
    ∃ s', step s ev = .ok s' ∧ Safe s' := by
  cases ev with
  | key k clock => exact handleKey_safe s k clock hs
  | tick e => exact update_safe s e hs

theorem run_safe (evs : List Event) : ∀ s : State, Safe s →
    ∃ s', run s evs = .ok s' ∧ Safe s' := by
  induction evs with
  | nil => intro s hs; exact ⟨s, rfl, hs⟩
  | cons e es ih =>
    intro s hs
    obtain ⟨s1, h1, hs1⟩ := step_safe s e hs
    obtain ⟨s2, h2, hs2⟩ := ih s1 hs1
    exact ⟨s2, by simp only [run, h1]; exact h2, hs2⟩

set_option maxRecDepth 100000 in
theorem trackEnds_level : trackEnds (gridOf level) := by decide

theorem initial_safe : Safe initial :=
  ⟨by decide, by decide, by decide, trackEnds_level,
    fun d hd => by cases d <;> exact absurd hd (by decide)⟩

theorem run_append (a b : List Event) : ∀ s s1 : State, run s a = .ok s1 →
    run s (a ++ b) = run s1 b := by
  induction a with
  | nil => intro s s1 h; injection h with h; subst h; rfl
  | cons e es ih =>
    intro s s1 h
    simp only [run, List.cons_append] at h ⊢
    split at h
    · cases h
    · rename_i s2 hs
      exact ih s2 s1 h

/-! ## Claims about whole runs -/

/-- C4. Lighting monotonicity: for every state and every step (any key-down event,
any update with any elapsed time) that the program performs, every cell lit before
the step is lit after it; and every run from the initial state is defined and its lit
mask only grows: the state after a prefix of the events is below the state after the
whole sequence. -/
theorem lighting_monotone :
    (∀ (s s' : State) (ev : Event), step s ev = .ok s' → litLe s s') ∧
    (∀ evs1 evs2 : List Event, ∃ s1 s2, run initial evs1 = .ok s1 ∧
      run initial (evs1 ++ evs2) = .ok s2 ∧ litLe s1 s2) := by
  refine ⟨fun s s' ev h => step_le h, fun evs1 evs2 => ?_⟩
  obtain ⟨s1, h1, hs1⟩ := run_safe evs1 initial initial_safe
  obtain ⟨s2, h2, -⟩ := run_safe evs2 s1 hs1
  exact ⟨s1, s2, h1, (run_append evs1 evs2 initial s1 h1).trans h2, run_le evs2 h2⟩

/-- C4 at the first Left request of a game: the start cell (row 5, column 5) is lit
before the step and after it. -/
theorem lighting_monotone_witness :
    step initial (Event.key .left 0) = .ok (advanced .left initial) ∧
      initial.lit 5 5 = true ∧ (advanced .left initial).lit 5 5 = true :=
  ⟨rfl, rfl, lighting_monotone.1 initial (advanced .left initial) (Event.key .left 0) rfl
    5 5 rfl⟩

/-- C5. Bounds safety on the shipped level: every track cell of the level has an Empty
cell on either side along its line of travel, and for every finite sequence of key-down
events (any clock samples) and update steps (any elapsed times) the run from the initial
state is defined, that is, no access to `grid` or `lit` has an index outside `0..10`
(such an access ends the run with a fault), and the grid position ends inside the grid
(it never wraps below zero). -/
theorem bounds_safety (evs : List Event) :
    trackEnds (gridOf level) ∧
    ∃ s, run initial evs = .ok s ∧ s.pos.x < width ∧ s.pos.y < length := by
  obtain ⟨s, h, hs⟩ := run_safe evs initial initial_safe
  exact ⟨trackEnds_level, s, h, hs.1, hs.2.1⟩

/-- C6, refuted as stated: no sequence of events from the initial state of the shipped
level leads to a gold counter of zero, and none evaluates `clock % num_gold_left` with a
zero divisor. -/
theorem gold_counter_zero_counterexample :
    ¬ ∃ evs : List Event,
      (∃ s, run initial evs = .ok s ∧ s.num_gold_left = 0) ∨
        run initial evs = .error .divByZero := by
  rintro ⟨evs, h⟩
  obtain ⟨s, hr, hs⟩ := run_safe evs initial initial_safe
  rcases h with ⟨s', hr', h0⟩ | he
  · rw [hr] at hr'
    injection hr' with hr'
    subst hr'
    have := hs.2.2.1
    omega
  · rw [hr] at he
    cases he

/-- C6, amended: from the initial state of the shipped level every sequence of key-down
events, clock samples and update steps runs without a fault (no pickup branch meets a
zero divisor) and leaves the gold counter at least 1; the counter cannot drop from 1
to 0 because with counter 1 a pickup branch always wins (`clock % 1 == 0`) and leaves
grid and counter as they are. -/
theorem gold_counter_positive :
    (∀ evs : List Event, ∃ s, run initial evs = .ok s ∧ 1 ≤ s.num_gold_left) ∧
    (∀ (s : State) (clock : Int) (r c : Nat), s.num_gold_left = 1 →
      pickup s clock r c = .ok { s with state := s.state + 6 }) := by
  constructor
  · intro evs
    obtain ⟨s, hr, hs⟩ := run_safe evs initial initial_safe
    exact ⟨s, hr, hs.2.2.1⟩
  · intro s clock r c h1
    unfold pickup
    rw [h1, if_neg (by decide), if_pos (Int.tmod_one clock)]

/-- C6 amended, at the scenario `goldScene` with one pile left: the pickup wins for the
clock sample 7. -/
theorem gold_counter_positive_witness :
    pickup { goldScene with num_gold_left := 1 } 7 0 9 =
      .ok { goldScene with num_gold_left := 1, state := 6 } :=
  gold_counter_positive.2 { goldScene with num_gold_left := 1 } 7 0 9 rfl

/-! ## Glide-through -/

theorem ahead_shift_add (d : Dir) (p : UVec2) (j k : Nat)
    (h : (ahead d p j).isSome = true) : ahead d (shift d p j) k = ahead d p (j + k) := by
  cases d <;> simp only [ahead, shift, width, length] at h ⊢ <;> split_ifs at h ⊢ <;>
    first
    | rfl
    | omega
    | (simp only [Option.some.injEq, Prod.mk.injEq, true_and, and_true]; omega)
    | exact absurd h (by simp)

theorem ahead_eq_shift (d : Dir) (p : UVec2) (k : Nat) (h : (ahead d p k).isSome = true) :
    ahead d p k = some ((shift d p k).y, (shift d p k).x) := by
  cases d <;> simp only [ahead, shift] at h ⊢ <;> split_ifs at h ⊢ <;>
    first | rfl | exact absurd h (by simp)

theorem aheadIs_shift (d : Dir) (s : State) (k : Nat) (v : Int) (hx : s.pos.x < width)
    (hy : s.pos.y < length) (h : aheadIs d s k v = true) :
    (shift d s.pos k).x < width ∧ (shift d s.pos k).y < length ∧
      s.grid (shift d s.pos k).y (shift d s.pos k).x = v ∧
      (ahead d s.pos k).isSome = true := by
  have hs := aheadIs_isSome d s k v h
  have he := ahead_eq_shift d s.pos k hs
  have hb := ahead_bounds d s.pos k _ _ hx hy he
  refine ⟨hb.2.1, hb.1, ?_, hs⟩
  unfold aheadIs at h
  rw [he] at h
  simpa using h

theorem shift_shift (d : Dir) (p : UVec2) (j : Nat) :
    shift d (shift d p j) 1 = shift d p (j + 1) := by
  cases d <;> rfl

theorem loopCond_gliding (d : Dir) (s : State) (j : Nat) (D : ℚ) :
    loopCond d (gliding d s j D) = decide ((j : ℚ) < D) := by
  cases d <;> simp [loopCond, gliding, slide, along]

theorem moved_gliding (d : Dir) (s : State) (j : Nat) (D e : ℚ) :
    moved d (gliding d s j D) e = gliding d s j (D + e * speed) := by
  cases d <;> simp [moved, gliding, slide, along] <;> ring

theorem arrive_gliding (d : Dir) (s : State) (j : Nat) (D : ℚ) :
    arrive d (gliding d s j D) = arrived d s j := by
  cases d <;> simp [arrive, gliding, arrived, slide, along, Dir.idle]

theorem advanced_eq_gliding (d : Dir) (s : State) : advanced d s = gliding d s 1 0 := by
  cases d <;> simp [advanced, gliding, slide, along, litRun]

theorem stepped_gliding (d : Dir) (s : State) (j : Nat) (D : ℚ)
    (hx : (shift d s.pos j).x < width) (hy : (shift d s.pos j).y < length)
    (h : (ahead d (shift d s.pos j) 1).isSome = true) :
    stepped d (gliding d s j D) = gliding d s (j + 1) D := by
  have hp : (advance d (gliding d s j D)).pos = shift d s.pos (j + 1) := by
    rw [advance_pos d (gliding d s j D) hx hy h]
    exact shift_shift d s.pos j
  unfold stepped
  rw [hp]
  cases d <;> simp only [advance, gliding] at hp ⊢ <;>
    simp only [State.mk.injEq, UVec2.mk.injEq] at hp ⊢
  all_goals
    refine ⟨trivial, rfl, hp, trivial, ?_, trivial, trivial⟩
    simp only [along, slide, Nat.cast_add, Nat.cast_one]
    ring

theorem track_ne_zero (d : Dir) : d.track ≠ 0 := by
  cases d <;> decide

theorem straightRun_some (d : Dir) (s : State) (N k : Nat) (hr : straightRun d s N)
    (h1 : 1 ≤ k) (hk : k ≤ N + 1) : (ahead d s.pos k).isSome = true := by
  obtain ⟨-, -, ht, he⟩ := hr
  by_cases h : k ≤ N
  · exact aheadIs_isSome d s k _ (ht k h1 h)
  · have : k = N + 1 := by omega
    subst this
    exact aheadIs_isSome d s _ _ he

theorem glide_loop (d : Dir) (s : State) (N : Nat) (hr : straightRun d s N) (D : ℚ) :
    ∀ m j n : Nat, j + m = N + 1 → 1 ≤ j → m + 2 ≤ n →
      (((N : ℚ) + 1 < D → loop d n (gliding d s j D) = .ok (rested d s N)) ∧
        (D ≤ (N : ℚ) + 1 → ∃ j', 1 ≤ j' ∧ j' ≤ N + 1 ∧
          loop d n (gliding d s j D) = .ok (gliding d s j' D))) := by
  obtain ⟨hx, hy, ht, he⟩ := hr
  intro m
  induction m with
  | zero =>
    intro j n hj h1 hn
    have hjN : j = N + 1 := by omega
    subst hjN
    obtain ⟨k, rfl⟩ : ∃ k, n = k + 2 := ⟨n - 2, by omega⟩
    obtain ⟨sx, sy, sg, -⟩ := aheadIs_shift d s (N + 1) 0 hx hy he
    constructor
    · intro hD
      have hc : loopCond d (gliding d s (N + 1) D) = true := by
        rw [loopCond_gliding]; simpa using hD
      rw [loop_arrive d k (gliding d s (N + 1) D) sx sy sg hc, arrive_gliding]
      rfl
    · intro hD
      have hc : loopCond d (gliding d s (N + 1) D) = false := by
        rw [loopCond_gliding]; simpa using hD
      exact ⟨N + 1, h1, le_refl _, loop_done d (k + 1) _ hc⟩
  | succ m ih =>
    intro j n hj h1 hn
    obtain ⟨k, rfl⟩ : ∃ k, n = k + 2 := ⟨n - 2, by omega⟩
    have hjN : j ≤ N := by omega
    by_cases hjD : (j : ℚ) < D
    · have hc : loopCond d (gliding d s j D) = true := by
        rw [loopCond_gliding]; simpa using hjD
      obtain ⟨sx, sy, sg, ss⟩ := aheadIs_shift d s j _ hx hy (ht j h1 hjN)
      have hnext : (ahead d (shift d s.pos j) 1).isSome = true := by
        rw [ahead_shift_add d s.pos j 1 ss]
        exact straightRun_some d s N (j + 1) ⟨hx, hy, ht, he⟩ (by omega) (by omega)
      have h0 : (gliding d s j D).grid (gliding d s j D).pos.y (gliding d s j D).pos.x ≠ 0 := by
        show s.grid (shift d s.pos j).y (shift d s.pos j).x ≠ 0
        rw [sg]; exact track_ne_zero d
      obtain ⟨hb, -, -, -⟩ := loopBody_track d (gliding d s j D) sx sy h0 hnext
      rw [stepped_gliding d s j D sx sy hnext] at hb
      rw [loop_step d (k + 1) _ _ hc hb]
      exact ih (j + 1) (k + 1) (by omega) (by omega) (by omega)
    · have hc : loopCond d (gliding d s j D) = false := by
        rw [loopCond_gliding]; simpa using hjD
      have hjN' : (j : ℚ) ≤ N := by exact_mod_cast hjN
      constructor
      · intro hD
        exfalso
        apply hjD
        linarith
      · intro _
        exact ⟨j, h1, by omega, loop_done d (k + 1) _ hc⟩

theorem run_ticks_idle (t : State) (h1 : t.state ≠ 1) (h2 : t.state ≠ 2) (h4 : t.state ≠ 4)
    (h5 : t.state ≠ 5) (es : List ℚ) : run t (es.map Event.tick) = .ok t := by
  induction es with
  | nil => rfl
  | cons e es ih =>
    simp only [List.map_cons, run, step, update_not_moving t e h1 h2 h4 h5]
    exact ih

theorem rested_state (d : Dir) (s : State) (N : Nat) : (rested d s N).state = d.idle :=
  (probed_fields (arrived d s (N + 1))).2.2.2.2.1

theorem run_ticks_rested (d : Dir) (s : State) (N : Nat) (es : List ℚ) :
    run (rested d s N) (es.map Event.tick) = .ok (rested d s N) := by
  have h := rested_state d s N
  apply run_ticks_idle <;> rw [h] <;> cases d <;> decide

theorem travelled_cons (e : ℚ) (es : List ℚ) :
    travelled (e :: es) = e * speed + travelled es := by
  simp [travelled]

theorem glide_ticks (d : Dir) (s : State) (N : Nat) (hr : straightRun d s N) :
    ∀ (es : List ℚ) (D : ℚ) (j : Nat), 1 ≤ j → j ≤ N + 1 → D ≤ (N : ℚ) + 1 →
      (N : ℚ) + 1 < D + travelled es →
      run (gliding d s j D) (es.map Event.tick) = .ok (rested d s N) := by
  have hN : N + 1 < 11 := aheadIs_bound d s (N + 1) 0 hr.1 hr.2.1 hr.2.2.2
  intro es
  induction es with
  | nil =>
    intro D j _ _ hD hs
    simp only [travelled, List.map_nil, List.sum_nil, add_zero] at hs
    exact absurd hD (not_le.mpr hs)
  | cons e es ih =>
    intro D j h1 hj hD hs
    rw [travelled_cons] at hs
    have hu : update (gliding d s j D) e = loop d loopFuel (gliding d s j (D + e * speed)) := by
      rw [update_moving d _ e rfl, moved_gliding]
    obtain ⟨hpass, hstay⟩ := glide_loop d s N hr (D + e * speed) (N + 1 - j) j loopFuel
      (by omega) h1 (by simp only [loopFuel]; omega)
    simp only [List.map_cons, run, step, hu]
    by_cases hp : (N : ℚ) + 1 < D + e * speed
    · rw [hpass hp]
      exact run_ticks_rested d s N es
    · obtain ⟨j', h1', hj', hl⟩ := hstay (not_lt.mp hp)
      rw [hl]
      exact ih (D + e * speed) j' h1' hj' (not_lt.mp hp) (by linarith)

theorem litRun_iff (d : Dir) (p : UVec2) (l : Nat → Nat → Bool) (r c : Nat) :
    ∀ n, litRun d p n l r c = true ↔
      (l r c = true ∨ ∃ k, 1 ≤ k ∧ k ≤ n ∧ shift d p k = ⟨c, r⟩) := by
  intro n
  induction n with
  | zero =>
    simp only [litRun]
    constructor
    · exact Or.inl
    · rintro (h | ⟨k, h1, h2, -⟩)
      · exact h
      · omega
  | succ n ih =>
    simp only [litRun, setTrue]
    split
    · rename_i h
      simp only [true_iff]
      refine Or.inr ⟨n + 1, by omega, le_refl _, ?_⟩
      rw [h.1, h.2]
    · rename_i h
      rw [ih]
      constructor
      · rintro (hl | ⟨k, h1, h2, h3⟩)
        · exact Or.inl hl
        · exact Or.inr ⟨k, h1, by omega, h3⟩
      · rintro (hl | ⟨k, h1, h2, h3⟩)
        · exact Or.inl hl
        · by_cases hk : k = n + 1
          · subst hk
            exfalso
            apply h
            rw [h3]
            exact ⟨rfl, rfl⟩
          · exact Or.inr ⟨k, h1, by omega, h3⟩

theorem probed_lit_iff (t : State) (r c : Nat) :
    (probed t).lit r c = true ↔ (t.lit r c = true ∨ firstNeighbour t 3 = some (r, c)) := by
  unfold probed
  split
  · rename_i h
    rw [h]
    simp
  · rename_i a b h
    rw [h]
    simp only [setTrue, Option.some.injEq, Prod.mk.injEq]
    split
    · rename_i hh
      simp only [true_iff]
      exact Or.inr ⟨hh.1.symm, hh.2.symm⟩
    · rename_i hh
      constructor
      · exact Or.inl
      · rintro (hl | ⟨h1, h2⟩)
        · exact hl
        · exact absurd ⟨h1.symm, h2.symm⟩ hh

/-- Glide-through in exact arithmetic (`run`, no rounding): the cart is idle inside the
grid, the next `N >= 1` cells in a direction are matching track cells and the cell after
them is Empty and inside the grid. Then one directional request followed by any sequence
of update steps whose travelled distance (the sum of `elapsed * 5`) exceeds `N + 1`
returns the state `rested`. In single precision the sum does not decide this; see the
section on the glide-through in single precision. -/
theorem glide_through (d : Dir) (s : State) (N : Nat) (clock : Int) (es : List ℚ)
    (hm : s.state = 0 ∨ s.state = 3) (hN : 1 ≤ N) (hr : straightRun d s N)
    (hsum : (N : ℚ) + 1 < travelled es) :
    run s (Event.key d.key clock :: es.map Event.tick) = .ok (rested d s N) ∧
    (rested d s N).state = d.idle ∧
    (rested d s N).pos = shift d s.pos (N + 1) ∧
    s.grid (shift d s.pos (N + 1)).y (shift d s.pos (N + 1)).x = 0 ∧
    (rested d s N).cart = slide d s.cart ((N : ℚ) + 1) ∧
    (rested d s N).grid = s.grid ∧
    ∀ r c, (rested d s N).lit r c = true ↔
      (s.lit r c = true ∨ (∃ k, 1 ≤ k ∧ k ≤ N + 1 ∧ shift d s.pos k = ⟨c, r⟩) ∨
        firstNeighbour (arrived d s (N + 1)) 3 = some (r, c)) := by
  obtain ⟨pg, pp, pc, -, ps, -⟩ := probed_fields (arrived d s (N + 1))
  refine ⟨?_, rested_state d s N, pp, (aheadIs_shift d s (N + 1) 0 hr.1 hr.2.1 hr.2.2.2).2.2.1,
    ?_, pg, ?_⟩
  · have hk : handleKey s d.key clock = .ok (gliding d s 1 0) := by
      rw [handleKey_dir s d clock hm hr.1 hr.2.1, if_pos (hr.2.2.1 1 (le_refl _) hN),
        advanced_eq_gliding]
    simp only [run, step, hk]
    exact glide_ticks d s N hr es 0 1 (le_refl _) (by omega)
      (by have : (0 : ℚ) ≤ N := Nat.cast_nonneg N
          linarith) (by simpa using hsum)
  · show (probed (arrived d s (N + 1))).cart = _
    rw [pc]
    simp only [arrived, Nat.cast_add, Nat.cast_one]
  · intro r c
    show (probed (arrived d s (N + 1))).lit r c = true ↔ _
    rw [probed_lit_iff]
    show (litRun d s.pos (N + 1) s.lit r c = true ∨ _) ↔ _
    rw [litRun_iff, or_assoc]

/-- Glide-through in exact arithmetic at the start of a game: the four cells to the
left of the start are horizontal track and row 5, column 0 is Empty; a Left request and
updates with elapsed times `1/2` and `1` (distance `7.5 > 5`) leave the cart idle at
column 0, five units to the left. -/
theorem glide_through_witness :
    straightRun .left initial 4 ∧ ((4 : ℕ) : ℚ) + 1 < travelled [1 / 2, 1] ∧
    run initial (Event.key Dir.left.key 0 :: [1 / 2, 1].map Event.tick) =
      .ok (rested .left initial 4) ∧
    (rested .left initial 4).state = Dir.left.idle ∧
    (rested .left initial 4).pos = shift .left initial.pos (4 + 1) ∧
    initial.grid (shift .left initial.pos (4 + 1)).y (shift .left initial.pos (4 + 1)).x = 0 ∧
    (rested .left initial 4).cart = slide .left initial.cart (((4 : ℕ) : ℚ) + 1) ∧
    (rested .left initial 4).grid = initial.grid ∧
    ∀ r c, (rested .left initial 4).lit r c = true ↔
      (initial.lit r c = true ∨
        (∃ k, 1 ≤ k ∧ k ≤ 4 + 1 ∧ shift .left initial.pos k = ⟨c, r⟩) ∨
        firstNeighbour (arrived .left initial (4 + 1)) 3 = some (r, c)) :=
  have hr : straightRun .left initial 4 :=
    ⟨by decide, by decide, fun k h1 h4 => by interval_cases k <;> decide, by decide⟩
  have hs : ((4 : ℕ) : ℚ) + 1 < travelled [1 / 2, 1] := by
    simp only [travelled, speed, List.map_cons, List.map_nil, List.sum_cons, List.sum_nil]
    norm_num
  ⟨hr, hs, glide_through .left initial 4 0 [1 / 2, 1] (Or.inl rfl) (by decide) hr hs⟩

/-! ## Geometry of a frame -/

theorem spriteAt_eq (k : Int) (h0 : 0 ≤ k) (h10 : k < 10) :
    spriteAt k = some (mkSprite k.toNat) := by
  unfold spriteAt
  rw [if_pos h0]
  exact sprites_get k.toNat (by omega)

theorem draw_sprite_eq (verts : List Vertex) (sp : SpriteInfo) (c : Vec2) :
    draw_sprite verts sp c 1 0 = verts ++ quad sp c := by
  simp only [draw_sprite, quad, Vec2.add, Vec2.scale, List.append_assoc, List.singleton_append,
    List.cons_append, List.nil_append]
  simp [sub_eq_add_neg]

theorem drawIndex_eq (verts : List Vertex) (k : Int) (c : Vec2) (h0 : 0 ≤ k) (h10 : k < 10) :
    drawIndex verts k c = .ok (verts ++ quad (mkSprite k.toNat) c) := by
  unfold drawIndex
  rw [spriteAt_eq k h0 h10]
  simp only [draw_sprite_eq]

theorem callVerts_append (a b : List (Int × Vec2)) :
    callVerts (a ++ b) = callVerts a ++ callVerts b := by
  simp [callVerts]

theorem drawTile_eq (s : State) (verts : List Vertex) (i j : Nat) (c : Vec2)
    (hv : s.grid i j = 0 ∨ s.grid i j = 1 ∨ s.grid i j = 2 ∨ s.grid i j = 3 ∨
      s.grid i j = 4 ∨ s.grid i j = 7) :
    drawTile s verts i j c =
      .ok (verts ++ callVerts ((tileSprites s i j).map fun k => (k, c))) := by
  have h0 : 0 ≤ s.grid i j := by omega
  have h10 : s.grid i j < 10 := by omega
  unfold drawTile tileSprites shown
  by_cases hs : s.state ≥ 6 ∨ s.lit i j = true
  · have hs' : (decide (s.state ≥ 6) || s.lit i j) = true := by simpa using hs
    rw [if_pos hs, if_pos hs', drawIndex_eq _ 0 c (by decide) (by decide)]
    by_cases hg : s.grid i j = 0
    · simp [hg, callVerts]
    · simp [hg, callVerts, drawIndex_eq _ _ c h0 h10]
  · have hs' : ¬ (decide (s.state ≥ 6) || s.lit i j) = true := by simpa using hs
    rw [if_neg hs, if_neg hs', drawIndex_eq _ 4 c (by decide) (by decide)]
    simp [callVerts]

theorem drawRow_eq (s : State) (i : Nat) (b y : ℚ) :
    ∀ (n j : Nat) (c : Vec2) (verts : List Vertex), c.x = b + j → c.y = y →
      (∀ j', j ≤ j' → j' < j + n → s.grid i j' = 0 ∨ s.grid i j' = 1 ∨ s.grid i j' = 2 ∨
        s.grid i j' = 3 ∨ s.grid i j' = 4 ∨ s.grid i j' = 7) →
      drawRow s i n j c verts =
        .ok (verts ++ callVerts ((List.range' j n).flatMap fun j' =>
            (tileSprites s i j').map fun k => (k, (⟨b + j', y⟩ : Vec2))),
          ⟨b + ((j + n : ℕ) : ℚ), y⟩) := by
  intro n
  induction n with
  | zero =>
    intro j c verts hx hy _
    have hc : c = ⟨b + j, y⟩ := by cases c; simp_all
    simp [drawRow, callVerts, hc]
  | succ n ih =>
    intro j c verts hx hy hv
    have hc : c = ⟨b + j, y⟩ := by cases c; simp_all
    subst hc
    simp only [drawRow]
    rw [drawTile_eq s verts i j _ (hv j (le_refl _) (by omega))]
    simp only
    rw [ih (j + 1) _ _ (by push_cast; ring) rfl (fun j' h1 h2 => hv j' (by omega) (by omega))]
    rw [List.range'_succ, List.flatMap_cons, callVerts_append, List.append_assoc]
    have : j + 1 + n = j + (n + 1) := by omega
    rw [this]

theorem drawRows_eq (s : State) :
    ∀ (n i : Nat) (c : Vec2) (verts : List Vertex), c.y = 5 - i →
      (∀ i', i ≤ i' → i' < i + n → ∀ j' < width, s.grid i' j' = 0 ∨ s.grid i' j' = 1 ∨
        s.grid i' j' = 2 ∨ s.grid i' j' = 3 ∨ s.grid i' j' = 4 ∨ s.grid i' j' = 7) →
      ∃ a, drawRows s n i c verts =
        .ok (verts ++ callVerts ((List.range' i n).flatMap fun i' =>
            (List.range width).flatMap fun j' =>
              (tileSprites s i' j').map fun k => (k, tileAt i' j')), a) := by
  intro n
  induction n with
  | zero =>
    intro i c verts _ _
    exact ⟨c, by simp [drawRows, callVerts]⟩
  | succ n ih =>
    intro i c verts hy hv
    simp only [drawRows]
    have hr := drawRow_eq s i (-5) (5 - i) width 0 ⟨-(1 / 2) * ((width : ℚ) - 1), c.y⟩ verts
      (by simp only [width]; norm_num) hy
      (fun j' _ h2 => hv i (le_refl _) (by omega) j' (by omega))
    rw [hr]
    simp only
    obtain ⟨a, ha⟩ := ih (i + 1) ⟨-5 + ((0 + width : ℕ) : ℚ), 5 - (i : ℚ) - 1⟩
      (verts ++ callVerts ((List.range' 0 width).flatMap fun j' =>
        (tileSprites s i j').map fun k => (k, (⟨-5 + j', 5 - i⟩ : Vec2))))
      (by push_cast; ring) (fun i' h1 h2 => hv i' (by omega) (by omega))
    refine ⟨a, ?_⟩
    rw [ha, List.range'_succ, List.flatMap_cons, callVerts_append, List.append_assoc,
      List.range_eq_range']
    simp only [tileAt, neg_add_eq_sub]

theorem cartSprite_range (s : State) : 0 ≤ cartSprite s ∧ cartSprite s < 10 := by
  unfold cartSprite
  split_ifs <;> decide

theorem buildFrame_eq (s : State) (hv : validKinds s.grid) :
    buildFrame s = .ok (callVerts (frameCalls s)) := by
  obtain ⟨a, ha⟩ := drawRows_eq s length 0 ⟨0, 1 / 2 * ((length : ℚ) - 1)⟩ []
    (by simp only [length]; norm_num)
    (fun i' _ h2 j' hj => hv i' (by omega) j' hj)
  simp only [buildFrame, ha]
  rw [drawIndex_eq _ _ _ (cartSprite_range s).1 (cartSprite_range s).2]
  simp [frameCalls, callVerts, List.range_eq_range']

theorem quad_length (sp : SpriteInfo) (c : Vec2) : (quad sp c).length = 6 := rfl

theorem callVerts_length (calls : List (Int × Vec2)) :
    (callVerts calls).length = 6 * calls.length := by
  induction calls with
  | nil => rfl
  | cons c cs ih =>
    simp only [callVerts, List.flatMap_cons, List.length_append, quad_length,
      List.length_cons] at ih ⊢
    omega

theorem tileSprites_length (s : State) (i j : Nat) :
    (tileSprites s i j).length =
      1 + if (shown s i j && decide (s.grid i j ≠ 0)) = true then 1 else 0 := by
  unfold tileSprites
  by_cases h1 : shown s i j = true <;> by_cases h2 : s.grid i j = 0 <;> simp [h1, h2]

theorem row_length {α : Type} (p : Nat → Bool) (f : Nat → List α)
    (hf : ∀ j, (f j).length = 1 + if p j = true then 1 else 0) (L : List Nat) :
    (L.flatMap f).length = L.length + (L.filter p).length := by
  induction L with
  | nil => rfl
  | cons j js ih =>
    simp only [List.flatMap_cons, List.length_append, hf, ih, List.length_cons, List.filter_cons]
    by_cases h : p j = true
    · simp only [h, if_true, List.length_cons]; omega
    · have h' : p j = false := by simpa using h
      simp only [h', Bool.false_eq_true, if_false]; omega

theorem rows_length {α : Type} (w : Nat) (cnt : Nat → Nat) (g : Nat → List α)
    (hg : ∀ i, (g i).length = w + cnt i) (L : List Nat) :
    (L.flatMap g).length = w * L.length + (L.map cnt).sum := by
  induction L with
  | nil => rfl
  | cons i is ih =>
    simp only [List.flatMap_cons, List.length_append, hg, ih, List.length_cons, List.map_cons,
      List.sum_cons, Nat.mul_succ]
    omega

theorem frameCalls_length (s : State) : (frameCalls s).length = 121 + overlayCount s + 1 := by
  unfold frameCalls overlayCount
  rw [List.length_append, List.length_singleton]
  rw [rows_length width
    (fun i => ((List.range width).filter fun j => shown s i j && decide (s.grid i j ≠ 0)).length)]
  · simp [width, length]
  · intro i
    rw [row_length (fun j => shown s i j && decide (s.grid i j ≠ 0))]
    · simp
    · intro j
      rw [List.length_map]
      exact tileSprites_length s i j

theorem frameCalls_index (s : State) (hv : validKinds s.grid) :
    ∀ c ∈ frameCalls s, 0 ≤ c.1 ∧ c.1 < 10 := by
  intro c hc
  unfold frameCalls at hc
  rw [List.mem_append] at hc
  rcases hc with hc | hc
  · simp only [List.mem_flatMap, List.mem_range, List.mem_map] at hc
    obtain ⟨i, hi, j, hj, k, hk, rfl⟩ := hc
    have hg := hv i hi j hj
    unfold tileSprites at hk
    split_ifs at hk <;> simp at hk <;> omega
  · simp only [List.mem_singleton] at hc
    subst hc
    exact cartSprite_range s

/-- C8. Geometry builder: for a grid with cell kinds in {0,1,2,3,4,7}, any lit mask,
any mode and any cart position, the vertex list of a frame is `callVerts (frameCalls s)`:
one 6-vertex group per sprite (the quad's four corners, axis-aligned, the first and the
last repeated), the tiles in row-major order (a shown tile gives the floor sprite 0
followed, iff its cell kind is non-Empty, by the sprite whose index is the cell kind;
any other tile gives the wall sprite 4), then the cart sprite (5, 6, 8 or 9 by mode
range) at the cart's continuous position. Every sprite index used lies within the
10-entry table, and the vertex count is `6 * (121 + k + 1)` with `k` the number of
shown tiles of non-Empty kind. -/
theorem frame_geometry (s : State) (hv : validKinds s.grid) :
    buildFrame s = .ok (callVerts (frameCalls s)) ∧
    (∀ c ∈ frameCalls s, 0 ≤ c.1 ∧ c.1 < 10 ∧ spriteAt c.1 = some (mkSprite c.1.toNat)) ∧
    (callVerts (frameCalls s)).length = 6 * (121 + overlayCount s + 1) ∧
    ((0 ≤ s.state ∧ s.state ≤ 2 → cartSprite s = 5) ∧
      (3 ≤ s.state ∧ s.state ≤ 5 → cartSprite s = 6) ∧
      (6 ≤ s.state ∧ s.state ≤ 8 → cartSprite s = 8) ∧
      (9 ≤ s.state → cartSprite s = 9)) := by
  refine ⟨buildFrame_eq s hv, ?_, ?_, ?_, ?_, ?_, ?_⟩
  · intro c hc
    obtain ⟨h0, h10⟩ := frameCalls_index s hv c hc
    exact ⟨h0, h10, spriteAt_eq c.1 h0 h10⟩
  · rw [callVerts_length, frameCalls_length]
  all_goals
    intro h
    unfold cartSprite
    split_ifs <;> first | rfl | omega

set_option maxRecDepth 100000 in
/-- C8 at the initial state of the shipped level: no shown tile has an overlay, so the
frame has `6 * 122` vertices. -/
theorem frame_geometry_witness :
    validKinds initial.grid ∧ overlayCount initial = 0 ∧
    buildFrame initial = .ok (callVerts (frameCalls initial)) ∧
    (∀ c ∈ frameCalls initial,
      0 ≤ c.1 ∧ c.1 < 10 ∧ spriteAt c.1 = some (mkSprite c.1.toNat)) ∧
    (callVerts (frameCalls initial)).length = 6 * (121 + overlayCount initial + 1) ∧
    ((0 ≤ initial.state ∧ initial.state ≤ 2 → cartSprite initial = 5) ∧
      (3 ≤ initial.state ∧ initial.state ≤ 5 → cartSprite initial = 6) ∧
      (6 ≤ initial.state ∧ initial.state ≤ 8 → cartSprite initial = 8) ∧
      (9 ≤ initial.state → cartSprite initial = 9)) :=
  ⟨by decide, by decide, frame_geometry initial (by decide)⟩

/-! ## The fuel of the loops is enough -/

theorem loopBody_cases (d : Dir) (s : State) :
    loopBody d s = .error .outOfBounds ∨
    (∃ s', loopBody d s = .ok s' ∧ loopCond d s' = false) ∨
    (∃ s', loopBody d s = .ok s' ∧ s.pos.x < width ∧ s.pos.y < length ∧
      s'.pos.x < width ∧ s'.pos.y < length ∧ room d s' + 1 ≤ room d s) := by
  by_cases hb : s.pos.y < length ∧ s.pos.x < width
  · obtain ⟨hy, hx⟩ := hb
    by_cases h0 : s.grid s.pos.y s.pos.x = 0
    · exact Or.inr (Or.inl ⟨_, loopBody_empty d s hx hy h0, loopCond_arrive d s⟩)
    · have hbody : loopBody d s =
          setLit (advance d s) (advance d s).pos.y (advance d s).pos.x := by
        unfold loopBody
        rw [cellIs_in _ _ _ hy hx]
        simp only [h0, decide_False, Bool.and_false]
      by_cases ha : (advance d s).pos.y < length ∧ (advance d s).pos.x < width
      · refine Or.inr (Or.inr ⟨_, hbody.trans (setLit_in _ ha.1 ha.2), hx, hy, ha.2, ha.1, ?_⟩)
        simp only [width, length] at hx hy ha
        cases d <;> simp only [advance, room, dec32, inc32] at ha ⊢ <;> split_ifs at ha ⊢ <;>
          omega
      · left
        rw [hbody]
        unfold setLit
        rw [if_neg ha]
  · left
    unfold loopBody cellIs
    simp only [if_true, hb, if_false]

theorem loop_fuel (d : Dir) : ∀ (m : Nat) (s : State),
    (s.pos.x < width → s.pos.y < length → room d s ≤ m) →
    loop d (m + 2) s ≠ .error .outOfFuel := by
  intro m
  induction m with
  | zero =>
    intro s hr
    by_cases hc : loopCond d s = true
    · rcases loopBody_cases d s with h | ⟨s', h, hc'⟩ | ⟨s', h, hx, hy, -, -, hlt⟩
      · simp [loop, hc, h]
      · rw [loop_step d 1 s s' hc h, loop_done d 0 s' hc']
        exact fun hh => by cases hh
      · have := hr hx hy
        omega
    · have hc' : loopCond d s = false := by simpa using hc
      rw [loop_done d 1 s hc']
      exact fun hh => by cases hh
  | succ m ih =>
    intro s hr
    by_cases hc : loopCond d s = true
    · rcases loopBody_cases d s with h | ⟨s', h, hc'⟩ | ⟨s', h, hx, hy, -, -, hlt⟩
      · simp [loop, hc, h]
      · rw [loop_step d (m + 2) s s' hc h, loop_done d (m + 1) s' hc']
        exact fun hh => by cases hh
      · rw [loop_step d (m + 2) s s' hc h]
        exact ih s' (fun _ _ => by have := hr hx hy; omega)
    · have hc' : loopCond d s = false := by simpa using hc
      rw [loop_done d (m + 2) s hc']
      exact fun hh => by cases hh

theorem room_le (d : Dir) (s : State) (hx : s.pos.x < width) (hy : s.pos.y < length) :
    room d s ≤ 10 := by
  simp only [width, length] at hx hy
  cases d <;> simp only [room] <;> omega

/-- The fuel of the embedding never runs out: no update of any state, and hence no run,
ends with `Fault.outOfFuel`. -/
theorem update_fuel (s : State) (e : ℚ) : update s e ≠ .error .outOfFuel := by
  unfold update
  split_ifs
  · exact loop_fuel .left 10 _ (room_le .left _)
  · exact loop_fuel .right 10 _ (room_le .right _)
  · exact loop_fuel .up 10 _ (room_le .up _)
  · exact loop_fuel .down 10 _ (room_le .down _)
  · exact fun hh => by cases hh

/-- Fuel beyond what a loop needs does not change its result. -/
theorem loop_mono (d : Dir) : ∀ (n : Nat) (s : State),
    loop d n s ≠ .error .outOfFuel → loop d (n + 1) s = loop d n s := by
  intro n
  induction n with
  | zero => intro s h; exact absurd rfl h
  | succ n ih =>
    intro s h
    by_cases hc : loopCond d s = true
    · cases hb : loopBody d s with
      | error e => simp [loop, hc, hb]
      | ok s' =>
        rw [loop_step d (n + 1) s s' hc hb]
        rw [loop_step d n s s' hc hb] at h ⊢
        exact ih s' h
    · have hc' : loopCond d s = false := by simpa using hc
      rw [loop_done d (n + 1) s hc', loop_done d n s hc']

/-! ## Position consistency -/

theorem tileAt_shift (d : Dir) (p : UVec2) (h : (ahead d p 1).isSome = true) :
    tileAt (shift d p 1).y (shift d p 1).x = slide d (tileAt p.y p.x) 1 := by
  cases d <;> simp only [ahead, width, length] at h <;> split_ifs at h with h1
  · simp only [tileAt, shift, slide, Vec2.mk.injEq, Nat.cast_sub h1, Nat.cast_one]
    exact ⟨by ring, trivial⟩
  · exact absurd h (by simp)
  · simp only [tileAt, shift, slide, Vec2.mk.injEq, Nat.cast_add, Nat.cast_one]
    exact ⟨by ring, trivial⟩
  · exact absurd h (by simp)
  · simp only [tileAt, shift, slide, Vec2.mk.injEq, Nat.cast_sub h1, Nat.cast_one]
    exact ⟨trivial, by ring⟩
  · exact absurd h (by simp)
  · simp only [tileAt, shift, slide, Vec2.mk.injEq, Nat.cast_add, Nat.cast_one]
    exact ⟨trivial, by ring⟩
  · exact absurd h (by simp)

theorem arrive_cart (d : Dir) (t : State) (hl : t.loc = along d (centre t))
    (ha : across d t.cart = across d (centre t)) : (arrive d t).cart = centre t := by
  cases d <;> simp only [along, across] at hl ha <;> simp only [arrive, hl, ha]

theorem stepped_onLine (d : Dir) (t : State) (hx : t.pos.x < width) (hy : t.pos.y < length)
    (h : (ahead d t.pos 1).isSome = true) (hl : t.loc = along d (centre t))
    (ha : across d t.cart = across d (centre t)) :
    (stepped d t).loc = along d (centre (stepped d t)) ∧
      across d (stepped d t).cart = across d (centre (stepped d t)) := by
  have hp : (stepped d t).pos = shift d t.pos 1 :=
    (stepped_fields d t).2.2.2.2.trans (advance_pos d t hx hy h)
  have hc : centre (stepped d t) = slide d (centre t) 1 := by
    unfold centre
    rw [hp]
    exact tileAt_shift d t.pos h
  rw [hc, (stepped_fields d t).2.2.1]
  cases d <;> simp only [along, across] at hl ha <;>
    simp only [stepped, advance, slide, along, across, hl, ha]
  all_goals exact ⟨trivial, trivial⟩

theorem loop_consistent (d : Dir) : ∀ (k n : Nat) (t : State), k + 2 ≤ n →
    t.pos.x < width → t.pos.y < length → aheadIs d t k 0 = true →
    t.loc = along d (centre t) → across d t.cart = across d (centre t) →
    ∀ s', loop d n t = .ok s' →
      (s'.state = t.state ∧ onTrack d s') ∨
      (s'.state = d.idle ∧ s'.grid s'.pos.y s'.pos.x = 0 ∧ s'.cart = centre s') := by
  intro k
  induction k with
  | zero =>
    intro n t hn hx hy hk hl ha s' hs'
    obtain ⟨m, rfl⟩ : ∃ m, n = m + 2 := ⟨n - 2, by omega⟩
    by_cases hc : loopCond d t = true
    · have h0 := (aheadIs_zero d t 0 hx hy).1 hk
      rw [loop_arrive d m t hx hy h0 hc] at hs'
      injection hs' with hs'
      subst hs'
      obtain ⟨pg, pp, pc, -, ps, -⟩ := probed_fields (arrive d t)
      obtain ⟨as, -, ag, ap, -, -, -⟩ := arrive_fields d t
      refine Or.inr ⟨ps.trans as, ?_, ?_⟩
      · rw [pg, pp, ag, ap]; exact h0
      · rw [pc, arrive_cart d t hl ha]
        unfold centre
        rw [pp, ap]
    · have hc' : loopCond d t = false := by simpa using hc
      rw [loop_done d (m + 1) t hc'] at hs'
      injection hs' with hs'
      subst hs'
      exact Or.inl ⟨rfl, hc', hl, ha⟩
  | succ k ih =>
    intro n t hn hx hy hk hl ha s' hs'
    obtain ⟨m, rfl⟩ : ∃ m, n = m + 2 := ⟨n - 2, by omega⟩
    by_cases hc : loopCond d t = true
    · by_cases h0 : t.grid t.pos.y t.pos.x = 0
      · rw [loop_arrive d m t hx hy h0 hc] at hs'
        injection hs' with hs'
        subst hs'
        obtain ⟨pg, pp, pc, -, ps, -⟩ := probed_fields (arrive d t)
        obtain ⟨as, -, ag, ap, -, -, -⟩ := arrive_fields d t
        refine Or.inr ⟨ps.trans as, ?_, ?_⟩
        · rw [pg, pp, ag, ap]; exact h0
        · rw [pc, arrive_cart d t hl ha]
          unfold centre
          rw [pp, ap]
      · have h1 := ahead_one_of_succ d t.pos k (aheadIs_isSome d t _ 0 hk)
        obtain ⟨hb, -, hx', hy'⟩ := loopBody_track d t hx hy h0 h1
        obtain ⟨hl', ha'⟩ := stepped_onLine d t hx hy h1 hl ha
        have hk' : aheadIs d (stepped d t) k 0 = true := by
          rw [aheadIs_stepped d t k 0 hx hy h1]; exact hk
        rw [loop_step d (m + 1) t _ hc hb] at hs'
        rcases ih (m + 1) (stepped d t) (by omega) hx' hy' hk' hl' ha' s' hs' with
          ⟨h1, h2⟩ | h
        · exact Or.inl ⟨h1.trans (stepped_fields d t).2.1, h2⟩
        · exact Or.inr h
    · have hc' : loopCond d t = false := by simpa using hc
      rw [loop_done d (m + 1) t hc'] at hs'
      injection hs' with hs'
      subst hs'
      exact Or.inl ⟨rfl, hc', hl, ha⟩

theorem moving_not_idle (d : Dir) :
    ¬ (d.moving = 0 ∨ d.moving = 3 ∨ d.moving = 6 ∨ d.moving = 9) := by
  cases d <;> decide

theorem idle_cases (d : Dir) : d.idle = 0 ∨ d.idle = 3 ∨ d.idle = 6 ∨ d.idle = 9 := by
  cases d <;> decide

theorem update_consistent (s : State) (e : ℚ) (hs : Safe s) (hc : Consistent s) :
    ∀ s', update s e = .ok s' → Consistent s' := by
  intro s' hs'
  obtain ⟨hx, hy, -, -, hm⟩ := hs
  by_cases hd : ∃ d : Dir, s.state = d.moving
  · obtain ⟨d, hd⟩ := hd
    obtain ⟨k, hk⟩ := hm d hd
    have hk11 := aheadIs_bound d s k 0 hx hy hk
    obtain ⟨-, hl, ha⟩ := hc.2 d hd
    rw [update_moving d s e hd] at hs'
    have hl' : (moved d s e).loc = along d (centre (moved d s e)) := hl
    have ha' : across d (moved d s e).cart = across d (centre (moved d s e)) := by
      show across d (slide d s.cart (e * speed)) = across d (centre s)
      rw [← ha]
      cases d <;> rfl
    rcases loop_consistent d k loopFuel (moved d s e) (by simp only [loopFuel]; omega)
      hx hy hk hl' ha' s' hs' with ⟨h1, h2⟩ | ⟨h1, h2, h3⟩
    · have hst : s'.state = d.moving := h1.trans hd
      refine ⟨fun hi => ?_, fun d' hd' => ?_⟩
      · rw [hst] at hi
        exact absurd hi (moving_not_idle d)
      · have : d' = d := moving_inj (hd'.symm.trans hst)
        subst this
        exact h2
    · refine ⟨fun _ => ⟨h2, h3⟩, fun d' hd' => ?_⟩
      exact absurd (h1.symm.trans hd') (idle_ne_moving d d')
  · have h := update_not_moving s e (fun h => hd ⟨.left, h⟩) (fun h => hd ⟨.right, h⟩)
      (fun h => hd ⟨.up, h⟩) (fun h => hd ⟨.down, h⟩)
    rw [h] at hs'
    injection hs' with hs'
    subst hs'
    exact hc

theorem idle_of (s : State) (hm : s.state = 0 ∨ s.state = 3) :
    s.state = 0 ∨ s.state = 3 ∨ s.state = 6 ∨ s.state = 9 := by
  rcases hm with h | h
  · exact Or.inl h
  · exact Or.inr (Or.inl h)

theorem advanced_consistent (d : Dir) (s : State) (hm : s.state = 0 ∨ s.state = 3)
    (hc : Consistent s) (ha : aheadIs d s 1 d.track = true) : Consistent (advanced d s) := by
  have h1 := aheadIs_isSome d s 1 _ ha
  obtain ⟨-, hcart⟩ := hc.1 (idle_of s hm)
  have hcen : centre (advanced d s) = slide d (centre s) 1 := tileAt_shift d s.pos h1
  refine ⟨fun hi => absurd hi (moving_not_idle d), fun d' hd' => ?_⟩
  have : d' = d := (moving_inj hd').symm
  subst this
  refine ⟨?_, ?_, ?_⟩
  · cases d' <;> simp [loopCond, advanced, along, slide]
  · rw [hcen, ← hcart]
    rfl
  · rw [hcen, ← hcart]
    cases d' <;> rfl

theorem bumped_consistent (d : Dir) (s : State) (hm : s.state = 0 ∨ s.state = 3)
    (hc : Consistent s) : Consistent (bumped d s) :=
  ⟨fun _ => hc.1 (idle_of s hm), fun d' hd' => absurd hd' (idle_ne_moving d d')⟩

theorem picked_consistent (s : State) (clock : Int) (hm : s.state = 0 ∨ s.state = 3)
    (hs : Safe s) (hc : Consistent s) : Consistent (picked s clock) := by
  obtain ⟨hx, hy, -, -, -⟩ := hs
  obtain ⟨hg, hcart⟩ := hc.1 (idle_of s hm)
  unfold picked
  split
  · exact hc
  · rename_i r c heq
    obtain ⟨-, -, h3⟩ := firstNeighbour_spec s 3 r c hx hy heq
    split_ifs with ht
    · refine ⟨fun _ => ⟨hg, hcart⟩, fun d hd => ?_⟩
      exfalso
      simp only at hd
      rcases hm with h | h <;> rw [h] at hd <;> cases d <;> exact absurd hd (by decide)
    · refine ⟨fun _ => ⟨setCell_zero h3 hg, hcart⟩, fun d hd => ?_⟩
      exfalso
      simp only at hd
      rcases hm with h | h <;> rw [h] at hd <;> cases d <;> exact absurd hd (by decide)

theorem handleKey_consistent (s : State) (k : Key) (clock : Int) (hs : Safe s)
    (hc : Consistent s) : ∀ s', handleKey s k clock = .ok s' → Consistent s' := by
  intro s' hs'
  by_cases hm : s.state = 0 ∨ s.state = 3
  · have hdir : ∀ d : Dir, handleKey s d.key clock = .ok s' → Consistent s' := by
      intro d hd
      rw [handleKey_dir s d clock hm hs.1 hs.2.1] at hd
      injection hd with hd
      subst hd
      by_cases ha : aheadIs d s 1 d.track = true
      · rw [if_pos ha]; exact advanced_consistent d s hm hc ha
      · rw [if_neg ha]; exact bumped_consistent d s hm hc
    cases k
    · exact hdir .left hs'
    · exact hdir .right hs'
    · exact hdir .up hs'
    · exact hdir .down hs'
    · have hk : handleKey s .space clock = .ok (picked s clock) := by
        unfold handleKey
        rw [if_pos hm]
        exact keySpace_eq s clock hs.1 hs.2.1 (fun _ => by have := hs.2.2.1; omega)
      rw [hk] at hs'
      injection hs' with hs'
      subst hs'
      exact picked_consistent s clock hm hs hc
    · unfold handleKey at hs'
      rw [if_pos hm] at hs'
      injection hs' with hs'
      subst hs'
      exact hc
  · unfold handleKey at hs'
    rw [if_neg hm] at hs'
    injection hs' with hs'
    subst hs'
    exact hc

theorem step_consistent (s : State) (ev : Event) (hs : Safe s) (hc : Consistent s) :
    ∀ s', step s ev = .ok s' → Consistent s' := by
  cases ev with
  | key k clock => exact handleKey_consistent s k clock hs hc
  | tick e => exact update_consistent s e hs hc

theorem run_consistent (evs : List Event) : ∀ s : State, Safe s → Consistent s →
    ∃ s', run s evs = .ok s' ∧ Safe s' ∧ Consistent s' := by
  induction evs with
  | nil => intro s hs hc; exact ⟨s, rfl, hs, hc⟩
  | cons e es ih =>
    intro s hs hc
    obtain ⟨s1, h1, hs1⟩ := step_safe s e hs
    obtain ⟨s2, h2, hs2, hc2⟩ := ih s1 hs1 (step_consistent s e hs hc s1 h1)
    exact ⟨s2, by simp only [run, h1]; exact h2, hs2, hc2⟩

theorem initial_consistent : Consistent initial := by
  refine ⟨fun _ => ⟨by decide, ?_⟩, fun d hd => by cases d <;> exact absurd hd (by decide)⟩
  simp [centre, tileAt, initial]

/-- C11. Position consistency on the shipped level: every sequence of key-down events
and update steps (any clock samples, any elapsed times, in particular non-negative ones;
exact rationals) runs from the initial state to a state with the cart inside the grid in
which, when the mode is idle or won (0, 3, 6 or 9), the grid cell under the cart is
Empty and the continuous position is the drawn centre of that cell,
`cart = (pos.x - 5, 5 - pos.y)`; and when the mode is Moving, the continuous position
has not passed the target offset (`cart.x >= loc` for MovingLeft, `cart.x <= loc` for
MovingRight, `cart.y <= loc` for MovingUp, `cart.y >= loc` for MovingDown) and the
target offset is the centre coordinate of the current grid cell along the axis of
motion. -/
theorem position_consistent (evs : List Event) :
    ∃ s, run initial evs = .ok s ∧ s.pos.x < width ∧ s.pos.y < length ∧
      ((s.state = 0 ∨ s.state = 3 ∨ s.state = 6 ∨ s.state = 9) →
        s.grid s.pos.y s.pos.x = 0 ∧ s.cart = tileAt s.pos.y s.pos.x ∧
          s.cart = ⟨(s.pos.x : ℚ) - 5, 5 - (s.pos.y : ℚ)⟩) ∧
      (s.state = 1 → s.cart.x ≥ s.loc ∧ s.loc = (s.pos.x : ℚ) - 5) ∧
      (s.state = 2 → s.cart.x ≤ s.loc ∧ s.loc = (s.pos.x : ℚ) - 5) ∧
      (s.state = 4 → s.cart.y ≤ s.loc ∧ s.loc = 5 - (s.pos.y : ℚ)) ∧
      (s.state = 5 → s.cart.y ≥ s.loc ∧ s.loc = 5 - (s.pos.y : ℚ)) := by
  obtain ⟨s, hr, hs, hc⟩ := run_consistent evs initial initial_safe initial_consistent
  refine ⟨s, hr, hs.1, hs.2.1, ?_, ?_, ?_, ?_, ?_⟩
  · intro hi
    obtain ⟨hg, hcart⟩ := hc.1 hi
    exact ⟨hg, hcart, hcart⟩
  · intro h
    obtain ⟨h1, h2, -⟩ := hc.2 .left h
    simp only [loopCond, decide_eq_false_iff_not, not_lt] at h1
    exact ⟨h1, h2⟩
  · intro h
    obtain ⟨h1, h2, -⟩ := hc.2 .right h
    simp only [loopCond, gt_iff_lt, decide_eq_false_iff_not, not_lt] at h1
    exact ⟨h1, h2⟩
  · intro h
    obtain ⟨h1, h2, -⟩ := hc.2 .up h
    simp only [loopCond, gt_iff_lt, decide_eq_false_iff_not, not_lt] at h1
    exact ⟨h1, h2⟩
  · intro h
    obtain ⟨h1, h2, -⟩ := hc.2 .down h
    simp only [loopCond, decide_eq_false_iff_not, not_lt] at h1
    exact ⟨h1, h2⟩

/-- C11 after the first Left request of a game: the mode is MovingLeft, the cart has not
passed its target and the target is the centre of the new cell (row 5, column 4). -/
theorem position_consistent_witness :
    (advanced .left initial).state = 1 ∧
      (advanced .left initial).cart.x ≥ (advanced .left initial).loc ∧
      (advanced .left initial).loc = ((advanced .left initial).pos.x : ℚ) - 5 := by
  obtain ⟨s, hr, -, -, -, h1, -⟩ := position_consistent [Event.key .left 0]
  have h : run initial [Event.key .left 0] = .ok (advanced .left initial) := rfl
  rw [h] at hr
  injection hr with hr
  subst hr
  exact ⟨rfl, h1 rfl⟩

/-! ## Single-precision arithmetic -/

theorem roundEven_near (x : ℚ) (z : ℤ) (h : |x - z| < 1 / 2) : roundEven x = z := by
  rw [abs_lt] at h
  obtain ⟨h1, h2⟩ := h
  by_cases hz : (z : ℚ) ≤ x
  · have hf : ⌊x⌋ = z := Int.floor_eq_iff.mpr ⟨hz, by linarith⟩
    unfold roundEven
    rw [hf, if_pos (by linarith)]
  · have hz' : x < z := not_le.mp hz
    have hf : ⌊x⌋ = z - 1 := Int.floor_eq_iff.mpr ⟨by push_cast; linarith, by push_cast; linarith⟩
    unfold roundEven
    rw [hf, if_neg (by push_cast; linarith), if_pos (by push_cast; linarith)]
    ring

theorem roundEven_int (z : ℤ) : roundEven (z : ℚ) = z :=
  roundEven_near _ z (by simp)

theorem ulpExp_of_log (q : ℚ) (E : ℤ) (hE : -126 ≤ E) (h1 : (2 : ℚ) ^ E ≤ |q|)
    (h2 : |q| < (2 : ℚ) ^ (E + 1)) : ulpExp q = E - 23 := by
  have hpos : 0 < |q| := lt_of_lt_of_le (zpow_pos (by norm_num) E) h1
  have hl1 : E ≤ Int.log 2 |q| :=
    (Int.zpow_le_iff_le_log (by norm_num) hpos).mp (by simpa using h1)
  have hl2 : Int.log 2 |q| < E + 1 :=
    (Int.lt_zpow_iff_log_lt (by norm_num) hpos).mp (by simpa using h2)
  unfold ulpExp
  rw [max_eq_left (by omega)]
  omega

theorem fl32_of_log (q : ℚ) (E z : ℤ) (hE : -126 ≤ E) (h1 : (2 : ℚ) ^ E ≤ |q|)
    (h2 : |q| < (2 : ℚ) ^ (E + 1)) (hz : |q / (2 : ℚ) ^ (E - 23) - z| < 1 / 2) :
    fl32 q = z * (2 : ℚ) ^ (E - 23) := by
  have hpos : 0 < |q| := lt_of_lt_of_le (zpow_pos (by norm_num) E) h1
  have hq : q ≠ 0 := abs_pos.mp hpos
  unfold fl32
  rw [if_neg hq, ulpExp_of_log q E hE h1 h2, roundEven_near _ z hz]

theorem fl32_int (m : ℤ) (hm : |m| < 16777216) : fl32 (m : ℚ) = m := by
  by_cases h0 : m = 0
  · subst h0; simp [fl32]
  have hq : (m : ℚ) ≠ 0 := by exact_mod_cast h0
  have hpos : 0 < |(m : ℚ)| := abs_pos.mpr hq
  have h1 : (1 : ℚ) ≤ |(m : ℚ)| := by
    have : (1 : ℤ) ≤ |m| := Int.one_le_abs h0
    exact_mod_cast this
  have h2 : |(m : ℚ)| < 16777216 := by exact_mod_cast hm
  have hl1 : 0 ≤ Int.log 2 |(m : ℚ)| :=
    (Int.zpow_le_iff_le_log (by norm_num) hpos).mp (by simpa using h1)
  have hl2 : Int.log 2 |(m : ℚ)| < 24 :=
    (Int.lt_zpow_iff_log_lt (by norm_num) hpos).mp (by norm_num; exact h2)
  have hu : ulpExp (m : ℚ) = -((23 - Int.log 2 |(m : ℚ)|).toNat : ℤ) := by
    unfold ulpExp
    rw [max_eq_left (by omega)]
    omega
  unfold fl32
  rw [if_neg hq, hu, zpow_neg, zpow_natCast, div_inv_eq_mul]
  have : (m : ℚ) * 2 ^ (23 - Int.log 2 |(m : ℚ)|).toNat =
      ((m * 2 ^ (23 - Int.log 2 |(m : ℚ)|).toNat : ℤ) : ℚ) := by push_cast; ring
  rw [this, roundEven_int]
  push_cast
  field_simp

theorem loopR_id (d : Dir) : ∀ (n : Nat) (s : State), loopR id d n s = loop d n s := by
  intro n
  induction n with
  | zero => intro s; rfl
  | succ n ih =>
    intro s
    have hb : loopBodyR id d s = loopBody d s := by cases d <;> rfl
    simp only [loopR, loop, hb]
    split_ifs
    · cases loopBody d s with
      | error e => rfl
      | ok t => exact ih t
    · rfl

theorem stepR_id (s : State) (e : Event) : stepR id s e = step s e := by
  cases e with
  | key k clock =>
    simp only [stepR, step, handleKeyR, handleKey]
    split_ifs
    · cases k <;> rfl
    · rfl
  | tick elapsed =>
    simp only [stepR, step, updateR, update, loopR_id]
    rfl

theorem runR_id (s : State) (evs : List Event) : runR id s evs = run s evs := by
  induction evs generalizing s with
  | nil => rfl
  | cons e es ih =>
    simp only [runR, run, stepR_id]
    cases step s e with
    | error f => rfl
    | ok t => exact ih t

theorem roundEven_tie (z : ℤ) :
    roundEven ((z : ℚ) + 1 / 2) = if z % 2 = 0 then z else z + 1 := by
  have hf : ⌊(z : ℚ) + 1 / 2⌋ = z := Int.floor_eq_iff.mpr ⟨by linarith, by linarith⟩
  unfold roundEven
  rw [hf, if_neg (by norm_num), if_neg (by norm_num)]

theorem roundEven_error (x : ℚ) : |(roundEven x : ℚ) - x| ≤ 1 / 2 := by
  have h1 := Int.floor_le x
  have h2 := Int.lt_floor_add_one x
  unfold roundEven
  rw [abs_le]
  split_ifs with ha hb hc
  · constructor <;> linarith
  · push_cast; constructor <;> linarith
  · constructor <;> linarith
  · push_cast; constructor <;> linarith

theorem fl32_error (q : ℚ) : |fl32 q - q| ≤ (2 : ℚ) ^ ulpExp q / 2 := by
  have hp : (0 : ℚ) < (2 : ℚ) ^ ulpExp q := zpow_pos (by norm_num) _
  unfold fl32
  split_ifs with h0
  · subst h0
    simp only [sub_zero, abs_zero]
    positivity
  · have he := roundEven_error (q / (2 : ℚ) ^ ulpExp q)
    have hq : (roundEven (q / (2 : ℚ) ^ ulpExp q) : ℚ) * (2 : ℚ) ^ ulpExp q - q =
        ((roundEven (q / (2 : ℚ) ^ ulpExp q) : ℚ) - q / (2 : ℚ) ^ ulpExp q) *
          (2 : ℚ) ^ ulpExp q := by
      field_simp
    rw [hq, abs_mul, abs_of_pos hp]
    calc |(roundEven (q / (2 : ℚ) ^ ulpExp q) : ℚ) - q / (2 : ℚ) ^ ulpExp q| *
          (2 : ℚ) ^ ulpExp q ≤ 1 / 2 * (2 : ℚ) ^ ulpExp q :=
          mul_le_mul_of_nonneg_right he hp.le
      _ = (2 : ℚ) ^ ulpExp q / 2 := by ring

theorem fl32_tenth : fl32 (1 / 10) = 13421773 / 134217728 := by
  rw [fl32_of_log _ (-4) 13421773 (by norm_num) (by norm_num [abs_of_pos])
    (by norm_num [abs_of_pos]) (by norm_num [abs_lt])]
  norm_num

theorem fl32_tie_down : fl32 16777217 = 16777216 := by
  have hu : ulpExp 16777217 = 1 :=
    ulpExp_of_log _ 24 (by norm_num) (by norm_num [abs_of_pos]) (by norm_num [abs_of_pos])
  have hx : (16777217 : ℚ) / 2 ^ (1 : ℤ) = ((8388608 : ℤ) : ℚ) + 1 / 2 := by norm_num
  unfold fl32
  rw [if_neg (by norm_num), hu, hx, roundEven_tie, if_pos (by decide)]
  norm_num

theorem fl32_tie_up : fl32 16777219 = 16777220 := by
  have hu : ulpExp 16777219 = 1 :=
    ulpExp_of_log _ 24 (by norm_num) (by norm_num [abs_of_pos]) (by norm_num [abs_of_pos])
  have hx : (16777219 : ℚ) / 2 ^ (1 : ℤ) = ((8388609 : ℤ) : ℚ) + 1 / 2 := by norm_num
  unfold fl32
  rw [if_neg (by norm_num), hu, hx, roundEven_tie, if_neg (by decide)]
  norm_num

/-! ## Glide-through in single precision -/

theorem handleKeyR_exact (fl : ℚ → ℚ) (s : State) (d : Dir) (clock : Int)
    (h : fl (along d (slide d s.cart 1)) = along d (slide d s.cart 1)) :
    handleKeyR fl s d.key clock = handleKey s d.key clock := by
  cases d <;> simp only [along, slide] at h <;>
    simp only [handleKeyR, handleKey, Dir.key, keyLeftR, keyLeft, keyRightR, keyRight,
      keyUpR, keyUp, keyDownR, keyDown, h]

theorem loopBodyR_exact (fl : ℚ → ℚ) (d : Dir) (s : State)
    (h : fl (advance d s).loc = (advance d s).loc) : loopBodyR fl d s = loopBody d s := by
  have ha : advanceR fl d s = advance d s := by
    cases d <;> simp only [advance] at h <;> simp only [advanceR, advance, h]
  unfold loopBodyR loopBody
  rw [ha]

theorem loopBodyR_empty (fl : ℚ → ℚ) (d : Dir) (s : State) (hx : s.pos.x < width)
    (hy : s.pos.y < length) (h0 : s.grid s.pos.y s.pos.x = 0) :
    loopBodyR fl d s = loopBody d s := by
  unfold loopBodyR loopBody
  rw [cellIs_in _ _ _ hy hx]
  simp only [h0, decide_True, Bool.and_self]

theorem loopR_rest (fl : ℚ → ℚ) (d : Dir) (n : Nat) (s : State) (h : loopCond d s = false) :
    loopR fl d n s = loop d n s := by
  cases n with
  | zero => rfl
  | succ n => simp [loopR, loop, h]

theorem advance_gliding_loc (d : Dir) (s : State) (j : Nat) (D : ℚ) :
    (advance d (gliding d s j D)).loc = along d (slide d s.cart ((j + 1 : ℕ) : ℚ)) := by
  cases d <;> simp only [advance, gliding, along, slide, Nat.cast_add, Nat.cast_one] <;> ring

theorem glideR_loop (fl : ℚ → ℚ) (d : Dir) (s : State) (N : Nat) (hr : straightRun d s N)
    (he : exactRun fl d s.cart (N + 1)) (D : ℚ) :
    ∀ m j n : Nat, j + m = N + 1 → 1 ≤ j →
      loopR fl d n (gliding d s j D) = loop d n (gliding d s j D) := by
  obtain ⟨hx, hy, ht, h0⟩ := hr
  intro m
  induction m with
  | zero =>
    intro j n hj h1
    have hjN : j = N + 1 := by omega
    subst hjN
    obtain ⟨sx, sy, sg, -⟩ := aheadIs_shift d s (N + 1) 0 hx hy h0
    cases n with
    | zero => rfl
    | succ n =>
      have hb := loopBodyR_empty fl d (gliding d s (N + 1) D) sx sy sg
      simp only [loopR, loop, hb, loopBody_empty d (gliding d s (N + 1) D) sx sy sg]
      split_ifs
      · exact loopR_rest fl d n _ (loopCond_arrive d _)
      · rfl
  | succ m ih =>
    intro j n hj h1
    have hjN : j ≤ N := by omega
    cases n with
    | zero => rfl
    | succ n =>
      obtain ⟨sx, sy, sg, ss⟩ := aheadIs_shift d s j _ hx hy (ht j h1 hjN)
      have hnext : (ahead d (shift d s.pos j) 1).isSome = true := by
        rw [ahead_shift_add d s.pos j 1 ss]
        exact straightRun_some d s N (j + 1) ⟨hx, hy, ht, h0⟩ (by omega) (by omega)
      have hg : (gliding d s j D).grid (gliding d s j D).pos.y (gliding d s j D).pos.x ≠ 0 := by
        show s.grid (shift d s.pos j).y (shift d s.pos j).x ≠ 0
        rw [sg]; exact track_ne_zero d
      obtain ⟨hb, -, -, -⟩ := loopBody_track d (gliding d s j D) sx sy hg hnext
      rw [stepped_gliding d s j D sx sy hnext] at hb
      have hbR : loopBodyR fl d (gliding d s j D) = .ok (gliding d s (j + 1) D) := by
        rw [loopBodyR_exact fl d _ (by
          rw [advance_gliding_loc]
          exact he (j + 1) (by omega) (by omega)), hb]
      simp only [loopR, loop, hb, hbR]
      split_ifs
      · exact ih (j + 1) n (by omega) (by omega)
      · rfl

theorem updateR_gliding (fl : ℚ → ℚ) (d : Dir) (s : State) (j : Nat) (x e : ℚ) :
    updateR fl (gliding d s j (displaced d (along d s.cart) x)) e =
      loopR fl d loopFuel
        (gliding d s j (displaced d (along d s.cart) (pushed fl d x e))) := by
  cases d <;>
    simp [updateR, gliding, Dir.moving, slide, displaced, pushed, along]

theorem updateR_not_moving (fl : ℚ → ℚ) (s : State) (e : ℚ)
    (h1 : s.state ≠ 1) (h2 : s.state ≠ 2) (h4 : s.state ≠ 4) (h5 : s.state ≠ 5) :
    updateR fl s e = .ok s := by
  unfold updateR
  simp [h1, h2, h4, h5]

theorem runR_ticks_rested (fl : ℚ → ℚ) (d : Dir) (s : State) (N : Nat) (es : List ℚ) :
    runR fl (rested d s N) (es.map Event.tick) = .ok (rested d s N) := by
  have h := rested_state d s N
  induction es with
  | nil => rfl
  | cons e es ih =>
    have hu : updateR fl (rested d s N) e = .ok (rested d s N) := by
      apply updateR_not_moving <;> rw [h] <;> cases d <;> decide
    simp only [List.map_cons, runR, stepR, hu]
    exact ih

theorem glideR_ticks (fl : ℚ → ℚ) (d : Dir) (s : State) (N : Nat) (hr : straightRun d s N)
    (he : exactRun fl d s.cart (N + 1)) :
    ∀ (es : List ℚ) (x : ℚ) (j : Nat), 1 ≤ j → j ≤ N + 1 →
      displaced d (along d s.cart) x ≤ (N : ℚ) + 1 →
      (∃ y ∈ floatPath fl d x es, (N : ℚ) + 1 < displaced d (along d s.cart) y) →
      runR fl (gliding d s j (displaced d (along d s.cart) x)) (es.map Event.tick) =
        .ok (rested d s N) := by
  have hN : N + 1 < 11 := aheadIs_bound d s (N + 1) 0 hr.1 hr.2.1 hr.2.2.2
  intro es
  induction es with
  | nil =>
    intro x j _ _ _ hp
    obtain ⟨y, hy, -⟩ := hp
    simp [floatPath] at hy
  | cons e es ih =>
    intro x j h1 hj hD hp
    have hu := updateR_gliding fl d s j x e
    rw [glideR_loop fl d s N hr he _ (N + 1 - j) j loopFuel (by omega) h1] at hu
    obtain ⟨hpass, hstay⟩ := glide_loop d s N hr
      (displaced d (along d s.cart) (pushed fl d x e)) (N + 1 - j) j loopFuel
      (by omega) h1 (by simp only [loopFuel]; omega)
    simp only [List.map_cons, runR, stepR, hu]
    by_cases hq : (N : ℚ) + 1 < displaced d (along d s.cart) (pushed fl d x e)
    · rw [hpass hq]
      exact runR_ticks_rested fl d s N es
    · obtain ⟨j', h1', hj', hl⟩ := hstay (not_lt.mp hq)
      rw [hl]
      apply ih (pushed fl d x e) j' h1' hj' (not_lt.mp hq)
      obtain ⟨y, hy, hlt⟩ := hp
      simp only [floatPath, List.mem_cons] at hy
      rcases hy with rfl | hy
      · exact absurd hlt hq
      · exact ⟨y, hy, hlt⟩

theorem displaced_self (d : Dir) (c : ℚ) : displaced d c c = 0 := by
  cases d <;> simp [displaced]

theorem exactRun_int (d : Dir) (c : Vec2) (n : Nat) (m : ℤ) (hc : along d c = m)
    (hb : |m| + n < 16777216) : exactRun fl32 d c n := by
  intro k _ hk
  have hm1 : m ≤ |m| := le_abs_self m
  have hm2 : -m ≤ |m| := neg_le_abs m
  have h1 : along d (slide d c k) = ((m - k : ℤ) : ℚ) ∨
      along d (slide d c k) = ((m + k : ℤ) : ℚ) := by
    cases d <;> simp only [along, slide] at hc ⊢ <;> rw [hc] <;> push_cast <;> simp
  rcases h1 with h | h <;> rw [h] <;> apply fl32_int <;> rw [abs_lt] <;> omega

theorem centre_exactRun (d : Dir) (s : State) (n : Nat) (hc : s.cart = centre s)
    (hx : s.pos.x < width) (hy : s.pos.y < length) (hn : n ≤ 11) :
    exactRun fl32 d s.cart n := by
  simp only [width, length] at hx hy
  have h : along d s.cart = (((s.pos.x : ℤ) - 5 : ℤ) : ℚ) ∨
      along d s.cart = ((5 - (s.pos.y : ℤ) : ℤ) : ℚ) := by
    rw [hc]
    cases d <;> simp [along, centre, tileAt]
  rcases h with h | h
  · have hb : |(s.pos.x : ℤ) - 5| ≤ 16 := abs_le.mpr ⟨by omega, by omega⟩
    exact exactRun_int d s.cart n _ h (by omega)
  · have hb : |5 - (s.pos.y : ℤ)| ≤ 16 := abs_le.mpr ⟨by omega, by omega⟩
    exact exactRun_int d s.cart n _ h (by omega)

theorem loop_gliding_step (d : Dir) (s : State) (N : Nat) (hr : straightRun d s N)
    (j n : Nat) (D : ℚ) (h1 : 1 ≤ j) (hj : j ≤ N) (hD : (j : ℚ) < D) :
    loop d (n + 1) (gliding d s j D) = loop d n (gliding d s (j + 1) D) := by
  obtain ⟨hx, hy, ht, h0⟩ := hr
  have hc : loopCond d (gliding d s j D) = true := by
    rw [loopCond_gliding]; simpa using hD
  obtain ⟨sx, sy, sg, ss⟩ := aheadIs_shift d s j _ hx hy (ht j h1 hj)
  have hnext : (ahead d (shift d s.pos j) 1).isSome = true := by
    rw [ahead_shift_add d s.pos j 1 ss]
    exact straightRun_some d s N (j + 1) ⟨hx, hy, ht, h0⟩ (by omega) (by omega)
  have hg : (gliding d s j D).grid (gliding d s j D).pos.y (gliding d s j D).pos.x ≠ 0 := by
    show s.grid (shift d s.pos j).y (shift d s.pos j).x ≠ 0
    rw [sg]; exact track_ne_zero d
  obtain ⟨hb, -, -, -⟩ := loopBody_track d (gliding d s j D) sx sy hg hnext
  rw [stepped_gliding d s j D sx sy hnext] at hb
  exact loop_step d n _ _ hc hb

theorem loop_gliding_done (d : Dir) (s : State) (j n : Nat) (D : ℚ) (hD : D ≤ (j : ℚ)) :
    loop d (n + 1) (gliding d s j D) = .ok (gliding d s j D) := by
  apply loop_done
  rw [loopCond_gliding]
  simpa using hD

theorem runR_absorbed (fl : ℚ → ℚ) (d : Dir) (t : State) (e : ℚ) (hm : t.state = d.moving)
    (hc : loopCond d t = false) (ha : pushed fl d (along d t.cart) e = along d t.cart) :
    ∀ n : Nat, runR fl t ((List.replicate n e).map Event.tick) = .ok t := by
  have hu : updateR fl t e = .ok t := by
    obtain ⟨g, l, p, ⟨cx, cy⟩, lo, st, k⟩ := t
    cases d <;> simp only [Dir.moving] at hm <;> subst hm <;>
      simp only [pushed, along] at ha <;> simp only [loopCond] at hc <;>
      simp [updateR, ha, loopFuel, loopR, loopCond, hc]
  intro n
  induction n with
  | zero => rfl
  | succ n ih =>
    simp only [List.replicate_succ, List.map_cons, runR, stepR, hu]
    exact ih

theorem travelled_replicate (n : Nat) (e : ℚ) :
    travelled (List.replicate n e) = n * (e * speed) := by
  induction n with
  | zero => simp [travelled]
  | succ n ih =>
    rw [List.replicate_succ, travelled_cons, ih]
    push_cast
    ring

theorem fl32_tick_absorbed : fl32 (15 / 8 + 5 / 134217728) = 15 / 8 := by
  rw [fl32_of_log _ 0 15728640 (by norm_num) (by norm_num [abs_of_pos])
    (by norm_num [abs_of_pos]) (by norm_num [abs_lt])]
  norm_num

theorem fl32_tick_product : fl32 (5 / 134217728) = 5 / 134217728 := by
  rw [fl32_of_log _ (-25) 10485760 (by norm_num) (by norm_num [abs_of_pos])
    (by norm_num [abs_of_pos]) (by norm_num [abs_lt])]
  norm_num

theorem fl32_tick : fl32 (1 / 134217728) = 1 / 134217728 := by
  rw [fl32_of_log _ (-27) 8388608 (by norm_num) (by norm_num [abs_of_pos])
    (by norm_num [abs_of_pos]) (by norm_num [abs_lt])]
  norm_num

theorem fl32_three_eighths : fl32 (3 / 8) = 3 / 8 := by
  rw [fl32_of_log _ (-2) 12582912 (by norm_num) (by norm_num [abs_of_pos])
    (by norm_num [abs_of_pos]) (by norm_num [abs_lt])]
  norm_num

theorem fl32_fifteen_eighths : fl32 (15 / 8) = 15 / 8 := by
  rw [fl32_of_log _ 0 15728640 (by norm_num) (by norm_num [abs_of_pos])
    (by norm_num [abs_of_pos]) (by norm_num [abs_lt])]
  norm_num

theorem fl32_half : fl32 (1 / 2) = 1 / 2 := by
  rw [fl32_of_log _ (-1) 8388608 (by norm_num) (by norm_num [abs_of_pos])
    (by norm_num [abs_of_pos]) (by norm_num [abs_lt])]
  norm_num

theorem fl32_five_halves : fl32 (5 / 2) = 5 / 2 := by
  rw [fl32_of_log _ 1 10485760 (by norm_num) (by norm_num [abs_of_pos])
    (by norm_num [abs_of_pos]) (by norm_num [abs_lt])]
  norm_num

theorem fl32_far_target : fl32 33554433 = 33554432 := by
  rw [fl32_of_log _ 25 8388608 (by norm_num) (by norm_num [abs_of_pos])
    (by norm_num [abs_of_pos]) (by norm_num [abs_lt])]
  norm_num

theorem fl32_far_pushed : fl32 33554452 = 33554452 := by
  rw [fl32_of_log _ 25 8388613 (by norm_num) (by norm_num [abs_of_pos])
    (by norm_num [abs_of_pos]) (by norm_num [abs_lt])]
  norm_num

theorem fl32_nat (n : Nat) (hn : n < 16777216) : fl32 (n : ℚ) = n := by
  have h := fl32_int (n : ℤ) (by rw [abs_lt]; omega)
  exact_mod_cast h

theorem loopR_step (fl : ℚ → ℚ) (d : Dir) (n : Nat) (s s' : State) (h : loopCond d s = true)
    (hb : loopBodyR fl d s = .ok s') : loopR fl d (n + 1) s = loopR fl d n s' := by
  simp [loopR, h, hb]

theorem runR_key (fl : ℚ → ℚ) (s s' : State) (k : Key) (clock : Int) (es : List Event)
    (h : handleKeyR fl s k clock = .ok s') :
    runR fl s (Event.key k clock :: es) = runR fl s' es := by
  simp only [runR, stepR, h]

theorem runR_tick (fl : ℚ → ℚ) (s s' : State) (e : ℚ) (es : List Event)
    (h : updateR fl s e = .ok s') : runR fl s (Event.tick e :: es) = runR fl s' es := by
  simp only [runR, stepR, h]

theorem far_key : handleKeyR fl32 farScene .up 0 =
    .ok (farAt ⟨5, 4⟩ 33554432 4 (setTrue farScene.lit 4 5)) := by
  simp only [handleKeyR, keyUpR, farAt, farScene, initial, cellIs, setLit, dec32, length, width]
  norm_num [fl32_far_target, gridOf, level]

theorem far_update (l : Nat → Nat → Bool) :
    updateR fl32 (farAt ⟨5, 4⟩ 33554432 4 l) 4 =
      loopR fl32 .up loopFuel (farAt ⟨5, 4⟩ 33554452 4 l) := by
  have f2 : fl32 20 = 20 := by exact_mod_cast fl32_nat 20 (by norm_num)
  have h : (4 : ℚ) * 5 = 20 := by norm_num
  have h' : (33554432 : ℚ) + 20 = 33554452 := by norm_num
  unfold updateR
  rw [if_neg (by simp [farAt]), if_neg (by simp [farAt]), if_pos (by simp [farAt])]
  simp only [speed, farAt, farScene, initial, h, f2, h', fl32_far_pushed]

theorem far_body (l : Nat → Nat → Bool) :
    loopBodyR fl32 .up (farAt ⟨5, 4⟩ 33554452 4 l) =
      .ok (farAt ⟨5, 3⟩ 33554452 4 (setTrue l 3 5)) := by
  simp only [loopBodyR, advanceR, farAt, farScene, initial, cellIs, setLit, dec32, length, width]
  norm_num [fl32_far_target, gridOf, level]

theorem far_arrive (l : Nat → Nat → Bool) :
    loopBodyR fl32 .up (farAt ⟨5, 3⟩ 33554452 4 l) = .ok (farAt ⟨5, 3⟩ 33554432 3 l) := by
  simp only [loopBodyR, arrive, probe, farAt, farScene, initial, cellIs, setLit, length, width]
  norm_num [gridOf, level]

theorem far_run :
    runR fl32 farScene [Event.key .up 0, Event.tick 4] =
      .ok (farAt ⟨5, 3⟩ 33554432 3 (setTrue (setTrue farScene.lit 4 5) 3 5)) := by
  have hc1 : ∀ l, loopCond .up (farAt ⟨5, 4⟩ 33554452 4 l) = true := by
    intro l; simp only [loopCond, farAt]; norm_num
  have hc2 : ∀ l, loopCond .up (farAt ⟨5, 3⟩ 33554452 4 l) = true := by
    intro l; simp only [loopCond, farAt]; norm_num
  have hc3 : ∀ l, loopCond .up (farAt ⟨5, 3⟩ 33554432 3 l) = false := by
    intro l; simp only [loopCond, farAt]; norm_num
  have hl : ∀ l, loopR fl32 .up loopFuel (farAt ⟨5, 4⟩ 33554452 4 l) =
      .ok (farAt ⟨5, 3⟩ 33554432 3 (setTrue l 3 5)) := by
    intro l
    rw [loopFuel, loopR_step fl32 .up 11 _ _ (hc1 _) (far_body _),
      loopR_step fl32 .up 10 _ _ (hc2 _) (far_arrive _), loopR_rest fl32 .up 10 _ (hc3 _),
      loop_done .up 9 _ (hc3 _)]
  rw [runR_key fl32 _ _ _ _ _ far_key,
    runR_tick fl32 _ _ _ _ ((far_update _).trans (hl _))]
  rfl

theorem travelled_nonneg (es : List ℚ) (h : ∀ e ∈ es, 0 ≤ e) : 0 ≤ travelled es := by
  induction es with
  | nil => simp [travelled]
  | cons e es ih =>
    rw [travelled_cons]
    have h1 : 0 ≤ e := h e (List.mem_cons_self _ _)
    have h2 := ih (fun x hx => h x (List.mem_cons_of_mem _ hx))
    simp only [speed]
    linarith

theorem displaced_pushed_id (d : Dir) (c x e : ℚ) :
    displaced d c (pushed id d x e) = displaced d c x + e * speed := by
  cases d <;> simp only [displaced, pushed, id] <;> ring

theorem carried_from_exact (d : Dir) (c u : ℚ) :
    ∀ (es : List ℚ) (x : ℚ), (∀ e ∈ es, 0 ≤ e) → displaced d c x ≤ u →
      ((∃ y ∈ floatPath id d x es, u < displaced d c y) ↔
        u < displaced d c x + travelled es) := by
  intro es
  induction es with
  | nil =>
    intro x _ hx
    simp only [floatPath, List.not_mem_nil, false_and, exists_false, travelled, List.map_nil,
      List.sum_nil, add_zero, false_iff, not_lt]
    exact hx
  | cons e es ih =>
    intro x hnn hx
    have h1 : 0 ≤ e := hnn e (List.mem_cons_self _ _)
    have hnn' : ∀ a ∈ es, 0 ≤ a := fun a ha => hnn a (List.mem_cons_of_mem _ ha)
    have ht := travelled_nonneg es hnn'
    have hd := displaced_pushed_id d c x e
    rw [travelled_cons]
    simp only [floatPath, List.mem_cons, exists_eq_or_imp]
    by_cases hq : u < displaced d c (pushed id d x e)
    · constructor
      · intro _
        rw [hd] at hq
        linarith
      · intro _
        exact Or.inl hq
    · rw [ih (pushed id d x e) hnn' (not_lt.mp hq), hd]
      constructor
      · rintro (h | h) <;> linarith
      · intro h
        exact Or.inr (by linarith)

theorem carried_exact (d : Dir) (c u : ℚ) (es : List ℚ) (hnn : ∀ e ∈ es, 0 ≤ e)
    (hu : 0 ≤ u) : carried id d c u es ↔ u < travelled es := by
  unfold carried
  rw [carried_from_exact d c u es c hnn (by rw [displaced_self]; exact hu), displaced_self,
    zero_add]

theorem fl32_two_fifths : fl32 (13421773 / 33554432) = 13421773 / 33554432 := by
  rw [fl32_of_log _ (-2) 13421773 (by norm_num) (by norm_num [abs_of_pos])
    (by norm_num [abs_of_pos]) (by norm_num [abs_lt])]
  norm_num

theorem fl32_two_fifths_product : fl32 (67108865 / 33554432) = 2 := by
  rw [fl32_of_log _ 1 8388608 (by norm_num) (by norm_num [abs_of_pos])
    (by norm_num [abs_of_pos]) (by norm_num [abs_lt])]
  norm_num

theorem glideR_moving (fl : ℚ → ℚ) (d : Dir) (s : State) (N : Nat) (hr : straightRun d s N)
    (he : exactRun fl d s.cart (N + 1)) :
    ∀ (es : List ℚ) (x : ℚ) (j : Nat), 1 ≤ j → j ≤ N + 1 →
      (∀ y ∈ floatPath fl d x es, displaced d (along d s.cart) y ≤ (N : ℚ) + 1) →
      ∃ (k : Nat) (D : ℚ),
        runR fl (gliding d s j (displaced d (along d s.cart) x)) (es.map Event.tick) =
          .ok (gliding d s k D) := by
  have hN : N + 1 < 11 := aheadIs_bound d s (N + 1) 0 hr.1 hr.2.1 hr.2.2.2
  intro es
  induction es with
  | nil =>
    intro x j _ _ _
    exact ⟨j, _, rfl⟩
  | cons e es ih =>
    intro x j h1 hj hp
    have hu := updateR_gliding fl d s j x e
    rw [glideR_loop fl d s N hr he _ (N + 1 - j) j loopFuel (by omega) h1] at hu
    obtain ⟨-, hstay⟩ := glide_loop d s N hr
      (displaced d (along d s.cart) (pushed fl d x e)) (N + 1 - j) j loopFuel
      (by omega) h1 (by simp only [loopFuel]; omega)
    obtain ⟨k, h1', hk, hl⟩ := hstay (hp _ (by simp [floatPath]))
    rw [hl] at hu
    rw [List.map_cons, runR_tick fl _ _ _ _ hu]
    exact ih (pushed fl d x e) k h1' hk (fun y hy => hp y (by simp [floatPath, hy]))

/-- C2, refuted as stated, in single precision. On the shipped level the cell above the
start is vertical track and the cell after it is Empty (`N = 1`), and the start is the
centre of its cell.

First, the rounded product. After an Up request, one update with the elapsed time
`0.4f = 13421773 / 2^25` has `elapsed * 5 = 2.00000003 > 2` exactly, but the binary32
product is `2`: the cart arrives exactly on its target `cart.y = 2`, the strict test
`cart.y > loc` fails and the cart stays in mode 4 (in exact arithmetic the same events
leave it at rest).

Second, no margin in the sum helps. After an Up request and an update with elapsed time
`3/8` (`cart.y = 15/8`), each update with elapsed time `2^-27` adds `5 * 2^-27`, less
than half the spacing `2^-23` of the binary32 numbers there, and the sum is rounded back
to `15/8`. All these elapsed times are non-negative binary32 numbers, `2^27` such updates
bring the sum of `elapsed * 5` to `55/8`, and the cart is still in mode 4 at
`cart.y = 15/8`, below its target `2`.

Third, the resting position is not `N + 1` units from every start. With the cart idle
on the start cell at `cart.y = 2^25` (`farScene`), where the binary32 numbers are 4
apart, the target `cart.y + 1` is rounded back to `cart.y`: an Up request and one update
with elapsed time `4` carry the cart 20 units and leave it at rest two cells further
with `cart.y = 2^25`, where it started. -/
theorem glide_sum_counterexample :
    straightRun .up initial 1 ∧ initial.state = 0 ∧ initial.cart = centre initial ∧
    ((0 : ℚ) ≤ 13421773 / 33554432 ∧ fl32 (13421773 / 33554432) = 13421773 / 33554432 ∧
      (1 : ℚ) + 1 < travelled [13421773 / 33554432] ∧
      run initial [Event.key .up 0, Event.tick (13421773 / 33554432)] =
        .ok (rested .up initial 1) ∧
      runR fl32 initial [Event.key .up 0, Event.tick (13421773 / 33554432)] =
        .ok (gliding .up initial 2 2) ∧
      (gliding .up initial 2 2).state = 4 ∧
      (gliding .up initial 2 2).cart = ⟨0, 2⟩ ∧
      (gliding .up initial 2 2).loc = 2) ∧
    ((∀ e ∈ (3 / 8 : ℚ) :: List.replicate 134217728 (1 / 134217728), 0 ≤ e ∧ fl32 e = e) ∧
      (1 : ℚ) + 1 < travelled ((3 / 8 : ℚ) :: List.replicate 134217728 (1 / 134217728)) ∧
      runR fl32 initial (Event.key .up 0 ::
          ((3 / 8 : ℚ) :: List.replicate 134217728 (1 / 134217728)).map Event.tick) =
        .ok (gliding .up initial 2 (15 / 8)) ∧
      (gliding .up initial 2 (15 / 8)).state = 4 ∧
      (gliding .up initial 2 (15 / 8)).cart = ⟨0, 15 / 8⟩ ∧
      (gliding .up initial 2 (15 / 8)).loc = 2) ∧
    (straightRun .up farScene 1 ∧ farScene.state = 0 ∧ fl32 4 = 4 ∧
      carried fl32 .up (along .up farScene.cart) ((1 : ℚ) + 1) [4] ∧
      (runR fl32 farScene [Event.key .up 0, Event.tick 4]).map
          (fun t => (t.state, t.pos, t.cart)) = .ok (3, ⟨5, 3⟩, farScene.cart) ∧
      slide .up farScene.cart ((1 : ℚ) + 1) ≠ farScene.cart) := by
  have hr : straightRun .up initial 1 :=
    ⟨by decide, by decide, fun k h1 h4 => by interval_cases k; decide, by decide⟩
  have hrf : straightRun .up farScene 1 :=
    ⟨by decide, by decide, fun k h1 h4 => by interval_cases k; decide, by decide⟩
  have f2 : fl32 2 = 2 := by exact_mod_cast fl32_nat 2 (by norm_num)
  have f4 : fl32 4 = 4 := by exact_mod_cast fl32_nat 4 (by norm_num)
  have he : exactRun fl32 .up initial.cart 2 :=
    exactRun_int .up _ 2 0 (by simp [along, initial]) (by norm_num)
  have hk : handleKeyR fl32 initial Key.up 0 = .ok (gliding .up initial 1 0) := by
    show handleKeyR fl32 initial Dir.up.key 0 = _
    rw [handleKeyR_exact fl32 initial .up 0 (he 1 (le_refl _) (by omega)),
      handleKey_dir initial .up 0 (Or.inl rfl) hr.1 hr.2.1,
      if_pos (hr.2.2.1 1 (le_refl _) (le_refl _)), advanced_eq_gliding]
  have hd : ∀ y : ℚ, displaced .up (along .up initial.cart) y = y := by
    intro y; simp [displaced, along, initial]
  have hu : ∀ e y : ℚ, pushed fl32 .up 0 e = y → 1 < y → y ≤ 2 →
      updateR fl32 (gliding .up initial 1 0) e = .ok (gliding .up initial 2 y) := by
    intro e y hp h1 h2
    have h := updateR_gliding fl32 .up initial 1 0 e
    rw [hp, hd, hd, glideR_loop fl32 .up initial 1 hr he _ 1 1 loopFuel rfl (le_refl _),
      loopFuel, loop_gliding_step .up initial 1 hr 1 11 _ (le_refl _) (le_refl _)
        (by simpa using h1),
      loop_gliding_done .up initial 2 10 _ (by simpa using h2)] at h
    exact h
  have hs : (1 : ℚ) + 1 < travelled [13421773 / 33554432] := by
    simp only [travelled, speed, List.map_cons, List.map_nil, List.sum_cons, List.sum_nil]
    norm_num
  refine ⟨hr, rfl, ?_, ⟨by norm_num, fl32_two_fifths, hs, ?_, ?_, rfl, ?_, ?_⟩,
    ⟨?_, ?_, ?_, rfl, ?_, ?_⟩, hrf, rfl, f4, ?_, ?_, ?_⟩
  · simp only [centre, tileAt, initial]
    norm_num
  · exact (glide_through .up initial 1 0 [13421773 / 33554432] (Or.inl rfl) (le_refl _) hr
      (by simpa using hs)).1
  · have hp : pushed fl32 .up 0 (13421773 / 33554432) = 2 := by
      have h : (13421773 / 33554432 : ℚ) * 5 = 67108865 / 33554432 := by norm_num
      simp only [pushed, speed, h, fl32_two_fifths_product, zero_add, f2]
    rw [runR_key fl32 _ _ _ _ _ hk, runR_tick fl32 _ _ _ _ (hu _ 2 hp (by norm_num) (le_refl _))]
    rfl
  · show (⟨0, 0 + 2⟩ : Vec2) = ⟨0, 2⟩
    rw [zero_add]
  · show (0 : ℚ) + ((2 : ℕ) : ℚ) = 2
    norm_num
  · intro e he
    rw [List.mem_cons] at he
    rcases he with rfl | he
    · exact ⟨by norm_num, fl32_three_eighths⟩
    · rw [List.eq_of_mem_replicate he]
      exact ⟨by norm_num, fl32_tick⟩
  · rw [travelled_cons, travelled_replicate]
    simp only [speed]
    norm_num
  · have hp : pushed fl32 .up 0 (3 / 8) = 15 / 8 := by
      have h : (3 / 8 : ℚ) * 5 = 15 / 8 := by norm_num
      simp only [pushed, speed, h, fl32_fifteen_eighths, zero_add]
    have ha : runR fl32 (gliding .up initial 2 (15 / 8))
        ((List.replicate 134217728 (1 / 134217728 : ℚ)).map Event.tick) =
        .ok (gliding .up initial 2 (15 / 8)) := by
      apply runR_absorbed fl32 .up _ _ rfl
      · rw [loopCond_gliding]; norm_num
      · have h : (1 / 134217728 : ℚ) * 5 = 5 / 134217728 := by norm_num
        show pushed fl32 .up (0 + 15 / 8) (1 / 134217728) = 0 + 15 / 8
        simp only [pushed, speed, h, fl32_tick_product, zero_add, fl32_tick_absorbed]
    rw [List.map_cons, runR_key fl32 _ _ _ _ _ hk,
      runR_tick fl32 _ _ _ _ (hu _ (15 / 8) hp (by norm_num) (by norm_num))]
    exact ha
  · show (⟨0, 0 + 15 / 8⟩ : Vec2) = ⟨0, 15 / 8⟩
    rw [zero_add]
  · show (0 : ℚ) + ((2 : ℕ) : ℚ) = 2
    norm_num
  · refine ⟨33554452, ?_, ?_⟩
    · have h : (4 : ℚ) * 5 = 20 := by norm_num
      have h2 : (33554432 : ℚ) + 20 = 33554452 := by norm_num
      have f20 : fl32 20 = 20 := by exact_mod_cast fl32_nat 20 (by norm_num)
      simp only [floatPath, pushed, along, farScene, speed, h, f20, h2, fl32_far_pushed,
        List.mem_singleton]
    · simp only [displaced, along, farScene]
      norm_num
  · rw [far_run]
    rfl
  · simp only [slide, farScene]
    intro h
    have h2 := congrArg Vec2.y h
    simp only at h2
    norm_num at h2

/-- C2, amended. Glide-through in single precision (`runR fl32`): the cart is idle
inside the grid, the next `N >= 1` cells in a direction are matching track cells, the cell
after them is Empty and inside the grid, and the target offsets `1, ..., N + 1` units
from the continuous position are binary32 numbers (`exactRun`; so it is at the centre of
every cell, `centre_exactRun`). Then one directional request followed by any sequence of
update steps one of which carries the cart more than `N + 1` units from where it started
(`carried`: the coordinate after each update is `fl32 (x + fl32 (elapsed * 5))`, with `-`
for Left and Down) returns the state `rested`: the Idle mode of the direction, the grid
position at that Empty cell, the continuous position exactly `N + 1` units from the
start, the grid unchanged, and a cell is lit exactly when it was lit before, or is one of
the `N + 1` traversed cells, or is the first neighbour of the resting cell in the order
left, right, up, down that holds Gold. (The elapsed times may be any rationals, in
particular any non-negative binary32 numbers. When no update carries the cart that far,
the cart is still in its Moving mode, `glideR_moving`; without rounding and for
non-negative elapsed times, `carried` says that the sum of `elapsed * 5` exceeds
`N + 1`, `carried_exact`.) -/
theorem float_glide_through (d : Dir) (s : State) (N : Nat) (clock : Int) (es : List ℚ)
    (hm : s.state = 0 ∨ s.state = 3) (hN : 1 ≤ N) (hr : straightRun d s N)
    (he : exactRun fl32 d s.cart (N + 1))
    (hp : carried fl32 d (along d s.cart) ((N : ℚ) + 1) es) :
    runR fl32 s (Event.key d.key clock :: es.map Event.tick) = .ok (rested d s N) ∧
    (rested d s N).state = d.idle ∧
    (rested d s N).pos = shift d s.pos (N + 1) ∧
    s.grid (shift d s.pos (N + 1)).y (shift d s.pos (N + 1)).x = 0 ∧
    (rested d s N).cart = slide d s.cart ((N : ℚ) + 1) ∧
    (rested d s N).grid = s.grid ∧
    ∀ r c, (rested d s N).lit r c = true ↔
      (s.lit r c = true ∨ (∃ k, 1 ≤ k ∧ k ≤ N + 1 ∧ shift d s.pos k = ⟨c, r⟩) ∨
        firstNeighbour (arrived d s (N + 1)) 3 = some (r, c)) := by
  obtain ⟨pg, pp, pc, -, ps, -⟩ := probed_fields (arrived d s (N + 1))
  refine ⟨?_, rested_state d s N, pp, (aheadIs_shift d s (N + 1) 0 hr.1 hr.2.1 hr.2.2.2).2.2.1,
    ?_, pg, ?_⟩
  · have hk : handleKeyR fl32 s d.key clock = .ok (gliding d s 1 0) := by
      rw [handleKeyR_exact fl32 s d clock (by simpa using he 1 (le_refl _) (by omega)),
        handleKey_dir s d clock hm hr.1 hr.2.1, if_pos (hr.2.2.1 1 (le_refl _) hN),
        advanced_eq_gliding]
    simp only [runR, stepR, hk]
    have h0 := glideR_ticks fl32 d s N hr he es (along d s.cart) 1 (le_refl _) (by omega)
      (by rw [displaced_self]
          have : (0 : ℚ) ≤ N := Nat.cast_nonneg N
          linarith) hp
    rw [displaced_self] at h0
    exact h0
  · show (probed (arrived d s (N + 1))).cart = _
    rw [pc]
    simp only [arrived, Nat.cast_add, Nat.cast_one]
  · intro r c
    show (probed (arrived d s (N + 1))).lit r c = true ↔ _
    rw [probed_lit_iff]
    show (litRun d s.pos (N + 1) s.lit r c = true ∨ _) ↔ _
    rw [litRun_iff, or_assoc]

/-- C2 amended, on the shipped level: from `westScene` (the cart idle at the centre of
row 5, column 0) the cell above is vertical track and row 3, column 0 is Empty, below
the Gold at row 2, column 0. An Up request and one update with elapsed time `1/2` (the
cart carried `2.5 > 2` units) leave the cart idle at row 3, column 0, two units up, and
the lighting probe lights the Gold cell at row 2, column 0. -/
theorem float_glide_through_witness :
    straightRun .up westScene 1 ∧ exactRun fl32 .up westScene.cart (1 + 1) ∧
    carried fl32 .up (along .up westScene.cart) (((1 : ℕ) : ℚ) + 1) [1 / 2] ∧
    firstNeighbour (arrived .up westScene (1 + 1)) 3 = some (2, 0) ∧
    runR fl32 westScene (Event.key Dir.up.key 0 :: [1 / 2].map Event.tick) =
      .ok (rested .up westScene 1) ∧
    (rested .up westScene 1).state = Dir.up.idle ∧
    (rested .up westScene 1).pos = shift .up westScene.pos (1 + 1) ∧
    westScene.grid (shift .up westScene.pos (1 + 1)).y (shift .up westScene.pos (1 + 1)).x = 0 ∧
    (rested .up westScene 1).cart = slide .up westScene.cart (((1 : ℕ) : ℚ) + 1) ∧
    (rested .up westScene 1).grid = westScene.grid ∧
    ∀ r c, (rested .up westScene 1).lit r c = true ↔
      (westScene.lit r c = true ∨
        (∃ k, 1 ≤ k ∧ k ≤ 1 + 1 ∧ shift .up westScene.pos k = ⟨c, r⟩) ∨
        firstNeighbour (arrived .up westScene (1 + 1)) 3 = some (r, c)) :=
  have hr : straightRun .up westScene 1 :=
    ⟨by decide, by decide, fun k h1 h4 => by interval_cases k; decide, by decide⟩
  have he : exactRun fl32 .up westScene.cart (1 + 1) :=
    exactRun_int .up _ 2 0 (by simp [along, westScene]) (by norm_num)
  have hp : carried fl32 .up (along .up westScene.cart) (((1 : ℕ) : ℚ) + 1) [1 / 2] := by
    refine ⟨5 / 2, ?_, ?_⟩
    · have h : (1 / 2 : ℚ) * 5 = 5 / 2 := by norm_num
      simp only [floatPath, pushed, along, westScene, speed, h, fl32_five_halves, zero_add,
        List.mem_singleton]
    · simp only [displaced, along, westScene]
      norm_num
  ⟨hr, he, hp, by decide,
    float_glide_through .up westScene 1 0 [1 / 2] (Or.inl rfl) (by decide) hr he hp⟩

end CaveExplorer
